import Mathlib

/-!
# ARC analysis utilities of the SIL optimizer: a verification development

## Part 1: the epilogue-release dumper

`SILEpilogueReleaseMatcherDumper::run`
(`lib/SILOptimizer/UtilityPasses/EpilogueReleaseMatcherDumper.cpp`) walks the
functions of a module and writes to `llvm::outs()`.  The stream is embedded as
the text written so far (a `String` that every `<<` extends at its end).  The
printers of arguments and instructions and the epilogue-release matcher live
outside the file; they are fields of `DumperEnv`.
-/

namespace Dumper

/-- A SIL function as far as the dumper looks at it: `getName()`,
`isDefinition()` and `getArguments()`. -/
structure SILFunction (Arg : Type) where
  name : String
  isDefinition : Bool
  arguments : List Arg

/-- The collaborators of the pass: `operator<<` on an argument, `operator<<`
on an instruction, and `ConsumedArgToEpilogueReleaseMatcher(RCIA->get(&Fn),
&Fn).getReleasesForArgument(Arg)`, which is built per function. -/
structure DumperEnv (Arg Inst : Type) where
  printArgument : Arg → String
  printInstruction : Inst → String
  getReleasesForArgument : SILFunction Arg → Arg → List Inst

variable {Arg Inst : Type}

/-- The inner loop `for (auto &RI : ...getReleasesForArgument(Arg)) outs() << *RI;`. -/
def dumpReleases (env : DumperEnv Arg Inst) (rs : List Inst) (os : String) : String :=
  rs.foldl (fun os ri => os ++ env.printInstruction ri) os

/-- The loop `for (auto Arg : Fn.getArguments())`: the argument, then its
epilogue releases. -/
def dumpArguments (env : DumperEnv Arg Inst) (fn : SILFunction Arg)
    (args : List Arg) (os : String) : String :=
  args.foldl
    (fun os arg => dumpReleases env (env.getReleasesForArgument fn arg)
      (os ++ env.printArgument arg)) os

/-- One iteration of `for (auto &Fn : *getModule())`. -/
def runOnFunction (env : DumperEnv Arg Inst) (os : String) (fn : SILFunction Arg) : String :=
  if !fn.isDefinition then os
  else
    let os := os ++ "START: sil @" ++ fn.name ++ "\n"
    let os := dumpArguments env fn fn.arguments os
    os ++ "END: sil @" ++ fn.name ++ "\n"

/-- The pass on a module whose functions are `fns`, from stream contents `os`. -/
def runFrom (env : DumperEnv Arg Inst) (fns : List (SILFunction Arg)) (os : String) : String :=
  fns.foldl (runOnFunction env) os

/-- The text `SILEpilogueReleaseMatcherDumper::run` writes for a module. -/
def run (env : DumperEnv Arg Inst) (fns : List (SILFunction Arg)) : String :=
  runFrom env fns ""

/-! ### The record of writes

The same loop, keeping for every write the statement that issued it, so that
"a START line is emitted" is a statement about the pass and not about the
characters of some argument's textual form. -/

/-- One write of the pass, by the statement issuing it. -/
inductive Write (Arg Inst : Type) where
  /-- The statement `outs() << "START: sil @" << Fn.getName() << "\n"`. -/
  | start (fnName : String)
  /-- The statement `outs() << *Arg`. -/
  | argument (arg : Arg)
  /-- The statement `outs() << *RI`. -/
  | release (ri : Inst)
  /-- The statement `outs() << "END: sil @" << Fn.getName() << "\n"`. -/
  | finish (fnName : String)

/-- The characters a write puts on the stream. -/
def Write.text (env : DumperEnv Arg Inst) : Write Arg Inst → String
  | .start n => "START: sil @" ++ n ++ "\n"
  | .argument a => env.printArgument a
  | .release ri => env.printInstruction ri
  | .finish n => "END: sil @" ++ n ++ "\n"

/-- One iteration of the module loop, as writes. -/
def writesOnFunction (env : DumperEnv Arg Inst) (ws : List (Write Arg Inst))
    (fn : SILFunction Arg) : List (Write Arg Inst) :=
  if !fn.isDefinition then ws
  else
    let ws := ws ++ [Write.start fn.name]
    let ws := fn.arguments.foldl
      (fun ws arg => (env.getReleasesForArgument fn arg).foldl
        (fun ws ri => ws ++ [Write.release ri]) (ws ++ [Write.argument arg])) ws
    ws ++ [Write.finish fn.name]

/-- The writes of the pass on a module, in the order issued. -/
def runWrites (env : DumperEnv Arg Inst) (fns : List (SILFunction Arg)) :
    List (Write Arg Inst) :=
  fns.foldl (writesOnFunction env) []

/-! ### What the specification says the output is -/

/-- The line `START: sil @<function-name>`. -/
def startLine (name : String) : String := "START: sil @" ++ name ++ "\n"

/-- The line `END: sil @<function-name>`. -/
def endLine (name : String) : String := "END: sil @" ++ name ++ "\n"

/-- The text between the two marker lines according to the specification:
for each argument in order, its textual form followed by the textual form of
each of its matched releases. -/
def specBody (env : DumperEnv Arg Inst) (fn : SILFunction Arg) : String :=
  String.join (fn.arguments.map fun a =>
    env.printArgument a ++
      String.join ((env.getReleasesForArgument fn a).map env.printInstruction))

/-- The block the specification prescribes for one function definition. -/
def specBlock (env : DumperEnv Arg Inst) (fn : SILFunction Arg) : String :=
  startLine fn.name ++ specBody env fn ++ endLine fn.name

/-- The function definitions of a module, in module order. -/
def definitions (fns : List (SILFunction Arg)) : List (SILFunction Arg) :=
  fns.filter fun fn => fn.isDefinition

/-- The writes between the two marker writes of a function. -/
def bodyWrites (env : DumperEnv Arg Inst) (fn : SILFunction Arg) : List (Write Arg Inst) :=
  fn.arguments.flatMap fun a =>
    Write.argument a :: (env.getReleasesForArgument fn a).map Write.release

/-- The writes of one function definition. -/
def blockWrites (env : DumperEnv Arg Inst) (fn : SILFunction Arg) : List (Write Arg Inst) :=
  Write.start fn.name :: (bodyWrites env fn ++ [Write.finish fn.name])

/-- A sample environment: an argument and an instruction are given by their
textual form, and the matcher knows one release for the argument `%0` of the
function `single_release`. -/
def sampleEnv : DumperEnv String String where
  printArgument := fun a => a
  printInstruction := fun i => i
  getReleasesForArgument := fun fn a =>
    if fn.name = "single_release" ∧ a = "%0 = argument of bb0 : $Foo\n" then
      ["strong_release %0 : $Foo\n"]
    else []

/-- A definition with one owned argument that is released in the epilogue. -/
def singleRelease : SILFunction String :=
  { name := "single_release", isDefinition := true,
    arguments := ["%0 = argument of bb0 : $Foo\n"] }

/-- A definition named `example` with one argument and no matched release. -/
def exampleFn : SILFunction String :=
  { name := "example", isDefinition := true,
    arguments := ["%0 = argument of bb0 : $Foo\n"] }

/-- A declaration without a body. -/
def externalDecl : SILFunction String :=
  { name := "external", isDefinition := false, arguments := [] }

end Dumper

/-!
## Part 2: the per-region ARC state (`lib/SILPasses/ARC/ARCRegionState.h`)

The header gives the fields of `ARCRegionState` and the bodies of its
accessors; these are embedded as written.  The state classes, the blotting
map, the region class and the bodies of the merge and process members are not
among the sources: they are modelled from the specification, each under a
comment that says so.
-/

namespace ARC

/-- An IR value (`SILValue`), by identity. -/
abbrev SILValue := Nat

/-- Modelled from the spec: the instruction classes are not among the sources.
§4.1 and §9 ask for a closed sum over the instruction kinds the transfer rules
tell apart: a retain of a value, a release of a value, an instruction that may
use a value (rule 3), an instruction whose effects are not statically known
such as a call (rule 4), and an instruction without effect on reference counts
such as a return. -/
inductive InstKind where
  | retain (operand : SILValue)
  | release (operand : SILValue)
  | use (operand : SILValue)
  | unknownEffects
  | inert
  deriving DecidableEq

/-- Modelled from the spec: the class `SILInstruction` is not among the
sources.  An instruction is its identity (the `SILInstruction *` the maps are
keyed by) and its kind. -/
structure SILInstruction where
  id : Nat
  kind : InstKind
  deriving DecidableEq

/-- Modelled from the spec: the classes `TopDownRefCountState` and
`BottomUpRefCountState` are not among the sources.  §3: a lattice element in
Top (no information), Matched (with its set of contributing instructions,
still valid), Unknown or Bottom (paths disagree or an invalidating use
occurred).  Contributing instructions are held by identity. -/
inductive RefCountState where
  | Top
  | Matched (insts : Finset Nat)
  | Unknown
  deriving DecidableEq

/-- A newly initialized state carries no information. -/
instance : Inhabited RefCountState := ⟨RefCountState.Top⟩

/-- The top-down flavour of the state. -/
abbrev TopDownRefCountState := RefCountState

/-- The bottom-up flavour of the state. -/
abbrev BottomUpRefCountState := RefCountState

/-- Modelled from the spec: the meet of `RefCountState` is not among the
sources.  §3: meet(Top, X) = X; meet(Matched(a), Matched(b)) = Matched(a) only
if a and b denote the same underlying match, else Bottom; meet(Bottom, X) =
Bottom.  Two instruction sets denote the same match when they are equal.  The
two cases the three equations leave open, meet(Matched(a), Top) and
meet(Matched(a), Bottom), are the first and the third equation with the
arguments exchanged. -/
def RefCountState.meet : RefCountState → RefCountState → RefCountState
  | .Top, x => x
  | .Unknown, _ => .Unknown
  | .Matched a, .Matched b => if a = b then .Matched a else .Unknown
  | .Matched a, .Top => .Matched a
  | .Matched _, .Unknown => .Unknown

/-- Modelled from the spec: the meet of a sequence of states, taken from left
to right; §3 makes Top the neutral element, so the meet of no state is Top. -/
def RefCountState.meetAll (l : List RefCountState) : RefCountState :=
  l.foldl RefCountState.meet .Top

/-- Modelled from the spec: the container `SmallBlotMapVector` is not among the
sources.  §9: a mapping to an optional value per slot, with erase setting the
slot empty rather than removing the key; §5: erasing tombstones the slot
instead of physically removing it, and readers treat a tombstoned slot as
absent.  A slot is a key with an optional value; slots stand in the order in
which their keys were first inserted. -/
structure BlotMapVector (K V : Type) where
  slots : List (K × Option V)

namespace BlotMapVector

variable {K V : Type} [DecidableEq K]

/-- Modelled from the spec: the container's lookup on the slots: the value of
the slot keyed by `k`, if there is such a slot and it is live. -/
def slotsFind (k : K) : List (K × Option V) → Option V
  | [] => none
  | (k', o) :: rest => if k' = k then o else slotsFind k rest

/-- Modelled from the spec: the container's erase on the slots, §9: empty the
slot keyed by `k`, keeping the slot and its key. -/
def slotsBlot (k : K) : List (K × Option V) → List (K × Option V)
  | [] => []
  | (k', o) :: rest => if k' = k then (k', none) :: rest else (k', o) :: slotsBlot k rest

/-- Modelled from the spec: the container's insertion on the slots: put `v` in
the slot keyed by `k`, which reuses a tombstoned slot of `k` (§8); a key
without a slot gets a new slot at the end. -/
def slotsStore (k : K) (v : V) : List (K × Option V) → List (K × Option V)
  | [] => [(k, some v)]
  | (k', o) :: rest =>
    if k' = k then (k', some v) :: rest else (k', o) :: slotsStore k v rest

/-- Modelled from the spec: the container without any slot. -/
def empty : BlotMapVector K V := ⟨[]⟩

/-- Modelled from the spec: the container's lookup `find`: the live value for
`k`, a tombstoned slot counting as absent (§5). -/
def find? (m : BlotMapVector K V) (k : K) : Option V := slotsFind k m.slots

/-- Modelled from the spec: the container's operation `blot`: tombstone the
entry of `k` (§5). -/
def blot (m : BlotMapVector K V) (k : K) : BlotMapVector K V := ⟨slotsBlot k m.slots⟩

/-- Modelled from the spec: an assignment through the reference that the
container's subscript for `k` returned. -/
def store (m : BlotMapVector K V) (k : K) (v : V) : BlotMapVector K V :=
  ⟨slotsStore k v m.slots⟩

/-- Modelled from the spec: the container's subscript `operator[]`, which the
header describes at its two callers: find the live value for `k`, or else give
`k` a newly initialized value.  Returns the map after the call and the value
the returned reference denotes. -/
def subscript [Inhabited V] (m : BlotMapVector K V) (k : K) : BlotMapVector K V × V :=
  match m.find? k with
  | some v => (m, v)
  | none => (m.store k default, default)

/-- Modelled from the spec: the container's operation `clear`: drop every slot. -/
def clear (_m : BlotMapVector K V) : BlotMapVector K V := ⟨[]⟩

/-- Modelled from the spec: what an iteration over the container from
`begin()` to `end()` visits: one item per slot in slot order, a tombstoned slot
showing as `none` (§5). -/
def iterate (m : BlotMapVector K V) : List (Option (K × V)) :=
  m.slots.map fun slot => slot.2.map fun v => (slot.1, v)

/-- Modelled from the spec: the entries a reader of the container observes,
§5: the live ones, in slot order. -/
def liveEntries (m : BlotMapVector K V) : List (K × V) := m.iterate.reduceOption

/-- Modelled from the spec: the number of slots of the container, live plus
tombstoned. -/
def numSlots (m : BlotMapVector K V) : Nat := m.slots.length

/-- Modelled from the spec: a loop over the container's slots that skips
tombstones and rewrites each live value. -/
def mapLive (f : K → V → V) (m : BlotMapVector K V) : BlotMapVector K V :=
  ⟨m.slots.map fun slot => (slot.1, slot.2.map (f slot.1))⟩

/-- The representation invariant of the container: no two slots share a key. -/
def WF (m : BlotMapVector K V) : Prop := (m.slots.map Prod.fst).Nodup

end BlotMapVector

/-- Modelled from the spec: the class `LoopRegion` is not among the sources.
§3: a tagged variant, a block or a loop with its children; a block is given by
its instructions in program order, a loop by the identities of its
subregions. -/
inductive LoopRegion where
  | Block (insts : List SILInstruction)
  | Loop (subregions : List Nat)
  deriving DecidableEq

/-- The map type of the top-down direction. -/
abbrev TopDownMapTy := BlotMapVector SILValue TopDownRefCountState

/-- The map type of the bottom-up direction. -/
abbrev BottomUpMapTy := BlotMapVector SILValue BottomUpRefCountState

/-- Modelled from the spec: the member `get()` of the class `NullablePtr`, which
is not among the sources.  The header, at the field `Region`: the nullable
pointer makes sure that we assert if we attempt to use the region before the
pointer is set; §7: such a use is a precondition violation signalled by a hard
assertion.  A pointer that is set is returned. -/
def NullablePtr.get {α : Type} : Option α → Except String α
  | some p => .ok p
  | none => .error "NullablePtr::get: pointer is null"

/-- The per-region state, with the fields of the header in their order:
`Region` is the nullable pointer that is null only during initialization. -/
structure ARCRegionState where
  Region : Option LoopRegion
  PtrToTopDownState : TopDownMapTy
  PtrToBottomUpState : BottomUpMapTy
  AllowsLeaks : Bool
  SummarizedInterestingInsts : List SILInstruction

namespace ARCRegionState

/-- Modelled from the spec: the body of the constructor
`ARCRegionState(LoopRegion *R, bool AllowsLeaks)` is not among the sources.
§3 and §4.2: a state is created for its region with nothing tracked in either
direction and with no summary. -/
def create (R : LoopRegion) (AllowsLeaks : Bool) : ARCRegionState :=
  { Region := some R, PtrToTopDownState := BlotMapVector.empty,
    PtrToBottomUpState := BlotMapVector.empty, AllowsLeaks := AllowsLeaks,
    SummarizedInterestingInsts := [] }

/-- The accessor `allowsLeaks()`. -/
def allowsLeaks (S : ARCRegionState) : Bool := S.AllowsLeaks

/-- The range `getTopDownStates()`, from `topdown_begin()` to `topdown_end()`. -/
def getTopDownStates (S : ARCRegionState) : List (Option (SILValue × TopDownRefCountState)) :=
  S.PtrToTopDownState.iterate

/-- The range `getBottomupStates()`. -/
def getBottomupStates (S : ARCRegionState) :
    List (Option (SILValue × BottomUpRefCountState)) :=
  S.PtrToBottomUpState.iterate

/-- The member `getTopDownRefCountState(Ptr)`, which is `PtrToTopDownState[Ptr]`:
the region state after the call and the state the returned reference denotes. -/
def getTopDownRefCountState (S : ARCRegionState) (Ptr : SILValue) :
    ARCRegionState × TopDownRefCountState :=
  let r := S.PtrToTopDownState.subscript Ptr
  ({ S with PtrToTopDownState := r.1 }, r.2)

/-- The member `getBottomUpRefCountState(Ptr)`, which is `PtrToBottomUpState[Ptr]`. -/
def getBottomUpRefCountState (S : ARCRegionState) (Ptr : SILValue) :
    ARCRegionState × BottomUpRefCountState :=
  let r := S.PtrToBottomUpState.subscript Ptr
  ({ S with PtrToBottomUpState := r.1 }, r.2)

/-- The statement `getTopDownRefCountState(Ptr) = NewState`: the subscript,
then an assignment through the reference it returned. -/
def assignTopDownRefCountState (S : ARCRegionState) (Ptr : SILValue)
    (NewState : TopDownRefCountState) : ARCRegionState :=
  let S1 := (S.getTopDownRefCountState Ptr).1
  { S1 with PtrToTopDownState := S1.PtrToTopDownState.store Ptr NewState }

/-- The statement `getBottomUpRefCountState(Ptr) = NewState`. -/
def assignBottomUpRefCountState (S : ARCRegionState) (Ptr : SILValue)
    (NewState : BottomUpRefCountState) : ARCRegionState :=
  let S1 := (S.getBottomUpRefCountState Ptr).1
  { S1 with PtrToBottomUpState := S1.PtrToBottomUpState.store Ptr NewState }

/-- The member `clearBottomUpRefCountState(Ptr)`: blot `Ptr`. -/
def clearBottomUpRefCountState (S : ARCRegionState) (Ptr : SILValue) : ARCRegionState :=
  { S with PtrToBottomUpState := S.PtrToBottomUpState.blot Ptr }

/-- The member `clearTopDownRefCountState(Ptr)`: blot `Ptr`. -/
def clearTopDownRefCountState (S : ARCRegionState) (Ptr : SILValue) : ARCRegionState :=
  { S with PtrToTopDownState := S.PtrToTopDownState.blot Ptr }

/-- The member `clearTopDownState()`. -/
def clearTopDownState (S : ARCRegionState) : ARCRegionState :=
  { S with PtrToTopDownState := S.PtrToTopDownState.clear }

/-- The member `clearBottomUpState()`. -/
def clearBottomUpState (S : ARCRegionState) : ARCRegionState :=
  { S with PtrToBottomUpState := S.PtrToBottomUpState.clear }

/-- The member `clear()`: clear both the bottom up and the top down state. -/
def clear (S : ARCRegionState) : ARCRegionState :=
  S.clearTopDownState.clearBottomUpState

/-- The range `getSummarizedInterestingInsts()`. -/
def getSummarizedInterestingInsts (S : ARCRegionState) : List SILInstruction :=
  S.SummarizedInterestingInsts

/-- The member `getRegion()`, which is `Region.get()`: the nullable pointer
asserts that it is set. -/
def getRegion (S : ARCRegionState) : Except String LoopRegion :=
  NullablePtr.get S.Region

/-- Both maps of a region state keep the invariant of the container. -/
def WF (S : ARCRegionState) : Prop := S.PtrToTopDownState.WF ∧ S.PtrToBottomUpState.WF

end ARCRegionState


/-- Modelled from the spec: the class `AliasAnalysis` is not among the sources.
§6: the alias query `mayAlias`. -/
structure AliasAnalysis where
  mayAlias : SILValue → SILValue → Bool

/-- Modelled from the spec: the class `RCIdentityFunctionInfo` is not among the
sources.  §6: the identity query `rcIdentity`, which canonicalizes a value to
the pointer that is tracked. -/
structure RCIdentityFunctionInfo where
  rcIdentity : SILValue → SILValue

/-- Modelled from the spec: how a region's map is read along a control-flow
edge.  §4.1 rule 5: a pointer absent from one incoming region's map is treated
as Unknown for that edge. -/
def stateOnEdge (m : BlotMapVector SILValue RefCountState) (P : SILValue) : RefCountState :=
  (m.find? P).getD .Unknown

/-- Modelled from the spec: merging the map of an adjacent region into a
region's map.  §4.1 rule 5: the state for each tracked pointer becomes the
lattice meet with the corresponding state of the adjacent region, read along
the edge.  First every pointer tracked here meets the other region's state;
then every pointer tracked only by the other region, being absent here, is
entered as Unknown. -/
def mergeStates (mine other : BlotMapVector SILValue RefCountState) :
    BlotMapVector SILValue RefCountState :=
  other.liveEntries.foldl
    (fun m e => if (m.find? e.1).isNone then m.store e.1 .Unknown else m)
    (mine.mapLive fun P s => s.meet (stateOnEdge other P))

namespace ARCRegionState

/-- Modelled from the spec: the body of `initPredTopDown` is not among the
sources (the header calls it a stub).  Header: initialize the state for this
region with the state of its predecessor, to create an initial state before
other predecessors are merged in. -/
def initPredTopDown (S PredRegion : ARCRegionState) : ARCRegionState :=
  { S with PtrToTopDownState := PredRegion.PtrToTopDownState }

/-- Modelled from the spec: the body of `mergePredTopDown` is not among the
sources.  §4.1 rule 5 and §9: the merge is the strict lattice meet. -/
def mergePredTopDown (S PredRegion : ARCRegionState) : ARCRegionState :=
  { S with PtrToTopDownState := mergeStates S.PtrToTopDownState PredRegion.PtrToTopDownState }

/-- Modelled from the spec: the body of `initSuccBottomUp` is not among the
sources.  Header: initialize this region with the state of the successor; any
other successor is merged in afterwards. -/
def initSuccBottomUp (S SuccRegion : ARCRegionState) : ARCRegionState :=
  { S with PtrToBottomUpState := SuccRegion.PtrToBottomUpState }

/-- Modelled from the spec: the body of `mergeSuccBottomUp` is not among the
sources.  §4.1 rule 5 and §9: the merge is the strict lattice meet. -/
def mergeSuccBottomUp (S SuccRegion : ARCRegionState) : ARCRegionState :=
  { S with
    PtrToBottomUpState := mergeStates S.PtrToBottomUpState SuccRegion.PtrToBottomUpState }

/-- Modelled from the spec: the driver's merge on entry to a region, which is
not among the sources.  §4.2 and the header: initialize with the first
predecessor, then merge in the others in the order given. -/
def mergePredecessors (S : ARCRegionState) (first : ARCRegionState)
    (others : List ARCRegionState) : ARCRegionState :=
  others.foldl mergePredTopDown (S.initPredTopDown first)

/-- Modelled from the spec: the driver's merge for the bottom-up pass, the
mirror of `mergePredecessors` over the successors. -/
def mergeSuccessors (S : ARCRegionState) (first : ARCRegionState)
    (others : List ARCRegionState) : ARCRegionState :=
  others.foldl mergeSuccBottomUp (S.initSuccBottomUp first)

end ARCRegionState

/-- Modelled from the spec: the two propagation passes of §4.2. -/
inductive Direction where
  | TopDown
  | BottomUp
  deriving DecidableEq

/-- Modelled from the spec: which instruction opens a candidate match in a
direction.  §4.1: the top-down state models a still-outstanding increment, so a
retain opens it; the bottom-up state models a still-outstanding decrement, so a
release opens it.  The other of the two closes the candidate: rules 1 and 2
name the candidate a retain (the bottom-up one) and a release (the top-down
one) bring to a match. -/
def opensCandidate : Direction → InstKind → Bool
  | .TopDown, .retain _ => true
  | .BottomUp, .release _ => true
  | _, _ => false

/-- Modelled from the spec: whether an instruction may touch the tracked
pointer `P`.  §4.1 rules 1 to 4: a retain or release of `P` itself, an
instruction on a value that may alias `P`, and any instruction whose effects
are not statically known. -/
def mayTouch (AA : AliasAnalysis) (RCIA : RCIdentityFunctionInfo) (I : SILInstruction)
    (P : SILValue) : Bool :=
  match I.kind with
  | .retain v => RCIA.rcIdentity v = P || AA.mayAlias v P
  | .release v => RCIA.rcIdentity v = P || AA.mayAlias v P
  | .use v => AA.mayAlias v P
  | .unknownEffects => true
  | .inert => false

/-- Modelled from the spec: invalidation, §4.1 rules 3 and 4: the state of
every tracked pointer that is selected degrades to Unknown. -/
def invalidate (selected : SILValue → Bool) (m : BlotMapVector SILValue RefCountState) :
    BlotMapVector SILValue RefCountState :=
  m.mapLive fun P s => if selected P then .Unknown else s

/-- Modelled from the spec: what a pass carries through a block: the region's
map for the direction, the function-scoped result map keyed by instruction
(§4.2), and whether a nested retain (top-down) or release (bottom-up) was
seen, which the header makes the return value. -/
structure DataflowState where
  states : BlotMapVector SILValue RefCountState
  results : BlotMapVector Nat RefCountState
  nested : Bool

/-- Modelled from the spec: the transfer function of a retain or release of
the value `v`, §4.1 rules 1 to 3, the same for both directions up to the
exchange of retain and release.  With `P` the pointer tracked for `v`: every
other tracked pointer that `v` may alias is invalidated (rule 3).  If the
instruction opens a candidate in this direction it seeds `P`'s state with
itself, or extends a candidate that is already open, which is a nested retain
or release; on an Unknown state it does nothing.  If it closes a candidate, a
Matched state of `P` is the discovery: it is written to the result map under
this instruction, and `P`'s entry is blotted since the outstanding operation is
consumed; on any other state it does nothing. -/
def visitRefCountInst (dir : Direction) (AA : AliasAnalysis) (RCIA : RCIdentityFunctionInfo)
    (st : DataflowState) (I : SILInstruction) (v : SILValue) : DataflowState :=
  let P := RCIA.rcIdentity v
  let m := invalidate (fun Q => Q ≠ P && AA.mayAlias v Q) st.states
  if opensCandidate dir I.kind then
    match (m.subscript P).2 with
    | .Top => { st with states := (m.subscript P).1.store P (.Matched {I.id}) }
    | .Matched S =>
      { st with states := (m.subscript P).1.store P (.Matched (insert I.id S)),
                nested := true }
    | .Unknown => { st with states := (m.subscript P).1 }
  else
    match m.find? P with
    | some (.Matched S) =>
      { st with states := m.blot P, results := st.results.store I.id (.Matched S) }
    | _ => { st with states := m }

/-- Modelled from the spec: the transfer function of one instruction, §4.1
rules 1 to 4.  A use invalidates every tracked pointer its operand may alias
(rule 3); an instruction of unknown effects invalidates every tracked pointer
(the conservative branch of rule 4); an instruction without effect on
reference counts changes nothing. -/
def visitInstruction (dir : Direction) (AA : AliasAnalysis) (RCIA : RCIdentityFunctionInfo)
    (st : DataflowState) (I : SILInstruction) : DataflowState :=
  match I.kind with
  | .retain v => visitRefCountInst dir AA RCIA st I v
  | .release v => visitRefCountInst dir AA RCIA st I v
  | .use v => { st with states := invalidate (fun Q => AA.mayAlias v Q) st.states }
  | .unknownEffects => { st with states := invalidate (fun _ => true) st.states }
  | .inert => st

/-- Modelled from the spec: the instructions of a block in the order a pass
visits them, §4.2: program order top-down, the mirror bottom-up. -/
def visitOrder : Direction → List SILInstruction → List SILInstruction
  | .TopDown, insts => insts
  | .BottomUp, insts => insts.reverse

/-- Modelled from the spec: a pass over a block, §4.2: the transfer functions
applied to the instructions in the order of the pass. -/
def visitBlock (dir : Direction) (AA : AliasAnalysis) (RCIA : RCIdentityFunctionInfo)
    (insts : List SILInstruction) (st : DataflowState) : DataflowState :=
  (visitOrder dir insts).foldl (visitInstruction dir AA RCIA) st

/-- Modelled from the spec: a pass over a loop, §4.1 loop summarization: a
single conservative step in which every tracked pointer touched by the
summarized instructions is invalidated and none is newly matched.  Only the
alias query is at hand here. -/
def applySummary (AA : AliasAnalysis) (summary : List SILInstruction)
    (m : BlotMapVector SILValue RefCountState) : BlotMapVector SILValue RefCountState :=
  summary.foldl
    (fun m I => invalidate
      (fun Q => match I.kind with
        | .retain v => AA.mayAlias v Q
        | .release v => AA.mayAlias v Q
        | .use v => AA.mayAlias v Q
        | .unknownEffects => true
        | .inert => false) m) m

/-- Modelled from the spec: the outcome of `processTopDown` or
`processBottomUp`: the flag returned, and the region state and the result map,
both passed by reference, after the call. -/
structure ProcessResult where
  nestingDetected : Bool
  state : ARCRegionState
  resultMap : BlotMapVector Nat RefCountState

namespace ARCRegionState

/-- Modelled from the spec: the body of `processBlockTopDown` is not among the
sources. -/
def processBlockTopDown (S : ARCRegionState) (BB : List SILInstruction) (AA : AliasAnalysis)
    (RCIA : RCIdentityFunctionInfo) (DecToIncStateMap : BlotMapVector Nat RefCountState) :
    ProcessResult :=
  let st := visitBlock .TopDown AA RCIA BB
    { states := S.PtrToTopDownState, results := DecToIncStateMap, nested := false }
  { nestingDetected := st.nested, state := { S with PtrToTopDownState := st.states },
    resultMap := st.results }

/-- Modelled from the spec: the body of `processBlockBottomUp` is not among the
sources. -/
def processBlockBottomUp (S : ARCRegionState) (BB : List SILInstruction) (AA : AliasAnalysis)
    (RCIA : RCIdentityFunctionInfo) (IncToDecStateMap : BlotMapVector Nat RefCountState) :
    ProcessResult :=
  let st := visitBlock .BottomUp AA RCIA BB
    { states := S.PtrToBottomUpState, results := IncToDecStateMap, nested := false }
  { nestingDetected := st.nested, state := { S with PtrToBottomUpState := st.states },
    resultMap := st.results }

/-- Modelled from the spec: the body of `processTopDown` is not among the
sources.  Header: if this region is a block, process all instructions top
down; otherwise apply the summarized top down information to the merged top
down state; returns true if nested retains were detected.  The region must be
set. -/
def processTopDown (S : ARCRegionState) (AA : AliasAnalysis) (RCIA : RCIdentityFunctionInfo)
    (DecToIncStateMap : BlotMapVector Nat RefCountState) : Except String ProcessResult :=
  match S.getRegion with
  | .error e => .error e
  | .ok (.Block insts) => .ok (S.processBlockTopDown insts AA RCIA DecToIncStateMap)
  | .ok (.Loop _) =>
    let m := applySummary AA S.SummarizedInterestingInsts S.PtrToTopDownState
    .ok { nestingDetected := false, state := { S with PtrToTopDownState := m },
          resultMap := DecToIncStateMap }

/-- Modelled from the spec: the body of `processBottomUp` is not among the
sources.  Header: if this region is a block, process all instructions bottom
up; otherwise apply the summarized bottom up information to the merged bottom
up state; returns true if nested releases were detected.  The parameters for
freezing epilogue releases have no part in the rules of §4.1. -/
def processBottomUp (S : ARCRegionState) (AA : AliasAnalysis) (RCIA : RCIdentityFunctionInfo)
    (IncToDecStateMap : BlotMapVector Nat RefCountState) : Except String ProcessResult :=
  match S.getRegion with
  | .error e => .error e
  | .ok (.Block insts) => .ok (S.processBlockBottomUp insts AA RCIA IncToDecStateMap)
  | .ok (.Loop _) =>
    let m := applySummary AA S.SummarizedInterestingInsts S.PtrToBottomUpState
    .ok { nestingDetected := false, state := { S with PtrToBottomUpState := m },
          resultMap := IncToDecStateMap }

end ARCRegionState


/-- The body of the straight-line scenario: a retain of `x`, the instructions
in between, a release of `x`, and the return. -/
def straightLineBody (x : SILValue) (retainId releaseId returnId : Nat)
    (between : List SILInstruction) : List SILInstruction :=
  ⟨retainId, .retain x⟩ :: (between ++ [⟨releaseId, .release x⟩, ⟨returnId, .inert⟩])

/-- A sample alias query: a value aliases itself only. -/
def sampleAA : AliasAnalysis := ⟨fun a b => a == b⟩

/-- A sample identity query: every value is its own tracked pointer. -/
def sampleRCIA : RCIdentityFunctionInfo := ⟨fun v => v⟩

/-- A region state that tracks the pointer `1` in both directions. -/
def sampleRegionState : ARCRegionState :=
  { Region := some (.Block []),
    PtrToTopDownState := ⟨[(1, some (.Matched {10})), (2, some .Top)]⟩,
    PtrToBottomUpState := ⟨[(2, none), (1, some (.Matched {11}))]⟩,
    AllowsLeaks := false,
    SummarizedInterestingInsts := [] }


end ARC

namespace ARC

/-- A region state whose region pointer has not been set yet. -/
def sampleUninitializedRegionState : ARCRegionState :=
  { Region := none, PtrToTopDownState := BlotMapVector.empty,
    PtrToBottomUpState := BlotMapVector.empty, AllowsLeaks := false,
    SummarizedInterestingInsts := [] }

end ARC

/-!
## Part 3: the AST printer (`lib/AST/ASTPrinter.cpp`)

`ASTPrinter::sanitizeUtf8` walks the bytes of a text.  Bytes are natural
numbers; a pointer into the text is the list of the bytes from the pointer to
the end.  The two routines of `llvm/Support/ConvertUTF.h` that the loop calls
are not among the sources; they are fields of `ConvertUTF`.
-/

namespace ASTPrinter

/-- The two routines of `llvm/Support/ConvertUTF.h` that `sanitizeUtf8` calls:
`getNumBytesForUTF8(first)`, and `isLegalUTF8Sequence(source, sourceEnd)` as a
function of the bytes from `source` up to `sourceEnd`. -/
structure ConvertUTF where
  getNumBytesForUTF8 : Nat → Nat
  isLegalUTF8Sequence : List Nat → Bool

/-- The string literal with the escape `\ufffd`, in UTF-8: the three bytes of the
replacement character U+FFFD. -/
def Replacement : List Nat := [0xEF, 0xBF, 0xBD]

/-- The loop `while (Data < End)` of `sanitizeUtf8`, with `Data` the bytes
still ahead and `Builder` the bytes appended so far.  Every iteration takes one
unit of fuel; the loop that is still running when the fuel is used up has no
result. -/
def sanitizeLoop (U : ConvertUTF) : Nat → List Nat → List Nat → Option (List Nat)
  | _, [], Builder => some Builder
  | 0, _ :: _, _ => none
  | fuel + 1, b :: rest, Builder =>
    let Step := U.getNumBytesForUTF8 b
    if (b :: rest).length < Step then
      some (Builder ++ Replacement)
    else if U.isLegalUTF8Sequence ((b :: rest).take Step) then
      sanitizeLoop U fuel ((b :: rest).drop Step) (Builder ++ (b :: rest).take Step)
    else
      sanitizeLoop U fuel ((b :: rest).drop Step) (Builder ++ Replacement)

/-- The function `ASTPrinter::sanitizeUtf8(Text)`: the loop from the start of
the text with an empty builder. -/
def sanitizeUtf8 (U : ConvertUTF) (fuel : Nat) (Text : List Nat) : Option (List Nat) :=
  sanitizeLoop U fuel Text []

/-- A continuation byte of UTF-8: `80..BF`. -/
def isContinuationByte (b : Nat) : Bool := 0x80 ≤ b && b ≤ 0xBF

/-- The well-formed UTF-8 byte sequences of one scalar value, as the Unicode
standard tabulates them (table 3-7). -/
def wellFormedSequence : List Nat → Bool
  | [b0] => b0 ≤ 0x7F
  | [b0, b1] => 0xC2 ≤ b0 && b0 ≤ 0xDF && isContinuationByte b1
  | [b0, b1, b2] =>
    ((b0 = 0xE0 && 0xA0 ≤ b1 && b1 ≤ 0xBF)
      || (0xE1 ≤ b0 && b0 ≤ 0xEC && isContinuationByte b1)
      || (b0 = 0xED && 0x80 ≤ b1 && b1 ≤ 0x9F)
      || (0xEE ≤ b0 && b0 ≤ 0xEF && isContinuationByte b1))
    && isContinuationByte b2
  | [b0, b1, b2, b3] =>
    ((b0 = 0xF0 && 0x90 ≤ b1 && b1 ≤ 0xBF)
      || (0xF1 ≤ b0 && b0 ≤ 0xF3 && isContinuationByte b1)
      || (b0 = 0xF4 && 0x80 ≤ b1 && b1 ≤ 0x8F))
    && isContinuationByte b2 && isContinuationByte b3
  | _ => false

/-- Well-formed UTF-8: a concatenation of well-formed sequences. -/
inductive WellFormedUTF8 : List Nat → Prop where
  | nil : WellFormedUTF8 []
  | cons (seq rest : List Nat) :
      wellFormedSequence seq = true → WellFormedUTF8 rest → WellFormedUTF8 (seq ++ rest)

/-- What `sanitizeUtf8` relies on from the two routines: the number of bytes
is positive, it is the length of every well-formed sequence that starts with
the byte, and a sequence of that many bytes is legal exactly if it is well
formed. -/
def ConvertUTF.Conforms (U : ConvertUTF) : Prop :=
  (∀ b, 0 < U.getNumBytesForUTF8 b)
    ∧ (∀ b tl, wellFormedSequence (b :: tl) = true →
        U.getNumBytesForUTF8 b = (b :: tl).length)
    ∧ (∀ b tl, (b :: tl).length = U.getNumBytesForUTF8 b →
        (U.isLegalUTF8Sequence (b :: tl) = true ↔ wellFormedSequence (b :: tl) = true))

/-- A sample implementation, first part: the table `trailingBytesForUTF8` of
the conversion routines of the Unicode consortium, the number of bytes that
follow a first byte. -/
def trailingBytesForUTF8 (first : Nat) : Nat :=
  if first < 0xC0 then 0
  else if first < 0xE0 then 1
  else if first < 0xF0 then 2
  else if first < 0xF8 then 3
  else if first < 0xFC then 4
  else 5

/-- A sample implementation, second part: the routine `isLegalUTF8(source,
length)` of the conversion routines: the trailing bytes are continuation bytes,
the second byte is in the range its first byte allows, and the first byte is
neither a continuation byte, nor `C0`, `C1`, nor above `F4`. -/
def isLegalUTF8 (source : List Nat) (length : Nat) : Bool :=
  let byte (i : Nat) : Nat := source.getD i 0
  let trailing (a : Nat) : Bool := !(a < 0x80 || a > 0xBF)
  let second : Bool :=
    if byte 0 = 0xE0 then !(byte 1 < 0xA0)
    else if byte 0 = 0xED then !(byte 1 > 0x9F)
    else if byte 0 = 0xF0 then !(byte 1 < 0x90)
    else if byte 0 = 0xF4 then !(byte 1 > 0x8F)
    else !(byte 1 < 0x80)
  let first : Bool := !(byte 0 ≥ 0x80 && byte 0 < 0xC2)
  let upper : Bool := !(byte 0 > 0xF4)
  match length with
  | 1 => first && upper
  | 2 => trailing (byte 1) && second && first && upper
  | 3 => trailing (byte 2) && trailing (byte 1) && second && first && upper
  | 4 => trailing (byte 3) && trailing (byte 2) && trailing (byte 1) && second && first && upper
  | _ => false

/-- A table-driven sample implementation of the two routines, in the manner of
the conversion routines of the Unicode consortium; it shows that the contract
`Conforms` can be met. -/
def tableConvertUTF : ConvertUTF where
  getNumBytesForUTF8 := fun first => trailingBytesForUTF8 first + 1
  isLegalUTF8Sequence := fun source =>
    match source with
    | [] => false
    | first :: _ =>
      if source.length < trailingBytesForUTF8 first + 1 then false
      else isLegalUTF8 source (trailingBytesForUTF8 first + 1)

end ASTPrinter

namespace ASTPrinter

/-! ### `printName` -/

/-- The contexts of a printed name; the switch of `escapeKeywordInContext`
lists them. -/
inductive PrintNameContext where
  | Normal
  | GenericParameter
  | FunctionParameterExternal
  | FunctionParameterLocal
  deriving DecidableEq

/-- What `printName` reads of an `Identifier`, a class that is not among the
sources: `empty()` and `str()`. -/
structure Identifier where
  empty : Bool
  str : String

/-- The tables of the lexer that `printName` consults and that are not among
the sources: whether a text is listed as `KEYWORD` in `swift/Parse/Tokens.def`,
and `canBeArgumentLabel`. -/
structure LexerTables where
  isKeyword : String → Bool
  canBeArgumentLabel : String → Bool

/-- What a printer receives, in order: the callbacks around a name and the
texts handed to `operator<<`. -/
inductive PrinterEvent where
  | namePre (context : PrintNameContext)
  | text (s : String)
  | namePost (context : PrintNameContext)
  deriving DecidableEq

/-- The printer, as the sequence of what it has received so far. -/
abbrev Printer := List PrinterEvent

/-- The call `callPrintNamePre(Context)`. -/
def callPrintNamePre (P : Printer) (Context : PrintNameContext) : Printer :=
  P ++ [.namePre Context]

/-- The call `printNamePost(Context)`. -/
def printNamePost (P : Printer) (Context : PrintNameContext) : Printer :=
  P ++ [.namePost Context]

/-- The statement `*this << Text`. -/
def printText (P : Printer) (Text : String) : Printer := P ++ [.text Text]

/-- The text a printer has received: its text events, concatenated. -/
def emittedText (P : Printer) : String :=
  String.join (P.filterMap fun e => match e with
    | .text s => some s
    | _ => none)

/-- The function `escapeKeywordInContext(keyword, context)`. -/
def escapeKeywordInContext (T : LexerTables) (keyword : String)
    (context : PrintNameContext) : Bool :=
  match context with
  | .Normal => true
  | .GenericParameter => keyword != "Self"
  | .FunctionParameterExternal => !T.canBeArgumentLabel keyword
  | .FunctionParameterLocal => !T.canBeArgumentLabel keyword

/-- The body of `printName` between the pre callback and the deferred post
callback. -/
def printNameBody (T : LexerTables) (P : Printer) (Name : Identifier)
    (Context : PrintNameContext) : Printer :=
  if Name.empty then
    printText P "_"
  else
    let IsKeyword := T.isKeyword Name.str
    let IsKeyword := if IsKeyword then escapeKeywordInContext T Name.str Context else IsKeyword
    let P := if IsKeyword then printText P "`" else P
    let P := printText P Name.str
    if IsKeyword then printText P "`" else P

/-- The member `ASTPrinter::printName(Name, Context)`; the deferred
`printNamePost` runs when the body is left, on either path. -/
def printName (T : LexerTables) (P : Printer) (Name : Identifier)
    (Context : PrintNameContext) : Printer :=
  printNamePost (printNameBody T (callPrintNamePre P Context) Name Context) Context

/-! ### `shouldPrint` -/

/-- The levels of accessibility, in the order of the enumeration. -/
inductive Accessibility where
  | Private
  | Internal
  | Public
  deriving DecidableEq

/-- The position of a level in the enumeration, which `<` and `>` compare. -/
def Accessibility.rank : Accessibility → Nat
  | .Private => 0
  | .Internal => 1
  | .Public => 2

/-- The kinds of declaration that `shouldPrint` tells apart with `isa` and
`dyn_cast`; `OtherValue` is any other kind of `ValueDecl`, `Other` any other
kind that is not a `ValueDecl`. -/
inductive DeclKind where
  | Extension
  | Destructor
  | Import
  | EnumElement
  | EnumCase
  | PatternBinding
  | Var
  | OtherValue
  | Other
  deriving DecidableEq

/-- Whether `dyn_cast<ValueDecl>` succeeds on a declaration of the kind. -/
def DeclKind.isValueDecl : DeclKind → Bool
  | .Destructor => true
  | .EnumElement => true
  | .Var => true
  | .OtherValue => true
  | _ => false

/-- What `shouldPrint` and the printing of a pattern binding read off a
declaration besides its members: `isImplicit()`, `getAttrs().isUnavailable`,
`getSourceRange().isValid()`, `hasAccessibility()` with `getFormalAccess()`,
`isPrivateStdlibDecl(whitelistProtocols)`, `getLocalProtocols()`,
`getOverriddenDecl()`, `getSatisfiedProtocolRequirements()` and, for a
variable, `isSettable(getDeclContext())`. -/
structure DeclInfo where
  kind : DeclKind
  isImplicit : Bool
  isUnavailable : Bool
  sourceRangeValid : Bool
  formalAccess : Option Accessibility
  isPrivateStdlibDecl : Bool → Bool
  localProtocols : List String
  hasOverriddenDecl : Bool
  satisfiedProtocolRequirements : List String
  isSettable : Bool

/-- A declaration: what is read off it, its members (`getMembers()` of an
extension) and its pattern list (`getPatternList()` of a pattern binding), a
pattern being given by the variables it binds, in the order of
`forEachVariable`. -/
inductive Decl where
  | mk (info : DeclInfo) (members : List Decl) (patternList : List (List Decl))

/-- What is read off a declaration. -/
def Decl.info : Decl → DeclInfo
  | .mk info _ _ => info

/-- The members of a declaration. -/
def Decl.members : Decl → List Decl
  | .mk _ members _ => members

/-- The pattern list of a declaration. -/
def Decl.patternList : Decl → List (List Decl)
  | .mk _ _ patternList => patternList

/-- The fields of `PrintOptions` that `shouldPrint` reads. -/
structure PrintOptions where
  printExtensionContentAsMembers : Decl → Bool
  SkipDeinit : Bool
  SkipImports : Bool
  SkipImplicit : Bool
  SkipUnavailable : Bool
  ExplodeEnumCaseDecls : Bool
  AccessibilityFilter : Accessibility
  SkipPrivateStdlibDecls : Bool
  SkipUnderscoredStdlibProtocols : Bool
  SkipEmptyExtensionDecls : Bool
  SkipOverrides : Bool

mutual

/-- The function `swift::shouldPrint(D, Options)`. -/
def shouldPrint (Options : PrintOptions) : Decl → Bool
  | .mk info members patternList =>
    if info.kind = .Extension
        && Options.printExtensionContentAsMembers (.mk info members patternList) then
      false
    else if Options.SkipDeinit && info.kind = .Destructor then
      false
    else if Options.SkipImports && info.kind = .Import then
      false
    else if Options.SkipImplicit && info.isImplicit then
      false
    else if Options.SkipUnavailable && info.isUnavailable then
      false
    else if Options.ExplodeEnumCaseDecls && info.kind = .EnumElement then
      true
    else if Options.ExplodeEnumCaseDecls && info.kind = .EnumCase then
      false
    else if !Options.ExplodeEnumCaseDecls && info.kind = .EnumElement then
      !info.sourceRangeValid
    else if info.kind.isValueDecl
        && decide (Options.AccessibilityFilter.rank > Accessibility.Private.rank)
        && (match info.formalAccess with
            | some access => decide (access.rank < Options.AccessibilityFilter.rank)
            | none => false) then
      false
    else if Options.SkipPrivateStdlibDecls
        && info.isPrivateStdlibDecl (!Options.SkipUnderscoredStdlibProtocols) then
      false
    else if Options.SkipEmptyExtensionDecls && info.kind = .Extension
        && info.localProtocols.isEmpty && !hasMemberToPrint Options members then
      false
    else if Options.SkipOverrides && info.kind.isValueDecl
        && (info.hasOverriddenDecl || !info.satisfiedProtocolRequirements.isEmpty) then
      false
    else if info.kind = .PatternBinding then
      shouldPrintPatternList Options patternList
    else
      true

/-- The loop over `Ext->getMembers()` that looks for a member to print and
breaks at the first one. -/
def hasMemberToPrint (Options : PrintOptions) : List Decl → Bool
  | [] => false
  | Member :: rest =>
    if shouldPrint Options Member then true else hasMemberToPrint Options rest

/-- The loop of `swift::shouldPrintPattern(P, Options)` over the variables of
the pattern, from the value `ShouldPrint` has so far: `ShouldPrint |=
shouldPrint(VD, Options)`. -/
def shouldPrintPatternFrom (Options : PrintOptions) (ShouldPrint : Bool) : List Decl → Bool
  | [] => ShouldPrint
  | VD :: rest =>
    shouldPrintPatternFrom Options (ShouldPrint || shouldPrint Options VD) rest

/-- The loop over `PD->getPatternList()` of `shouldPrint`, which returns true
at the first pattern to print and false after the last. -/
def shouldPrintPatternList (Options : PrintOptions) : List (List Decl) → Bool
  | [] => false
  | P :: rest =>
    if shouldPrintPatternFrom Options false P then true
    else shouldPrintPatternList Options rest

end

/-- The function `swift::shouldPrintPattern(P, Options)`. -/
def shouldPrintPattern (Options : PrintOptions) (P : List Decl) : Bool :=
  shouldPrintPatternFrom Options false P

end ASTPrinter

namespace ASTPrinter

/-- Sample lexer tables: three keywords, of which `func` can be an argument
label. -/
def sampleLexerTables : LexerTables where
  isKeyword := fun s => s = "class" || s = "Self" || s = "func" || s = "inout"
  canBeArgumentLabel := fun s => s = "func" || s = "class"

/-- Sample options: nothing is skipped, every level of accessibility passes. -/
def sampleOptions : PrintOptions where
  printExtensionContentAsMembers := fun _ => false
  SkipDeinit := false
  SkipImports := false
  SkipImplicit := false
  SkipUnavailable := false
  ExplodeEnumCaseDecls := false
  AccessibilityFilter := .Private
  SkipPrivateStdlibDecls := false
  SkipUnderscoredStdlibProtocols := false
  SkipEmptyExtensionDecls := false
  SkipOverrides := false

/-- A sample of what is read off a declaration of a kind: explicit, available,
with source range, private, not of the standard library, overriding
nothing. -/
def sampleInfo (kind : DeclKind) : DeclInfo where
  kind := kind
  isImplicit := false
  isUnavailable := false
  sourceRangeValid := true
  formalAccess := some .Private
  isPrivateStdlibDecl := fun _ => false
  localProtocols := []
  hasOverriddenDecl := false
  satisfiedProtocolRequirements := []
  isSettable := true

/-- A private enum element with source range. -/
def samplePrivateEnumElement : Decl := .mk (sampleInfo .EnumElement) [] []

/-- A private enum element that was imported without source info. -/
def sampleImportedEnumElement : Decl :=
  .mk { sampleInfo .EnumElement with sourceRangeValid := false } [] []

/-- A private variable. -/
def samplePrivateVar : Decl := .mk (sampleInfo .Var) [] []

/-- An enum case declaration. -/
def sampleEnumCase : Decl := .mk { sampleInfo .EnumCase with formalAccess := none } [] []

end ASTPrinter

namespace ASTPrinter

/-! ### The nesting of declarations -/

mutual

/-- The nesting depth of a declaration: one more than the deepest declaration
among its members and the variables of its patterns. -/
def Decl.depth : Decl → Nat
  | .mk _ members patternList =>
    1 + max (depthOfDecls members) (depthOfPatterns patternList)

/-- The depth of the deepest declaration of a list. -/
def depthOfDecls : List Decl → Nat
  | [] => 0
  | D :: rest => max D.depth (depthOfDecls rest)

/-- The depth of the deepest variable of a pattern list. -/
def depthOfPatterns : List (List Decl) → Nat
  | [] => 0
  | P :: rest => max (depthOfDecls P) (depthOfPatterns rest)

end

/-! ### `visitPatternBindingDecl` -/

/-- The members of `PrintAST` that `visitPatternBindingDecl` calls ahead of the
introducer, with what it asks the declaration for them: they print comments,
the static keyword, attributes and the accessibility, which depend on parts of
a declaration that are not embedded here, and are taken as given. -/
structure DeclPrinters where
  printDocumentationComment : Printer → Decl → Printer
  isStatic : Decl → Bool
  printStaticKeyword : Printer → Decl → Printer
  printAttributes : Printer → Decl → Printer
  printAccessibility : Printer → Decl → Printer

/-- The call `forEachVariable([&](VarDecl *V) { anyVar = V; })` on one
pattern: every variable overwrites `anyVar`. -/
def assignAnyVar (anyVar : Option Decl) : List Decl → Option Decl
  | [] => anyVar
  | V :: rest => assignAnyVar (some V) rest

/-- The loop of `visitPatternBindingDecl` over the pattern list that sets
`anyVar` and breaks once it is set. -/
def findAnyVar (anyVar : Option Decl) : List (List Decl) → Option Decl
  | [] => anyVar
  | entry :: rest =>
    let anyVar := assignAnyVar anyVar entry
    if anyVar.isSome then anyVar else findAnyVar anyVar rest

/-- The member `PrintAST::visitPatternBindingDecl(decl)` from its start
through the printing of the introducer; the printing of the patterns, which
follows, is not part of this definition. -/
def visitPatternBindingDecl (M : DeclPrinters) (P : Printer) (decl : Decl) : Printer :=
  let anyVar := findAnyVar none decl.patternList
  let P := match anyVar with
    | some V => M.printDocumentationComment P V
    | none => P
  let P := if M.isStatic decl then M.printStaticKeyword P decl else P
  match anyVar with
  | some V =>
    let P := M.printAttributes P V
    let P := M.printAccessibility P V
    printText P (if V.info.isSettable then "var " else "let ")
  | none => printText P "let "

end ASTPrinter

namespace ASTPrinter

/-- Sample options that skip empty extensions and nothing else. -/
def sampleSkipEmptyOptions : PrintOptions :=
  { sampleOptions with SkipEmptyExtensionDecls := true }

/-- A sample extension with the given local protocols and members. -/
def sampleExtension (localProtocols : List String) (members : List Decl) : Decl :=
  .mk { sampleInfo .Extension with formalAccess := none, localProtocols := localProtocols }
    members []

/-- A sample pattern binding with the given pattern list. -/
def samplePatternBinding (patternList : List (List Decl)) : Decl :=
  .mk { sampleInfo .PatternBinding with formalAccess := none } [] patternList

/-- A private variable that is not settable. -/
def sampleImmutableVar : Decl := .mk { sampleInfo .Var with isSettable := false } [] []

/-- Sample printers: no comment and no attribute is printed, no declaration is
static, the accessibility is printed as `private `. -/
def samplePrinters : DeclPrinters where
  printDocumentationComment := fun P _ => P
  isStatic := fun _ => false
  printStaticKeyword := fun P _ => printText P "static "
  printAttributes := fun P _ => P
  printAccessibility := fun P _ => printText P "private "

/-- A pattern binding of two entries: the first binds a settable variable, the
second a variable that is not settable. -/
def sampleMixedEntries : Decl := samplePatternBinding [[samplePrivateVar], [sampleImmutableVar]]

/-- A pattern binding of one tuple pattern that binds a variable that is not
settable and then a settable one. -/
def sampleMixedTuple : Decl := samplePatternBinding [[sampleImmutableVar, samplePrivateVar]]

end ASTPrinter

/-! ## Part 1: theorems about the epilogue-release dumper -/

namespace Dumper

variable {Arg Inst : Type}

theorem join_nil : String.join [] = "" := rfl

theorem join_cons (s : String) (ss : List String) :
    String.join (s :: ss) = s ++ String.join ss := by
  apply String.ext
  simp [String.join_eq, String.data_append]

theorem join_append (xs ys : List String) :
    String.join (xs ++ ys) = String.join xs ++ String.join ys := by
  induction xs with
  | nil => simp [join_nil]
  | cons x xs ih => simp [join_cons, ih, String.append_assoc]

/-- A loop that only appends to the stream appends the texts in list order. -/
theorem foldl_append_text {α : Type} (f : α → String) (xs : List α) (os : String) :
    xs.foldl (fun os x => os ++ f x) os = os ++ String.join (xs.map f) := by
  induction xs generalizing os with
  | nil => simp [join_nil]
  | cons x xs ih => simp [ih, join_cons, String.append_assoc]

theorem dumpReleases_eq (env : DumperEnv Arg Inst) (rs : List Inst) (os : String) :
    dumpReleases env rs os = os ++ String.join (rs.map env.printInstruction) :=
  foldl_append_text env.printInstruction rs os

theorem dumpArguments_eq (env : DumperEnv Arg Inst) (fn : SILFunction Arg)
    (args : List Arg) (os : String) :
    dumpArguments env fn args os = os ++ String.join (args.map fun a =>
      env.printArgument a ++
        String.join ((env.getReleasesForArgument fn a).map env.printInstruction)) := by
  unfold dumpArguments
  induction args generalizing os with
  | nil => simp [join_nil]
  | cons a as ih =>
    simp only [List.foldl_cons, List.map_cons, join_cons]
    rw [ih, dumpReleases_eq]
    simp [String.append_assoc]

theorem runOnFunction_definition (env : DumperEnv Arg Inst) (os : String)
    (fn : SILFunction Arg) (h : fn.isDefinition = true) :
    runOnFunction env os fn = os ++ specBlock env fn := by
  simp [runOnFunction, h, dumpArguments_eq, specBlock, specBody, startLine, endLine,
    String.append_assoc]

theorem runOnFunction_declaration (env : DumperEnv Arg Inst) (os : String)
    (fn : SILFunction Arg) (h : fn.isDefinition = false) :
    runOnFunction env os fn = os := by
  simp [runOnFunction, h]

theorem runFrom_eq (env : DumperEnv Arg Inst) (fns : List (SILFunction Arg)) (os : String) :
    runFrom env fns os = os ++ String.join ((definitions fns).map (specBlock env)) := by
  unfold runFrom
  induction fns generalizing os with
  | nil => simp [definitions, join_nil]
  | cons f fs ih =>
    rw [List.foldl_cons, ih]
    cases h : f.isDefinition with
    | true =>
      rw [runOnFunction_definition env os f h]
      simp [definitions, h, join_cons, String.append_assoc]
    | false =>
      rw [runOnFunction_declaration env os f h]
      simp [definitions, h]

theorem run_eq (env : DumperEnv Arg Inst) (fns : List (SILFunction Arg)) :
    run env fns = String.join ((definitions fns).map (specBlock env)) := by
  simp [run, runFrom_eq]

theorem definitions_idem (fns : List (SILFunction Arg)) :
    definitions (definitions fns) = definitions fns := by
  simp [definitions]

/-! ### The record of writes -/

theorem foldl_snoc_writes {α β : Type} (f : α → β) (xs : List α) (ws : List β) :
    xs.foldl (fun ws x => ws ++ [f x]) ws = ws ++ xs.map f := by
  induction xs generalizing ws with
  | nil => simp
  | cons x xs ih => simp [ih]

theorem foldl_argument_writes (env : DumperEnv Arg Inst) (fn : SILFunction Arg)
    (args : List Arg) (ws : List (Write Arg Inst)) :
    args.foldl
      (fun ws arg => (env.getReleasesForArgument fn arg).foldl
        (fun ws ri => ws ++ [Write.release ri]) (ws ++ [Write.argument arg])) ws
      = ws ++ args.flatMap fun a =>
          Write.argument a :: (env.getReleasesForArgument fn a).map Write.release := by
  induction args generalizing ws with
  | nil => simp
  | cons a as ih =>
    rw [List.foldl_cons, ih, foldl_snoc_writes]
    simp

theorem writesOnFunction_eq (env : DumperEnv Arg Inst) (ws : List (Write Arg Inst))
    (fn : SILFunction Arg) :
    writesOnFunction env ws fn
      = ws ++ (if fn.isDefinition then blockWrites env fn else []) := by
  cases h : fn.isDefinition with
  | true =>
    simp only [writesOnFunction, h, foldl_argument_writes]
    simp [blockWrites, bodyWrites]
  | false => simp [writesOnFunction, h]

theorem runWrites_eq (env : DumperEnv Arg Inst) (fns : List (SILFunction Arg)) :
    runWrites env fns = (definitions fns).flatMap (blockWrites env) := by
  have key : ∀ (ws : List (Write Arg Inst)),
      fns.foldl (writesOnFunction env) ws
        = ws ++ (definitions fns).flatMap (blockWrites env) := by
    induction fns with
    | nil => intro ws; simp [definitions]
    | cons f fs ih =>
      intro ws
      rw [List.foldl_cons, ih, writesOnFunction_eq]
      cases h : f.isDefinition <;> simp [definitions, h]
  simpa [runWrites] using key []

theorem text_bodyWrites (env : DumperEnv Arg Inst) (fn : SILFunction Arg) :
    String.join ((bodyWrites env fn).map (Write.text env)) = specBody env fn := by
  unfold bodyWrites specBody
  induction fn.arguments with
  | nil => simp
  | cons a as ih =>
    simp only [List.flatMap_cons, List.map_append, join_append, ih, List.map_cons, join_cons,
      List.map_map]
    simp [Write.text, String.append_assoc, Function.comp_def]

theorem text_blockWrites (env : DumperEnv Arg Inst) (fn : SILFunction Arg) :
    String.join ((blockWrites env fn).map (Write.text env)) = specBlock env fn := by
  simp [blockWrites, join_cons, join_append, text_bodyWrites, specBlock, Write.text,
    startLine, endLine, join_nil, String.append_assoc]

theorem text_runWrites (env : DumperEnv Arg Inst) (fns : List (SILFunction Arg)) :
    String.join ((runWrites env fns).map (Write.text env)) = run env fns := by
  rw [runWrites_eq, run_eq]
  induction definitions fns with
  | nil => simp
  | cons f fs ih =>
    simp only [List.flatMap_cons, List.map_append, join_append, ih, List.map_cons, join_cons,
      text_blockWrites]

theorem start_mem_bodyWrites (env : DumperEnv Arg Inst) (fn : SILFunction Arg) (n : String) :
    Write.start n ∉ bodyWrites env fn ∧ Write.finish n ∉ bodyWrites env fn := by
  simp [bodyWrites]

theorem start_mem_runWrites (env : DumperEnv Arg Inst) (fns : List (SILFunction Arg))
    (n : String) :
    Write.start n ∈ runWrites env fns ↔ ∃ g ∈ fns, g.isDefinition = true ∧ g.name = n := by
  rw [runWrites_eq]
  simp [List.mem_flatMap, blockWrites, definitions, (start_mem_bodyWrites env _ n).1]
  constructor
  · rintro ⟨g, ⟨hg, hd⟩, rfl⟩; exact ⟨g, hg, hd, rfl⟩
  · rintro ⟨g, hg, hd, rfl⟩; exact ⟨g, ⟨hg, hd⟩, rfl⟩

theorem finish_mem_runWrites (env : DumperEnv Arg Inst) (fns : List (SILFunction Arg))
    (n : String) :
    Write.finish n ∈ runWrites env fns ↔ ∃ g ∈ fns, g.isDefinition = true ∧ g.name = n := by
  rw [runWrites_eq]
  simp [List.mem_flatMap, blockWrites, definitions, (start_mem_bodyWrites env _ n).2]
  constructor
  · rintro ⟨g, ⟨hg, hd⟩, rfl⟩; exact ⟨g, hg, hd, rfl⟩
  · rintro ⟨g, hg, hd, rfl⟩; exact ⟨g, ⟨hg, hd⟩, rfl⟩


/-- C1: for a function definition the pass appends to the stream exactly the
line `START: sil @<name>`, then for each argument in argument order its textual
form immediately followed by the textual form of every instruction of
`getReleasesForArgument` in the order returned, then the line
`END: sil @<name>`; in particular this is the whole output for a module made of
that one definition. -/
theorem dumper_text_of_definition (env : DumperEnv Arg Inst) (fn : SILFunction Arg)
    (os : String) (hdef : fn.isDefinition = true) :
    runOnFunction env os fn
        = os ++ ("START: sil @" ++ fn.name ++ "\n")
            ++ String.join (fn.arguments.map fun a =>
                env.printArgument a ++
                  String.join ((env.getReleasesForArgument fn a).map env.printInstruction))
            ++ ("END: sil @" ++ fn.name ++ "\n")
      ∧ run env [fn]
        = ("START: sil @" ++ fn.name ++ "\n")
            ++ String.join (fn.arguments.map fun a =>
                env.printArgument a ++
                  String.join ((env.getReleasesForArgument fn a).map env.printInstruction))
            ++ ("END: sil @" ++ fn.name ++ "\n") := by
  constructor
  · rw [runOnFunction_definition env os fn hdef]
    simp [specBlock, specBody, startLine, endLine, String.append_assoc]
  · rw [run_eq]
    simp [definitions, hdef, join_cons, join_nil, specBlock, specBody, startLine, endLine,
      String.append_assoc]

theorem dumper_text_of_definition_witness :
    singleRelease.isDefinition = true
      ∧ run sampleEnv [singleRelease]
          = "START: sil @single_release\n%0 = argument of bb0 : $Foo\nstrong_release %0 : $Foo\nEND: sil @single_release\n" :=
  ⟨rfl, (dumper_text_of_definition sampleEnv singleRelease "" rfl).2.trans (by decide)⟩

/-- C2: a function that is not a definition contributes nothing: the output
for a module equals the output for the module with its non-definitions removed;
the output is the text of the recorded writes, and when function names are
unique in the module no START or END write names a declaration-only function. -/
theorem dumper_skips_declarations (env : DumperEnv Arg Inst) (fns : List (SILFunction Arg)) :
    run env fns = run env (fns.filter fun fn => fn.isDefinition)
      ∧ String.join ((runWrites env fns).map (Write.text env)) = run env fns
      ∧ ∀ f ∈ fns, f.isDefinition = false → (fns.map fun fn => fn.name).Nodup →
          Write.start f.name ∉ runWrites env fns ∧ Write.finish f.name ∉ runWrites env fns := by
  refine ⟨?_, text_runWrites env fns, ?_⟩
  · have h := definitions_idem fns
    rw [run_eq, run_eq]
    unfold definitions at h ⊢
    rw [h]
  · intro f hf hdecl hnodup
    have hno : ¬ ∃ g ∈ fns, g.isDefinition = true ∧ g.name = f.name := by
      rintro ⟨g, hg, hgdef, hname⟩
      have hgf : g = f := List.inj_on_of_nodup_map hnodup hg hf hname
      rw [hgf, hdecl] at hgdef
      exact Bool.false_ne_true hgdef
    exact ⟨fun h => hno ((start_mem_runWrites env fns f.name).1 h),
      fun h => hno ((finish_mem_runWrites env fns f.name).1 h)⟩

theorem dumper_skips_declarations_witness :
    run sampleEnv [externalDecl, singleRelease] = run sampleEnv [singleRelease]
      ∧ (Write.start "external" ∉ runWrites sampleEnv [externalDecl, singleRelease]
          ∧ Write.finish "external" ∉ runWrites sampleEnv [externalDecl, singleRelease]) :=
  ⟨(dumper_skips_declarations sampleEnv [externalDecl, singleRelease]).1,
    (dumper_skips_declarations sampleEnv [externalDecl, singleRelease]).2.2 externalDecl
      (by simp) rfl (by decide)⟩

/-- C3: the output for a module is the concatenation, in module order, of one
block per function definition, each block being the line `START: sil @<name>`,
a body, and the line `END: sil @<name>` for the same name; the writes are, per
definition in module order, one START write, body writes that are argument or
release writes only, and one END write, so blocks are neither nested nor
interleaved. -/
theorem dumper_output_is_blocks (env : DumperEnv Arg Inst) (fns : List (SILFunction Arg)) :
    run env fns
        = String.join ((fns.filter fun fn => fn.isDefinition).map fun fn =>
            ("START: sil @" ++ fn.name ++ "\n") ++ specBody env fn
              ++ ("END: sil @" ++ fn.name ++ "\n"))
      ∧ runWrites env fns
        = (fns.filter fun fn => fn.isDefinition).flatMap (fun fn =>
            Write.start fn.name :: (bodyWrites env fn ++ [Write.finish fn.name]))
      ∧ ∀ (fn : SILFunction Arg) (n : String),
          Write.start n ∉ bodyWrites env fn ∧ Write.finish n ∉ bodyWrites env fn := by
  refine ⟨?_, ?_, fun fn n => start_mem_bodyWrites env fn n⟩
  · rw [run_eq]; rfl
  · rw [runWrites_eq]; rfl

/-- C4 as stated fails: the definition `example` has no matched release for
any argument, yet the text of its argument stands between the START line and
the END line. -/
theorem dumper_no_match_counterexample :
    exampleFn.isDefinition = true
      ∧ (∀ a ∈ exampleFn.arguments, sampleEnv.getReleasesForArgument exampleFn a = [])
      ∧ run sampleEnv [exampleFn]
          = "START: sil @example\n%0 = argument of bb0 : $Foo\nEND: sil @example\n"
      ∧ run sampleEnv [exampleFn] ≠ "START: sil @example\nEND: sil @example\n" := by
  refine ⟨rfl, ?_, by decide, by decide⟩
  intro a ha
  simp [exampleFn] at ha
  subst ha
  decide

/-- C4, amended: for a function definition in which `getReleasesForArgument` is
empty for every argument, the text between the START line and the END line is
exactly the textual forms of the arguments in order, with no release
instruction; it is empty when the function has no argument. -/
theorem dumper_no_match_prints_arguments_only (env : DumperEnv Arg Inst)
    (fn : SILFunction Arg) (os : String) (hdef : fn.isDefinition = true)
    (hnone : ∀ a ∈ fn.arguments, env.getReleasesForArgument fn a = []) :
    runOnFunction env os fn
        = os ++ ("START: sil @" ++ fn.name ++ "\n")
            ++ String.join (fn.arguments.map env.printArgument)
            ++ ("END: sil @" ++ fn.name ++ "\n")
      ∧ (fn.arguments = [] →
          runOnFunction env os fn
            = os ++ ("START: sil @" ++ fn.name ++ "\n") ++ ("END: sil @" ++ fn.name ++ "\n")) := by
  have hbody : specBody env fn = String.join (fn.arguments.map env.printArgument) := by
    unfold specBody
    congr 1
    apply List.map_congr_left
    intro a ha
    rw [hnone a ha]
    simp [join_nil]
  have hmain : runOnFunction env os fn
        = os ++ ("START: sil @" ++ fn.name ++ "\n")
            ++ String.join (fn.arguments.map env.printArgument)
            ++ ("END: sil @" ++ fn.name ++ "\n") := by
    rw [runOnFunction_definition env os fn hdef, specBlock, hbody]
    simp [startLine, endLine, String.append_assoc]
  refine ⟨hmain, fun hargs => ?_⟩
  rw [hmain, hargs]
  simp [join_nil]

theorem dumper_no_match_prints_arguments_only_witness :
    exampleFn.isDefinition = true
      ∧ (∀ a ∈ exampleFn.arguments, sampleEnv.getReleasesForArgument exampleFn a = [])
      ∧ runOnFunction sampleEnv "" exampleFn
          = "START: sil @example\n%0 = argument of bb0 : $Foo\nEND: sil @example\n" :=
  have hnone : ∀ a ∈ exampleFn.arguments,
      sampleEnv.getReleasesForArgument exampleFn a = [] := by
    intro a ha
    simp [exampleFn] at ha
    subst ha
    decide
  ⟨rfl, hnone,
    (dumper_no_match_prints_arguments_only sampleEnv exampleFn "" rfl hnone).1.trans
      (by decide)⟩

end Dumper

/-! ## Part 2: theorems about the region state -/

namespace ARC

namespace BlotMapVector

variable {K V : Type}

/-- The well-formed maps are closed under the operations. -/
theorem WF_empty : (empty : BlotMapVector K V).WF := by simp [WF, empty]

theorem WF_mapLive {m : BlotMapVector K V} (h : m.WF) (f : K → V → V) : (m.mapLive f).WF := by
  simpa [WF, mapLive, Function.comp_def] using h

variable [DecidableEq K]

theorem slotsFind_store_self (k : K) (v : V) (l : List (K × Option V)) :
    slotsFind k (slotsStore k v l) = some v := by
  induction l with
  | nil => simp [slotsStore, slotsFind]
  | cons hd tl ih =>
    obtain ⟨k', o⟩ := hd
    by_cases h : k' = k <;> simp [slotsStore, slotsFind, h, ih]

theorem slotsFind_store_ne {k k' : K} (h : k' ≠ k) (v : V) (l : List (K × Option V)) :
    slotsFind k' (slotsStore k v l) = slotsFind k' l := by
  induction l with
  | nil => simp [slotsStore, slotsFind, Ne.symm h]
  | cons hd tl ih =>
    obtain ⟨k₀, o⟩ := hd
    by_cases h₀ : k₀ = k
    · subst h₀
      simp [slotsStore, slotsFind, Ne.symm h]
    · by_cases h₁ : k₀ = k'
      · subst h₁; simp [slotsStore, slotsFind, h₀]
      · simp [slotsStore, slotsFind, h₀, h₁, ih]

theorem slotsFind_blot_self (k : K) (l : List (K × Option V)) :
    slotsFind k (slotsBlot k l) = none := by
  induction l with
  | nil => simp [slotsBlot, slotsFind]
  | cons hd tl ih =>
    obtain ⟨k', o⟩ := hd
    by_cases h : k' = k <;> simp [slotsBlot, slotsFind, h, ih]

theorem slotsFind_blot_ne {k k' : K} (h : k' ≠ k) (l : List (K × Option V)) :
    slotsFind k' (slotsBlot k l) = slotsFind k' l := by
  induction l with
  | nil => simp [slotsBlot, slotsFind]
  | cons hd tl ih =>
    obtain ⟨k₀, o⟩ := hd
    by_cases h₀ : k₀ = k
    · subst h₀
      simp [slotsBlot, slotsFind, Ne.symm h]
    · by_cases h₁ : k₀ = k'
      · subst h₁; simp [slotsBlot, slotsFind, h₀]
      · simp [slotsBlot, slotsFind, h₀, h₁, ih]

theorem slotsFind_map (f : K → V → V) (k : K) (l : List (K × Option V)) :
    slotsFind k (l.map fun slot => (slot.1, slot.2.map (f slot.1)))
      = (slotsFind k l).map (f k) := by
  induction l with
  | nil => simp [slotsFind]
  | cons hd tl ih =>
    obtain ⟨k', o⟩ := hd
    by_cases h : k' = k
    · subst h; simp [slotsFind]
    · simp [slotsFind, h, ih]

theorem slotsFind_some_mem {k : K} {v : V} {l : List (K × Option V)}
    (h : slotsFind k l = some v) : (k, some v) ∈ l := by
  induction l with
  | nil => simp [slotsFind] at h
  | cons hd tl ih =>
    obtain ⟨k', o⟩ := hd
    by_cases hk : k' = k
    · subst hk
      simp only [slotsFind, if_true] at h
      subst h
      simp
    · simp only [slotsFind, hk, if_false] at h
      exact List.mem_cons_of_mem _ (ih h)

theorem keys_slotsBlot (k : K) (l : List (K × Option V)) :
    (slotsBlot k l).map Prod.fst = l.map Prod.fst := by
  induction l with
  | nil => simp [slotsBlot]
  | cons hd tl ih =>
    obtain ⟨k', o⟩ := hd
    by_cases h : k' = k <;> simp [slotsBlot, h, ih]

theorem keys_slotsStore_of_mem {k : K} (v : V) {l : List (K × Option V)}
    (h : k ∈ l.map Prod.fst) : (slotsStore k v l).map Prod.fst = l.map Prod.fst := by
  induction l with
  | nil => simp at h
  | cons hd tl ih =>
    obtain ⟨k', o⟩ := hd
    by_cases hk : k' = k
    · simp [slotsStore, hk]
    · have : k ∈ tl.map Prod.fst := by
        simp only [List.map_cons, List.mem_cons] at h
        rcases h with h | h
        · exact absurd h.symm hk
        · exact h
      simp [slotsStore, hk, ih this]

theorem keys_slotsStore_of_not_mem {k : K} (v : V) {l : List (K × Option V)}
    (h : k ∉ l.map Prod.fst) : (slotsStore k v l).map Prod.fst = l.map Prod.fst ++ [k] := by
  induction l with
  | nil => simp [slotsStore]
  | cons hd tl ih =>
    obtain ⟨k', o⟩ := hd
    simp only [List.map_cons, List.mem_cons, not_or] at h
    have hk : ¬ k' = k := fun e => h.1 e.symm
    simp [slotsStore, hk, ih h.2]

theorem length_slotsBlot (k : K) (l : List (K × Option V)) :
    (slotsBlot k l).length = l.length := by
  have := congrArg List.length (keys_slotsBlot k l)
  simpa using this

theorem find?_store_self (m : BlotMapVector K V) (k : K) (v : V) :
    (m.store k v).find? k = some v := slotsFind_store_self k v m.slots

theorem find?_store_ne (m : BlotMapVector K V) {k k' : K} (h : k' ≠ k) (v : V) :
    (m.store k v).find? k' = m.find? k' := slotsFind_store_ne h v m.slots

theorem find?_blot_self (m : BlotMapVector K V) (k : K) :
    (m.blot k).find? k = none := slotsFind_blot_self k m.slots

theorem find?_blot_ne (m : BlotMapVector K V) {k k' : K} (h : k' ≠ k) :
    (m.blot k).find? k' = m.find? k' := slotsFind_blot_ne h m.slots

theorem find?_mapLive (f : K → V → V) (m : BlotMapVector K V) (k : K) :
    (m.mapLive f).find? k = (m.find? k).map (f k) := slotsFind_map f k m.slots

theorem find?_empty (k : K) : (empty : BlotMapVector K V).find? k = none := rfl

theorem find?_subscript_ne [Inhabited V] (m : BlotMapVector K V) {k k' : K} (h : k' ≠ k) :
    (m.subscript k).1.find? k' = m.find? k' := by
  unfold subscript
  cases hf : m.find? k with
  | none => simp [find?_store_ne m h]
  | some v => simp

theorem subscript_of_find?_some [Inhabited V] {m : BlotMapVector K V} {k : K} {v : V}
    (h : m.find? k = some v) : m.subscript k = (m, v) := by
  simp [subscript, h]

theorem subscript_of_find?_none [Inhabited V] {m : BlotMapVector K V} {k : K}
    (h : m.find? k = none) : m.subscript k = (m.store k default, default) := by
  simp [subscript, h]

theorem find?_some_mem_liveEntries {m : BlotMapVector K V} {k : K} {v : V}
    (h : m.find? k = some v) : (k, v) ∈ m.liveEntries := by
  have hm := slotsFind_some_mem h
  simp only [liveEntries, iterate, List.reduceOption_mem_iff]
  exact List.mem_map.2 ⟨(k, some v), hm, rfl⟩


theorem WF_blot {m : BlotMapVector K V} (h : m.WF) (k : K) : (m.blot k).WF := by
  simpa [WF, blot, keys_slotsBlot] using h

theorem WF_store {m : BlotMapVector K V} (h : m.WF) (k : K) (v : V) : (m.store k v).WF := by
  unfold WF store at *
  by_cases hk : k ∈ m.slots.map Prod.fst
  · rw [keys_slotsStore_of_mem v hk]; exact h
  · rw [keys_slotsStore_of_not_mem v hk]
    exact List.Nodup.append h (List.nodup_singleton k) (by simpa using hk)

theorem WF_subscript [Inhabited V] {m : BlotMapVector K V} (h : m.WF) (k : K) :
    (m.subscript k).1.WF := by
  unfold subscript
  cases m.find? k with
  | none => exact WF_store h k default
  | some v => exact h

/-- In a well-formed map the live entries keyed by `k` after a store to `k`
are the stored value alone. -/
theorem liveEntries_store_filter {m : BlotMapVector K V} (h : m.WF) (k : K) (v : V) :
    (m.store k v).liveEntries.filter (fun e => decide (e.1 = k)) = [(k, v)] := by
  obtain ⟨l⟩ := m
  simp only [WF, store, liveEntries, iterate] at *
  induction l with
  | nil => simp [slotsStore, List.reduceOption]
  | cons hd tl ih =>
    obtain ⟨k', o⟩ := hd
    simp only [List.map_cons, List.nodup_cons] at h
    by_cases hk : k' = k
    · subst hk
      have hnone : ∀ e ∈ (tl.map fun slot => slot.2.map fun v => (slot.1, v)).reduceOption,
          ¬ e.1 = k' := by
        intro e he hek
        rw [List.reduceOption_mem_iff] at he
        obtain ⟨slot, hslot, hse⟩ := List.mem_map.1 he
        apply h.1
        cases hs2 : slot.2 with
        | none => simp [hs2] at hse
        | some w =>
          simp only [hs2, Option.map_some', Option.some.injEq] at hse
          subst hse
          exact List.mem_map.2 ⟨slot, hslot, hek⟩
      simp only [slotsStore, if_true, List.map_cons, Option.map_some',
        List.reduceOption_cons_of_some, List.filter_cons, decide_True]
      rw [List.filter_eq_nil_iff.2]
      intro e he
      simpa using hnone e he
    · cases o with
      | none =>
        simp only [slotsStore, hk, if_false, List.map_cons, Option.map_none',
          List.reduceOption_cons_of_none]
        exact ih h.2
      | some w =>
        simp only [slotsStore, hk, if_false, List.map_cons, Option.map_some',
          List.reduceOption_cons_of_some, List.filter_cons, hk, decide_False]
        exact ih h.2

end BlotMapVector


namespace RefCountState

theorem meet_comm (a b : RefCountState) : a.meet b = b.meet a := by
  cases a <;> cases b <;> simp only [meet]
  rename_i s t
  by_cases h : s = t
  · subst h; simp
  · simp [h, Ne.symm h]

theorem meet_idem (a : RefCountState) : a.meet a = a := by
  cases a <;> simp [meet]

theorem meet_assoc (a b c : RefCountState) : (a.meet b).meet c = a.meet (b.meet c) := by
  cases a <;> cases b <;> cases c <;> simp only [meet] <;>
    (try split_ifs) <;> simp_all [meet]

theorem top_meet (a : RefCountState) : Top.meet a = a := rfl

theorem meet_top (a : RefCountState) : a.meet Top = a := by
  cases a <;> rfl

theorem unknown_meet (a : RefCountState) : Unknown.meet a = Unknown := rfl

theorem meet_unknown (a : RefCountState) : a.meet Unknown = Unknown := by
  cases a <;> rfl

theorem foldl_meet_eq (s : RefCountState) (l : List RefCountState) :
    l.foldl meet s = s.meet (meetAll l) := by
  unfold meetAll
  induction l generalizing s with
  | nil => simp [meet_top]
  | cons x xs ih => rw [List.foldl_cons, List.foldl_cons, ih, ih (Top.meet x), top_meet, meet_assoc]

theorem meetAll_cons (x : RefCountState) (l : List RefCountState) :
    meetAll (x :: l) = x.meet (meetAll l) := by
  show (x :: l).foldl meet Top = _
  rw [List.foldl_cons, top_meet, foldl_meet_eq]

theorem meetAll_perm {l₁ l₂ : List RefCountState} (h : l₁.Perm l₂) :
    meetAll l₁ = meetAll l₂ := by
  induction h with
  | nil => rfl
  | cons x _ ih => rw [meetAll_cons, meetAll_cons, ih]
  | swap x y l =>
    rw [meetAll_cons, meetAll_cons, meetAll_cons, meetAll_cons, ← meet_assoc, ← meet_assoc,
      meet_comm y x]
  | trans _ _ ih₁ ih₂ => rw [ih₁, ih₂]

theorem meetAll_unknown_of_mem {l : List RefCountState} (h : Unknown ∈ l) :
    meetAll l = Unknown := by
  induction l with
  | nil => simp at h
  | cons x xs ih =>
    rw [meetAll_cons]
    rcases List.mem_cons.1 h with h | h
    · rw [← h]; rfl
    · rw [ih h, meet_unknown]

end RefCountState

open RefCountState in
theorem stateOnEdge_mapLive_meet (mine other : BlotMapVector SILValue RefCountState)
    (P : SILValue) :
    stateOnEdge (mine.mapLive fun Q s => s.meet (stateOnEdge other Q)) P
      = (stateOnEdge mine P).meet (stateOnEdge other P) := by
  simp only [stateOnEdge, BlotMapVector.find?_mapLive]
  cases mine.find? P <;> simp [RefCountState.meet]

/-- Entering as Unknown the pointers of a list that are not yet tracked: a
pointer already tracked keeps its state, one of the list becomes Unknown. -/
theorem find?_enterUnknown (es : List (SILValue × RefCountState))
    (m : BlotMapVector SILValue RefCountState) (P : SILValue) :
    (es.foldl (fun m e => if (m.find? e.1).isNone then m.store e.1 .Unknown else m) m).find? P
      = match m.find? P with
        | some s => some s
        | none => if P ∈ es.map Prod.fst then some .Unknown else none := by
  induction es generalizing m with
  | nil =>
    simp only [List.foldl_nil]
    cases m.find? P <;> simp
  | cons e es ih =>
    rw [List.foldl_cons, ih]
    have hmem : e.1 ≠ P → (P ∈ (e :: es).map Prod.fst ↔ P ∈ es.map Prod.fst) := by
      intro hne
      simp [Ne.symm hne]
    by_cases hP : e.1 = P
    · subst hP
      cases hf : m.find? e.1 with
      | none => simp [hf, BlotMapVector.find?_store_self]
      | some s => simp [hf]
    · have hP' : P ≠ e.1 := fun h => hP h.symm
      have hstore : ∀ v, (m.store e.1 v).find? P = m.find? P :=
        fun v => BlotMapVector.find?_store_ne m hP' v
      cases hf : (m.find? e.1).isNone with
      | true =>
        simp only [if_true, hstore]
        cases m.find? P
        · simp only [hmem hP]
        · rfl
      | false =>
        simp only [Bool.false_eq_true, if_false]
        cases m.find? P
        · simp only [hmem hP]
        · rfl

theorem find?_mergeStates (mine other : BlotMapVector SILValue RefCountState) (P : SILValue) :
    (mergeStates mine other).find? P
      = match mine.find? P with
        | some s => some (s.meet (stateOnEdge other P))
        | none => if P ∈ other.liveEntries.map Prod.fst then some .Unknown else none := by
  unfold mergeStates
  rw [find?_enterUnknown, BlotMapVector.find?_mapLive]
  cases mine.find? P <;> simp

theorem stateOnEdge_mergeStates (mine other : BlotMapVector SILValue RefCountState)
    (P : SILValue) :
    stateOnEdge (mergeStates mine other) P
      = (stateOnEdge mine P).meet (stateOnEdge other P) := by
  unfold stateOnEdge
  rw [find?_mergeStates]
  cases mine.find? P with
  | none => by_cases h : P ∈ other.liveEntries.map Prod.fst <;> simp [h, RefCountState.meet]
  | some s => simp [stateOnEdge]

/-- A pointer is tracked after a merge exactly if one of the two maps tracks it. -/
theorem find?_mergeStates_isSome (mine other : BlotMapVector SILValue RefCountState)
    (P : SILValue) (h : (mine.find? P).isSome ∨ (other.find? P).isSome) :
    (mergeStates mine other).find? P
      = some ((stateOnEdge mine P).meet (stateOnEdge other P)) := by
  rw [find?_mergeStates]
  cases hm : mine.find? P with
  | some s => simp [stateOnEdge, hm]
  | none =>
    rw [hm] at h
    simp only [Option.isSome_none, Bool.false_eq_true, false_or] at h
    obtain ⟨v, hv⟩ := Option.isSome_iff_exists.1 h
    have hmem : P ∈ other.liveEntries.map Prod.fst :=
      List.mem_map.2 ⟨(P, v), BlotMapVector.find?_some_mem_liveEntries hv, rfl⟩
    simp [hmem, stateOnEdge, hm, RefCountState.meet]


open RefCountState in
theorem stateOnEdge_foldl_mergeStates (ms : List (BlotMapVector SILValue RefCountState))
    (m : BlotMapVector SILValue RefCountState) (P : SILValue) :
    stateOnEdge (ms.foldl mergeStates m) P
      = meetAll ((m :: ms).map fun o => stateOnEdge o P) := by
  induction ms generalizing m with
  | nil => simp [meetAll, top_meet]
  | cons o os ih =>
    rw [List.foldl_cons, ih, List.map_cons, List.map_cons, List.map_cons, meetAll_cons,
      meetAll_cons, meetAll_cons, stateOnEdge_mergeStates, meet_assoc]

open RefCountState in
theorem find?_foldl_mergeStates (ms : List (BlotMapVector SILValue RefCountState))
    (m : BlotMapVector SILValue RefCountState) (P : SILValue)
    (h : ∃ o ∈ m :: ms, (o.find? P).isSome) :
    (ms.foldl mergeStates m).find? P
      = some (meetAll ((m :: ms).map fun o => stateOnEdge o P)) := by
  induction ms generalizing m with
  | nil =>
    obtain ⟨o, ho, hsome⟩ := h
    simp only [List.mem_singleton] at ho
    subst ho
    obtain ⟨v, hv⟩ := Option.isSome_iff_exists.1 hsome
    simp [meetAll, top_meet, stateOnEdge, hv]
  | cons o os ih =>
    have hstep : meetAll ((mergeStates m o :: os).map fun o => stateOnEdge o P)
        = meetAll ((m :: o :: os).map fun o => stateOnEdge o P) := by
      rw [List.map_cons, List.map_cons, List.map_cons, meetAll_cons, meetAll_cons,
        meetAll_cons, stateOnEdge_mergeStates, meet_assoc]
    rw [List.foldl_cons, ← hstep]
    apply ih
    obtain ⟨q, hq, hsome⟩ := h
    rcases List.mem_cons.1 hq with hq | hq
    · subst hq
      refine ⟨mergeStates q o, List.mem_cons_self _ _, ?_⟩
      rw [find?_mergeStates_isSome q o P (Or.inl hsome)]
      rfl
    · rcases List.mem_cons.1 hq with hq | hq
      · subst hq
        refine ⟨mergeStates m q, List.mem_cons_self _ _, ?_⟩
        rw [find?_mergeStates_isSome m q P (Or.inr hsome)]
        rfl
      · exact ⟨q, List.mem_cons_of_mem _ hq, hsome⟩

namespace ARCRegionState

theorem topDown_foldl_merge (others : List ARCRegionState) (T : ARCRegionState) :
    (others.foldl mergePredTopDown T).PtrToTopDownState
      = (others.map fun R => R.PtrToTopDownState).foldl mergeStates T.PtrToTopDownState := by
  induction others generalizing T with
  | nil => rfl
  | cons R Rs ih => rw [List.foldl_cons, ih]; rfl

theorem bottomUp_foldl_merge (others : List ARCRegionState) (T : ARCRegionState) :
    (others.foldl mergeSuccBottomUp T).PtrToBottomUpState
      = (others.map fun R => R.PtrToBottomUpState).foldl mergeStates T.PtrToBottomUpState := by
  induction others generalizing T with
  | nil => rfl
  | cons R Rs ih => rw [List.foldl_cons, ih]; rfl

theorem topDown_mergePredecessors (S first : ARCRegionState) (others : List ARCRegionState) :
    (S.mergePredecessors first others).PtrToTopDownState
      = (others.map fun R => R.PtrToTopDownState).foldl mergeStates first.PtrToTopDownState := by
  unfold mergePredecessors
  rw [topDown_foldl_merge]
  rfl

theorem bottomUp_mergeSuccessors (S first : ARCRegionState) (others : List ARCRegionState) :
    (S.mergeSuccessors first others).PtrToBottomUpState
      = (others.map fun R => R.PtrToBottomUpState).foldl mergeStates
          first.PtrToBottomUpState := by
  unfold mergeSuccessors
  rw [bottomUp_foldl_merge]
  rfl

end ARCRegionState

/-- The merged state of a pointer in terms of the maps merged. -/
theorem merged_maps_meet (first : BlotMapVector SILValue RefCountState)
    (others : List (BlotMapVector SILValue RefCountState)) (P : SILValue) :
    stateOnEdge (others.foldl mergeStates first) P
        = RefCountState.meetAll ((first :: others).map fun o => stateOnEdge o P)
      ∧ ((∃ o ∈ first :: others, (o.find? P).isSome) →
          (others.foldl mergeStates first).find? P
            = some (RefCountState.meetAll ((first :: others).map fun o => stateOnEdge o P)))
      ∧ ((∃ o ∈ first :: others, stateOnEdge o P = .Unknown) →
          stateOnEdge (others.foldl mergeStates first) P = .Unknown
            ∧ ∀ insts, (others.foldl mergeStates first).find? P ≠ some (.Matched insts)) := by
  have hmeet := stateOnEdge_foldl_mergeStates others first P
  refine ⟨hmeet, find?_foldl_mergeStates others first P, ?_⟩
  rintro ⟨o, ho, hunk⟩
  have hall : RefCountState.meetAll ((first :: others).map fun o => stateOnEdge o P)
      = .Unknown :=
    RefCountState.meetAll_unknown_of_mem (List.mem_map.2 ⟨o, ho, hunk⟩)
  refine ⟨hmeet.trans hall, ?_⟩
  intro insts hfind
  have : stateOnEdge (others.foldl mergeStates first) P = .Matched insts := by
    simp [stateOnEdge, hfind]
  rw [hmeet, hall] at this
  exact RefCountState.noConfusion this


theorem find?_invalidate (selected : SILValue → Bool)
    (m : BlotMapVector SILValue RefCountState) (P : SILValue) :
    (invalidate selected m).find? P
      = (m.find? P).map fun s => if selected P then .Unknown else s :=
  BlotMapVector.find?_mapLive _ m P

theorem find?_invalidate_of_not_selected {selected : SILValue → Bool} {P : SILValue}
    (h : selected P = false) (m : BlotMapVector SILValue RefCountState) :
    (invalidate selected m).find? P = m.find? P := by
  rw [find?_invalidate]
  cases m.find? P <;> simp [h]

/-- A retain or release of another pointer that does not alias `P` leaves the
state of `P` as it is. -/
theorem find?_visitRefCountInst_other (dir : Direction) (AA : AliasAnalysis)
    (RCIA : RCIdentityFunctionInfo) (st : DataflowState) (I : SILInstruction) (v P : SILValue)
    (hid : RCIA.rcIdentity v ≠ P) (halias : AA.mayAlias v P = false) :
    (visitRefCountInst dir AA RCIA st I v).states.find? P = st.states.find? P := by
  have hP : P ≠ RCIA.rcIdentity v := fun h => hid h.symm
  have hinv : (invalidate (fun Q => Q ≠ RCIA.rcIdentity v && AA.mayAlias v Q) st.states).find? P
      = st.states.find? P :=
    find?_invalidate_of_not_selected (by simp [halias]) st.states
  unfold visitRefCountInst
  simp only []
  split
  · split <;>
      simp only [BlotMapVector.find?_store_ne _ hP, BlotMapVector.find?_subscript_ne _ hP, hinv]
  · split <;> simp only [BlotMapVector.find?_blot_ne _ hP, hinv]

/-- An instruction that may not touch `P` leaves the state of `P` as it is. -/
theorem find?_visit_of_not_mayTouch (dir : Direction) (AA : AliasAnalysis)
    (RCIA : RCIdentityFunctionInfo) (st : DataflowState) (I : SILInstruction) (P : SILValue)
    (h : mayTouch AA RCIA I P = false) :
    (visitInstruction dir AA RCIA st I).states.find? P = st.states.find? P := by
  cases hk : I.kind with
  | retain v =>
    simp only [mayTouch, hk, Bool.or_eq_false_iff, decide_eq_false_iff_not] at h
    simp only [visitInstruction, hk]
    exact find?_visitRefCountInst_other dir AA RCIA st I v P h.1 h.2
  | release v =>
    simp only [mayTouch, hk, Bool.or_eq_false_iff, decide_eq_false_iff_not] at h
    simp only [visitInstruction, hk]
    exact find?_visitRefCountInst_other dir AA RCIA st I v P h.1 h.2
  | use v =>
    simp only [mayTouch, hk] at h
    simp only [visitInstruction, hk]
    exact find?_invalidate_of_not_selected h st.states
  | unknownEffects => simp [mayTouch, hk] at h
  | inert => simp [visitInstruction, hk]

theorem find?_foldl_visit_of_not_mayTouch (dir : Direction) (AA : AliasAnalysis)
    (RCIA : RCIdentityFunctionInfo) (insts : List SILInstruction) (st : DataflowState)
    (P : SILValue) (h : ∀ I ∈ insts, mayTouch AA RCIA I P = false) :
    (insts.foldl (visitInstruction dir AA RCIA) st).states.find? P = st.states.find? P := by
  induction insts generalizing st with
  | nil => rfl
  | cons I Is ih =>
    rw [List.foldl_cons, ih _ (fun J hJ => h J (List.mem_cons_of_mem _ hJ)),
      find?_visit_of_not_mayTouch dir AA RCIA st I P (h I (List.mem_cons_self _ _))]

/-- An instruction that opens a candidate for an untracked pointer seeds the
pointer's state with itself. -/
theorem find?_visit_opens (dir : Direction) (AA : AliasAnalysis)
    (RCIA : RCIdentityFunctionInfo) (st : DataflowState) (I : SILInstruction) (v : SILValue)
    (hkind : I.kind = .retain v ∨ I.kind = .release v)
    (hopens : opensCandidate dir I.kind = true)
    (hnone : st.states.find? (RCIA.rcIdentity v) = none) :
    (visitInstruction dir AA RCIA st I).states.find? (RCIA.rcIdentity v)
      = some (.Matched {I.id}) := by
  have hinv : (invalidate (fun Q => Q ≠ RCIA.rcIdentity v && AA.mayAlias v Q)
      st.states).find? (RCIA.rcIdentity v) = none := by
    rw [find?_invalidate, hnone]; rfl
  have hsub := BlotMapVector.subscript_of_find?_none hinv
  have hown : (visitRefCountInst dir AA RCIA st I v).states.find? (RCIA.rcIdentity v)
      = some (.Matched {I.id}) := by
    unfold visitRefCountInst
    simp only [hopens, if_true, hsub]
    exact BlotMapVector.find?_store_self _ _ _
  rcases hkind with hk | hk <;> simpa only [visitInstruction, hk] using hown

/-- An instruction that closes a candidate writes the Matched state of its
pointer to the result map under its own identity. -/
theorem results_visit_closes (dir : Direction) (AA : AliasAnalysis)
    (RCIA : RCIdentityFunctionInfo) (st : DataflowState) (I : SILInstruction) (v : SILValue)
    (S : Finset Nat) (hkind : I.kind = .retain v ∨ I.kind = .release v)
    (hcloses : opensCandidate dir I.kind = false)
    (hstate : st.states.find? (RCIA.rcIdentity v) = some (.Matched S)) :
    (visitInstruction dir AA RCIA st I).results.find? I.id = some (.Matched S) := by
  have hinv : (invalidate (fun Q => Q ≠ RCIA.rcIdentity v && AA.mayAlias v Q)
      st.states).find? (RCIA.rcIdentity v) = some (.Matched S) := by
    rw [find?_invalidate, hstate]; simp
  have hown : (visitRefCountInst dir AA RCIA st I v).results.find? I.id
      = some (.Matched S) := by
    unfold visitRefCountInst
    simp only [hcloses, Bool.false_eq_true, if_false, hinv]
    exact BlotMapVector.find?_store_self _ _ _
  rcases hkind with hk | hk <;> simpa only [visitInstruction, hk] using hown

theorem visit_inert (dir : Direction) (AA : AliasAnalysis) (RCIA : RCIdentityFunctionInfo)
    (st : DataflowState) (I : SILInstruction) (h : I.kind = .inert) :
    visitInstruction dir AA RCIA st I = st := by
  simp [visitInstruction, h]


namespace BlotMapVector

variable {K V : Type}

theorem key_mem_of_mem_liveEntries {m : BlotMapVector K V} {e : K × V}
    (h : e ∈ m.liveEntries) : e.1 ∈ m.slots.map Prod.fst := by
  simp only [liveEntries, iterate, List.reduceOption_mem_iff] at h
  obtain ⟨slot, hslot, hse⟩ := List.mem_map.1 h
  cases hs2 : slot.2 with
  | none => simp [hs2] at hse
  | some w =>
    simp only [hs2, Option.map_some', Option.some.injEq] at hse
    subst hse
    exact List.mem_map.2 ⟨slot, hslot, rfl⟩

variable [DecidableEq K]

/-- In a well-formed map the keys of the live entries are the keys `find?`
finds. -/
theorem mem_liveEntries_keys_iff {m : BlotMapVector K V} (h : m.WF) (k : K) :
    k ∈ m.liveEntries.map Prod.fst ↔ (m.find? k).isSome := by
  constructor
  · obtain ⟨l⟩ := m
    simp only [WF] at h
    intro hk
    obtain ⟨e, he, hek⟩ := List.mem_map.1 hk
    subst hek
    induction l with
    | nil => simp [liveEntries, iterate] at he
    | cons hd tl ih =>
      obtain ⟨k', o⟩ := hd
      simp only [List.map_cons, List.nodup_cons] at h
      by_cases hk' : k' = e.1
      · subst hk'
        cases o with
        | some w => simp [find?, slotsFind]
        | none =>
          exfalso
          apply h.1
          have he' : e ∈ (BlotMapVector.mk tl).liveEntries := by
            simpa [liveEntries, iterate] using he
          exact key_mem_of_mem_liveEntries he'
      · have he' : e ∈ (BlotMapVector.mk tl).liveEntries := by
          cases o with
          | none => simpa [liveEntries, iterate] using he
          | some w =>
            simp only [liveEntries, iterate, List.map_cons, Option.map_some',
              List.reduceOption_cons_of_some, List.mem_cons] at he
            rcases he with he | he
            · exact absurd (congrArg Prod.fst he).symm hk'
            · simpa [liveEntries, iterate] using he
        have := ih h.2 he' (List.mem_map.2 ⟨e, he', rfl⟩)
        simpa [find?, slotsFind, hk'] using this
  · intro hk
    obtain ⟨v, hv⟩ := Option.isSome_iff_exists.1 hk
    exact List.mem_map.2 ⟨(k, v), find?_some_mem_liveEntries hv, rfl⟩

end BlotMapVector

theorem find?_mergeStates_none (mine other : BlotMapVector SILValue RefCountState)
    (P : SILValue) (hother : other.WF) (hm : mine.find? P = none)
    (ho : other.find? P = none) : (mergeStates mine other).find? P = none := by
  rw [find?_mergeStates, hm]
  have : P ∉ other.liveEntries.map Prod.fst := by
    rw [BlotMapVector.mem_liveEntries_keys_iff hother, ho]
    simp
  simp [this]

theorem find?_foldl_mergeStates_none (ms : List (BlotMapVector SILValue RefCountState))
    (m : BlotMapVector SILValue RefCountState) (P : SILValue)
    (hwf : ∀ o ∈ ms, o.WF) (hnone : ∀ o ∈ m :: ms, o.find? P = none) :
    (ms.foldl mergeStates m).find? P = none := by
  induction ms generalizing m with
  | nil => exact hnone m (List.mem_cons_self _ _)
  | cons o os ih =>
    rw [List.foldl_cons]
    apply ih _ (fun q hq => hwf q (List.mem_cons_of_mem _ hq))
    intro q hq
    rcases List.mem_cons.1 hq with hq | hq
    · subst hq
      exact find?_mergeStates_none m o P (hwf o (List.mem_cons_self _ _))
        (hnone m (List.mem_cons_self _ _))
        (hnone o (List.mem_cons_of_mem _ (List.mem_cons_self _ _)))
    · exact hnone q (List.mem_cons_of_mem _ (List.mem_cons_of_mem _ hq))

/-- What the merged map holds for a pointer when all maps are well formed. -/
theorem find?_foldl_mergeStates_eq (ms : List (BlotMapVector SILValue RefCountState))
    (m : BlotMapVector SILValue RefCountState) (P : SILValue) (hwf : ∀ o ∈ ms, o.WF) :
    (ms.foldl mergeStates m).find? P
      = if (m :: ms).any (fun o => (o.find? P).isSome) then
          some (RefCountState.meetAll ((m :: ms).map fun o => stateOnEdge o P))
        else none := by
  by_cases h : (m :: ms).any (fun o => (o.find? P).isSome) = true
  · rw [if_pos h]
    obtain ⟨o, ho, hs⟩ := List.any_eq_true.1 h
    exact find?_foldl_mergeStates ms m P ⟨o, ho, hs⟩
  · rw [if_neg h]
    apply find?_foldl_mergeStates_none ms m P hwf
    intro o ho
    by_contra hne
    apply h
    exact List.any_eq_true.2 ⟨o, ho, Option.isSome_iff_ne_none.2 hne⟩

/-- Merging the same maps in another order gives every pointer the same state. -/
theorem merged_maps_perm (first first' : BlotMapVector SILValue RefCountState)
    (others others' : List (BlotMapVector SILValue RefCountState)) (P : SILValue)
    (hperm : (first :: others).Perm (first' :: others')) :
    stateOnEdge (others.foldl mergeStates first) P
        = stateOnEdge (others'.foldl mergeStates first') P
      ∧ ((∀ o ∈ first :: others, o.WF) →
          (others.foldl mergeStates first).find? P
            = (others'.foldl mergeStates first').find? P) := by
  have hmeet : RefCountState.meetAll ((first :: others).map fun o => stateOnEdge o P)
      = RefCountState.meetAll ((first' :: others').map fun o => stateOnEdge o P) :=
    RefCountState.meetAll_perm (hperm.map _)
  constructor
  · rw [stateOnEdge_foldl_mergeStates, stateOnEdge_foldl_mergeStates, hmeet]
  · intro hwf
    have hwf' : ∀ o ∈ first' :: others', o.WF := fun o ho => hwf o (hperm.mem_iff.2 ho)
    rw [find?_foldl_mergeStates_eq others first P
        (fun o ho => hwf o (List.mem_cons_of_mem _ ho)),
      find?_foldl_mergeStates_eq others' first' P
        (fun o ho => hwf' o (List.mem_cons_of_mem _ ho)),
      hmeet]
    have hany : (first :: others).any (fun o => (o.find? P).isSome)
        = (first' :: others').any (fun o => (o.find? P).isSome) := by
      rw [Bool.eq_iff_iff, List.any_eq_true, List.any_eq_true]
      constructor
      · rintro ⟨o, ho, hs⟩; exact ⟨o, hperm.mem_iff.1 ho, hs⟩
      · rintro ⟨o, ho, hs⟩; exact ⟨o, hperm.mem_iff.2 ho, hs⟩
    rw [hany]


/-! ### The representation invariant is kept by every operation -/

theorem WF_invalidate {m : BlotMapVector SILValue RefCountState} (h : m.WF)
    (selected : SILValue → Bool) : (invalidate selected m).WF :=
  BlotMapVector.WF_mapLive h _

theorem WF_mergeStates {mine : BlotMapVector SILValue RefCountState} (h : mine.WF)
    (other : BlotMapVector SILValue RefCountState) : (mergeStates mine other).WF := by
  unfold mergeStates
  have key : ∀ (es : List (SILValue × RefCountState))
      (m : BlotMapVector SILValue RefCountState), m.WF →
      (es.foldl (fun m e => if (m.find? e.1).isNone then m.store e.1 .Unknown else m) m).WF := by
    intro es
    induction es with
    | nil => intro m hm; exact hm
    | cons e es ih =>
      intro m hm
      rw [List.foldl_cons]
      apply ih
      split
      · exact BlotMapVector.WF_store hm _ _
      · exact hm
  exact key _ _ (BlotMapVector.WF_mapLive h _)

theorem WF_visitInstruction (dir : Direction) (AA : AliasAnalysis)
    (RCIA : RCIdentityFunctionInfo) (st : DataflowState) (I : SILInstruction)
    (h : st.states.WF ∧ st.results.WF) :
    (visitInstruction dir AA RCIA st I).states.WF
      ∧ (visitInstruction dir AA RCIA st I).results.WF := by
  have hown : ∀ v, (visitRefCountInst dir AA RCIA st I v).states.WF
      ∧ (visitRefCountInst dir AA RCIA st I v).results.WF := by
    intro v
    have hinv := WF_invalidate h.1 (fun Q => Q ≠ RCIA.rcIdentity v && AA.mayAlias v Q)
    unfold visitRefCountInst
    simp only []
    split
    · split
      · exact ⟨BlotMapVector.WF_store (BlotMapVector.WF_subscript hinv _) _ _, h.2⟩
      · exact ⟨BlotMapVector.WF_store (BlotMapVector.WF_subscript hinv _) _ _, h.2⟩
      · exact ⟨BlotMapVector.WF_subscript hinv _, h.2⟩
    · split
      · exact ⟨BlotMapVector.WF_blot hinv _, BlotMapVector.WF_store h.2 _ _⟩
      · exact ⟨hinv, h.2⟩
  unfold visitInstruction
  split
  · exact hown _
  · exact hown _
  · exact ⟨WF_invalidate h.1 _, h.2⟩
  · exact ⟨WF_invalidate h.1 _, h.2⟩
  · exact h

theorem WF_visitBlock (dir : Direction) (AA : AliasAnalysis) (RCIA : RCIdentityFunctionInfo)
    (insts : List SILInstruction) (st : DataflowState)
    (h : st.states.WF ∧ st.results.WF) :
    (visitBlock dir AA RCIA insts st).states.WF
      ∧ (visitBlock dir AA RCIA insts st).results.WF := by
  unfold visitBlock
  induction visitOrder dir insts generalizing st with
  | nil => exact h
  | cons I Is ih =>
    rw [List.foldl_cons]
    exact ih _ (WF_visitInstruction dir AA RCIA st I h)

theorem WF_applySummary (AA : AliasAnalysis) (summary : List SILInstruction)
    {m : BlotMapVector SILValue RefCountState} (h : m.WF) : (applySummary AA summary m).WF := by
  unfold applySummary
  induction summary generalizing m with
  | nil => exact h
  | cons I Is ih =>
    rw [List.foldl_cons]
    exact ih (WF_invalidate h _)

namespace ARCRegionState

theorem WF_create (R : LoopRegion) (AllowsLeaks : Bool) : (create R AllowsLeaks).WF :=
  ⟨BlotMapVector.WF_empty, BlotMapVector.WF_empty⟩

theorem WF_getTopDownRefCountState {S : ARCRegionState} (h : S.WF) (Ptr : SILValue) :
    (S.getTopDownRefCountState Ptr).1.WF :=
  ⟨BlotMapVector.WF_subscript h.1 Ptr, h.2⟩

theorem WF_getBottomUpRefCountState {S : ARCRegionState} (h : S.WF) (Ptr : SILValue) :
    (S.getBottomUpRefCountState Ptr).1.WF :=
  ⟨h.1, BlotMapVector.WF_subscript h.2 Ptr⟩

theorem WF_assignTopDownRefCountState {S : ARCRegionState} (h : S.WF) (Ptr : SILValue)
    (NewState : TopDownRefCountState) : (S.assignTopDownRefCountState Ptr NewState).WF :=
  ⟨BlotMapVector.WF_store (BlotMapVector.WF_subscript h.1 Ptr) _ _, h.2⟩

theorem WF_assignBottomUpRefCountState {S : ARCRegionState} (h : S.WF) (Ptr : SILValue)
    (NewState : BottomUpRefCountState) : (S.assignBottomUpRefCountState Ptr NewState).WF :=
  ⟨h.1, BlotMapVector.WF_store (BlotMapVector.WF_subscript h.2 Ptr) _ _⟩

theorem WF_clearTopDownRefCountState {S : ARCRegionState} (h : S.WF) (Ptr : SILValue) :
    (S.clearTopDownRefCountState Ptr).WF :=
  ⟨BlotMapVector.WF_blot h.1 Ptr, h.2⟩

theorem WF_clearBottomUpRefCountState {S : ARCRegionState} (h : S.WF) (Ptr : SILValue) :
    (S.clearBottomUpRefCountState Ptr).WF :=
  ⟨h.1, BlotMapVector.WF_blot h.2 Ptr⟩

theorem WF_clear (S : ARCRegionState) : S.clear.WF :=
  ⟨BlotMapVector.WF_empty, BlotMapVector.WF_empty⟩

theorem WF_initPredTopDown {S PredRegion : ARCRegionState} (h : S.WF) (hp : PredRegion.WF) :
    (S.initPredTopDown PredRegion).WF :=
  ⟨hp.1, h.2⟩

theorem WF_mergePredTopDown {S : ARCRegionState} (h : S.WF) (PredRegion : ARCRegionState) :
    (S.mergePredTopDown PredRegion).WF :=
  ⟨WF_mergeStates h.1 _, h.2⟩

theorem WF_initSuccBottomUp {S SuccRegion : ARCRegionState} (h : S.WF) (hs : SuccRegion.WF) :
    (S.initSuccBottomUp SuccRegion).WF :=
  ⟨h.1, hs.2⟩

theorem WF_mergeSuccBottomUp {S : ARCRegionState} (h : S.WF) (SuccRegion : ARCRegionState) :
    (S.mergeSuccBottomUp SuccRegion).WF :=
  ⟨h.1, WF_mergeStates h.2 _⟩

theorem WF_processTopDown {S : ARCRegionState} (h : S.WF) (AA : AliasAnalysis)
    (RCIA : RCIdentityFunctionInfo) {DecToIncStateMap : BlotMapVector Nat RefCountState}
    (hmap : DecToIncStateMap.WF) {res : ProcessResult}
    (hres : S.processTopDown AA RCIA DecToIncStateMap = .ok res) :
    res.state.WF ∧ res.resultMap.WF := by
  unfold processTopDown at hres
  split at hres
  · exact absurd hres (by simp)
  · rename_i insts _
    cases hres
    have := WF_visitBlock .TopDown AA RCIA insts
      { states := S.PtrToTopDownState, results := DecToIncStateMap, nested := false } ⟨h.1, hmap⟩
    exact ⟨⟨this.1, h.2⟩, this.2⟩
  · cases hres
    exact ⟨⟨WF_applySummary AA _ h.1, h.2⟩, hmap⟩

theorem WF_processBottomUp {S : ARCRegionState} (h : S.WF) (AA : AliasAnalysis)
    (RCIA : RCIdentityFunctionInfo) {IncToDecStateMap : BlotMapVector Nat RefCountState}
    (hmap : IncToDecStateMap.WF) {res : ProcessResult}
    (hres : S.processBottomUp AA RCIA IncToDecStateMap = .ok res) :
    res.state.WF ∧ res.resultMap.WF := by
  unfold processBottomUp at hres
  split at hres
  · exact absurd hres (by simp)
  · rename_i insts _
    cases hres
    have := WF_visitBlock .BottomUp AA RCIA insts
      { states := S.PtrToBottomUpState, results := IncToDecStateMap, nested := false }
      ⟨h.2, hmap⟩
    exact ⟨⟨h.1, this.1⟩, this.2⟩
  · cases hres
    exact ⟨⟨h.1, WF_applySummary AA _ h.2⟩, hmap⟩

end ARCRegionState

/-- An opening instruction for an untracked pointer, instructions that do not
touch the pointer, then a closing instruction: the closing instruction is
recorded with the state Matched by the opening one. -/
theorem results_pair (dir : Direction) (AA : AliasAnalysis) (RCIA : RCIdentityFunctionInfo)
    (st : DataflowState) (Iopen Iclose : SILInstruction) (v : SILValue)
    (between : List SILInstruction)
    (hopenKind : Iopen.kind = .retain v ∨ Iopen.kind = .release v)
    (hcloseKind : Iclose.kind = .retain v ∨ Iclose.kind = .release v)
    (hopens : opensCandidate dir Iopen.kind = true)
    (hcloses : opensCandidate dir Iclose.kind = false)
    (hnone : st.states.find? (RCIA.rcIdentity v) = none)
    (hbetween : ∀ I ∈ between, mayTouch AA RCIA I (RCIA.rcIdentity v) = false) :
    ((Iopen :: (between ++ [Iclose])).foldl (visitInstruction dir AA RCIA) st).results.find?
        Iclose.id = some (.Matched {Iopen.id}) := by
  rw [List.foldl_cons, List.foldl_append, List.foldl_cons, List.foldl_nil]
  apply results_visit_closes dir AA RCIA _ Iclose v {Iopen.id} hcloseKind hcloses
  rw [find?_foldl_visit_of_not_mayTouch dir AA RCIA between _ _ hbetween]
  exact find?_visit_opens dir AA RCIA st Iopen v hopenKind hopens hnone

/-- C5: for a single-block function whose body is a retain of `x`,
instructions that do not touch `x`, a release of `x` and the return,
`processTopDown` on the fresh state of its region returns and leaves
`DecToIncStateMap[release] = Matched({retain})`, and `processBottomUp` on the
resulting state returns and leaves `IncToDecStateMap[retain] =
Matched({release})`. -/
theorem straight_line_pair_is_matched (AA : AliasAnalysis) (RCIA : RCIdentityFunctionInfo)
    (x : SILValue) (retainId releaseId returnId : Nat) (between : List SILInstruction)
    (AllowsLeaks : Bool) (DecToIncStateMap IncToDecStateMap : BlotMapVector Nat RefCountState)
    (hbetween : ∀ I ∈ between, mayTouch AA RCIA I (RCIA.rcIdentity x) = false) :
    ∃ topDown bottomUp,
      (ARCRegionState.create
          (.Block (straightLineBody x retainId releaseId returnId between))
          AllowsLeaks).processTopDown AA RCIA DecToIncStateMap = .ok topDown
        ∧ topDown.resultMap.find? releaseId = some (.Matched {retainId})
        ∧ topDown.state.processBottomUp AA RCIA IncToDecStateMap = .ok bottomUp
        ∧ bottomUp.resultMap.find? retainId = some (.Matched {releaseId}) := by
  refine ⟨_, _, rfl, ?_, rfl, ?_⟩
  · show (((straightLineBody x retainId releaseId returnId between).foldl
        (visitInstruction .TopDown AA RCIA) _).results.find? releaseId) = _
    have hbody : straightLineBody x retainId releaseId returnId between
        = (⟨retainId, .retain x⟩ :: (between ++ [⟨releaseId, .release x⟩]))
            ++ [⟨returnId, .inert⟩] := by
      simp [straightLineBody]
    rw [hbody, List.foldl_append, List.foldl_cons, List.foldl_nil,
      visit_inert _ _ _ _ _ rfl]
    exact results_pair .TopDown AA RCIA _ ⟨retainId, .retain x⟩ ⟨releaseId, .release x⟩ x
      between (Or.inl rfl) (Or.inr rfl) rfl rfl rfl hbetween
  · show (((straightLineBody x retainId releaseId returnId between).reverse.foldl
        (visitInstruction .BottomUp AA RCIA) _).results.find? retainId) = _
    have hbody : (straightLineBody x retainId releaseId returnId between).reverse
        = ⟨returnId, .inert⟩
            :: (⟨releaseId, .release x⟩ :: (between.reverse ++ [⟨retainId, .retain x⟩])) := by
      simp [straightLineBody]
    rw [hbody, List.foldl_cons, visit_inert _ _ _ _ _ rfl]
    exact results_pair .BottomUp AA RCIA _ ⟨releaseId, .release x⟩ ⟨retainId, .retain x⟩ x
      between.reverse (Or.inr rfl) (Or.inl rfl) rfl rfl rfl
      (fun I hI => hbetween I (List.mem_reverse.1 hI))

theorem straight_line_pair_is_matched_witness :
    (∀ I ∈ [(⟨20, .use 2⟩ : SILInstruction)],
        mayTouch sampleAA sampleRCIA I (sampleRCIA.rcIdentity 1) = false)
      ∧ ∃ topDown bottomUp,
        (ARCRegionState.create (.Block (straightLineBody 1 10 11 12 [⟨20, .use 2⟩]))
            false).processTopDown sampleAA sampleRCIA BlotMapVector.empty = .ok topDown
          ∧ topDown.resultMap.find? 11 = some (.Matched {10})
          ∧ topDown.state.processBottomUp sampleAA sampleRCIA BlotMapVector.empty
              = .ok bottomUp
          ∧ bottomUp.resultMap.find? 10 = some (.Matched {11}) :=
  ⟨by decide,
    straight_line_pair_is_matched sampleAA sampleRCIA 1 10 11 12 [⟨20, .use 2⟩] false
      BlotMapVector.empty BlotMapVector.empty (by decide)⟩


/-- C7: after `initPredTopDown` with the first predecessor and
`mergePredTopDown` with every other one, the state a region holds for a tracked
pointer, read as along an edge, is the lattice meet of the predecessors'
states; the map holds that meet explicitly as soon as one predecessor tracks
the pointer; and if any predecessor is Unknown for the pointer the merged state
is Unknown and the map holds no Matched state for it.  The same holds for
`initSuccBottomUp` and `mergeSuccBottomUp` over the successors. -/
theorem merged_state_is_meet (S first : ARCRegionState) (others : List ARCRegionState)
    (P : SILValue) :
    (stateOnEdge (S.mergePredecessors first others).PtrToTopDownState P
        = RefCountState.meetAll
            ((first :: others).map fun R => stateOnEdge R.PtrToTopDownState P)
      ∧ ((∃ R ∈ first :: others, (R.PtrToTopDownState.find? P).isSome) →
          (S.mergePredecessors first others).PtrToTopDownState.find? P
            = some (RefCountState.meetAll
                ((first :: others).map fun R => stateOnEdge R.PtrToTopDownState P)))
      ∧ ((∃ R ∈ first :: others, stateOnEdge R.PtrToTopDownState P = .Unknown) →
          stateOnEdge (S.mergePredecessors first others).PtrToTopDownState P = .Unknown
            ∧ ∀ insts, (S.mergePredecessors first others).PtrToTopDownState.find? P
                ≠ some (.Matched insts)))
    ∧ (stateOnEdge (S.mergeSuccessors first others).PtrToBottomUpState P
        = RefCountState.meetAll
            ((first :: others).map fun R => stateOnEdge R.PtrToBottomUpState P)
      ∧ ((∃ R ∈ first :: others, (R.PtrToBottomUpState.find? P).isSome) →
          (S.mergeSuccessors first others).PtrToBottomUpState.find? P
            = some (RefCountState.meetAll
                ((first :: others).map fun R => stateOnEdge R.PtrToBottomUpState P)))
      ∧ ((∃ R ∈ first :: others, stateOnEdge R.PtrToBottomUpState P = .Unknown) →
          stateOnEdge (S.mergeSuccessors first others).PtrToBottomUpState P = .Unknown
            ∧ ∀ insts, (S.mergeSuccessors first others).PtrToBottomUpState.find? P
                ≠ some (.Matched insts))) := by
  constructor
  · have h := merged_maps_meet first.PtrToTopDownState
      (others.map fun R => R.PtrToTopDownState) P
    rw [← ARCRegionState.topDown_mergePredecessors S first others] at h
    have hmap : (first.PtrToTopDownState :: others.map fun R => R.PtrToTopDownState)
        = (first :: others).map fun R => R.PtrToTopDownState := rfl
    rw [hmap] at h
    simp only [List.map_map, Function.comp_def] at h
    refine ⟨h.1, fun hex => h.2.1 ?_, fun hex => h.2.2 ?_⟩
    · obtain ⟨R, hR, hs⟩ := hex
      exact ⟨R.PtrToTopDownState, List.mem_map.2 ⟨R, hR, rfl⟩, hs⟩
    · obtain ⟨R, hR, hs⟩ := hex
      exact ⟨R.PtrToTopDownState, List.mem_map.2 ⟨R, hR, rfl⟩, hs⟩
  · have h := merged_maps_meet first.PtrToBottomUpState
      (others.map fun R => R.PtrToBottomUpState) P
    rw [← ARCRegionState.bottomUp_mergeSuccessors S first others] at h
    have hmap : (first.PtrToBottomUpState :: others.map fun R => R.PtrToBottomUpState)
        = (first :: others).map fun R => R.PtrToBottomUpState := rfl
    rw [hmap] at h
    simp only [List.map_map, Function.comp_def] at h
    refine ⟨h.1, fun hex => h.2.1 ?_, fun hex => h.2.2 ?_⟩
    · obtain ⟨R, hR, hs⟩ := hex
      exact ⟨R.PtrToBottomUpState, List.mem_map.2 ⟨R, hR, rfl⟩, hs⟩
    · obtain ⟨R, hR, hs⟩ := hex
      exact ⟨R.PtrToBottomUpState, List.mem_map.2 ⟨R, hR, rfl⟩, hs⟩


/-- C8: the meet that merges `RefCountState`s is commutative, associative and
idempotent; hence the meet of a sequence of states does not depend on their
order, and neither does the state that merging a region's predecessors, or
successors, gives a pointer: read along an edge it is the same for every order,
and when the maps are well formed the map itself holds the same for it. -/
theorem meet_is_lattice_meet :
    (∀ a b : RefCountState, a.meet b = b.meet a)
      ∧ (∀ a b c : RefCountState, (a.meet b).meet c = a.meet (b.meet c))
      ∧ (∀ a : RefCountState, a.meet a = a)
      ∧ (∀ l₁ l₂ : List RefCountState, l₁.Perm l₂ →
          RefCountState.meetAll l₁ = RefCountState.meetAll l₂)
      ∧ (∀ (S first first' : ARCRegionState) (others others' : List ARCRegionState)
          (P : SILValue), (first :: others).Perm (first' :: others') →
          (stateOnEdge (S.mergePredecessors first others).PtrToTopDownState P
              = stateOnEdge (S.mergePredecessors first' others').PtrToTopDownState P
            ∧ stateOnEdge (S.mergeSuccessors first others).PtrToBottomUpState P
              = stateOnEdge (S.mergeSuccessors first' others').PtrToBottomUpState P)
          ∧ ((∀ R ∈ first :: others, R.PtrToTopDownState.WF) →
              (S.mergePredecessors first others).PtrToTopDownState.find? P
                = (S.mergePredecessors first' others').PtrToTopDownState.find? P)
          ∧ ((∀ R ∈ first :: others, R.PtrToBottomUpState.WF) →
              (S.mergeSuccessors first others).PtrToBottomUpState.find? P
                = (S.mergeSuccessors first' others').PtrToBottomUpState.find? P)) := by
  refine ⟨RefCountState.meet_comm, RefCountState.meet_assoc, RefCountState.meet_idem,
    fun _ _ h => RefCountState.meetAll_perm h, ?_⟩
  intro S first first' others others' P hperm
  have hpTD : (first.PtrToTopDownState :: others.map fun R => R.PtrToTopDownState).Perm
      (first'.PtrToTopDownState :: others'.map fun R => R.PtrToTopDownState) :=
    List.Perm.map (fun R : ARCRegionState => R.PtrToTopDownState) hperm
  have hpBU : (first.PtrToBottomUpState :: others.map fun R => R.PtrToBottomUpState).Perm
      (first'.PtrToBottomUpState :: others'.map fun R => R.PtrToBottomUpState) :=
    List.Perm.map (fun R : ARCRegionState => R.PtrToBottomUpState) hperm
  have hTD := merged_maps_perm _ _ _ _ P hpTD
  have hBU := merged_maps_perm _ _ _ _ P hpBU
  rw [← ARCRegionState.topDown_mergePredecessors S first others,
    ← ARCRegionState.topDown_mergePredecessors S first' others'] at hTD
  rw [← ARCRegionState.bottomUp_mergeSuccessors S first others,
    ← ARCRegionState.bottomUp_mergeSuccessors S first' others'] at hBU
  refine ⟨⟨hTD.1, hBU.1⟩, fun hwf => hTD.2 ?_, fun hwf => hBU.2 ?_⟩
  · intro o ho
    have ho' : o ∈ (first :: others).map fun R => R.PtrToTopDownState := ho
    obtain ⟨R, hR, rfl⟩ := List.mem_map.1 ho'
    exact hwf R hR
  · intro o ho
    have ho' : o ∈ (first :: others).map fun R => R.PtrToBottomUpState := ho
    obtain ⟨R, hR, rfl⟩ := List.mem_map.1 ho'
    exact hwf R hR

/-- C9: in a region state whose maps are well formed, after blotting the
entry of `P` and then inserting a state for `P` through
`getTopDownRefCountState`, iteration over the top-down map yields exactly one
live entry keyed by `P`: the newly initialized state right after the call, and
the state assigned through the returned reference after an assignment.  The
same holds for the bottom-up map. -/
theorem blot_then_insert_yields_new_state (S : ARCRegionState) (P : SILValue)
    (NewState : RefCountState) (hTD : S.PtrToTopDownState.WF)
    (hBU : S.PtrToBottomUpState.WF) :
    (((S.clearTopDownRefCountState P).getTopDownRefCountState P).2 = .Top
      ∧ (((S.clearTopDownRefCountState P).getTopDownRefCountState
            P).1.getTopDownStates.reduceOption.filter fun e => decide (e.1 = P))
          = [(P, .Top)]
      ∧ (((S.clearTopDownRefCountState P).assignTopDownRefCountState P
            NewState).getTopDownStates.reduceOption.filter fun e => decide (e.1 = P))
          = [(P, NewState)])
    ∧ (((S.clearBottomUpRefCountState P).getBottomUpRefCountState P).2 = .Top
      ∧ (((S.clearBottomUpRefCountState P).getBottomUpRefCountState
            P).1.getBottomupStates.reduceOption.filter fun e => decide (e.1 = P))
          = [(P, .Top)]
      ∧ (((S.clearBottomUpRefCountState P).assignBottomUpRefCountState P
            NewState).getBottomupStates.reduceOption.filter fun e => decide (e.1 = P))
          = [(P, NewState)]) := by
  have key : ∀ m : BlotMapVector SILValue RefCountState, m.WF →
      ((m.blot P).subscript P).2 = .Top
        ∧ (((m.blot P).subscript P).1.liveEntries.filter fun e => decide (e.1 = P))
            = [(P, .Top)]
        ∧ ((((m.blot P).subscript P).1.store P NewState).liveEntries.filter
            fun e => decide (e.1 = P)) = [(P, NewState)] := by
    intro m hm
    have hsub := BlotMapVector.subscript_of_find?_none (BlotMapVector.find?_blot_self m P)
    rw [hsub]
    exact ⟨rfl, BlotMapVector.liveEntries_store_filter (BlotMapVector.WF_blot hm P) P _,
      BlotMapVector.liveEntries_store_filter
        (BlotMapVector.WF_store (BlotMapVector.WF_blot hm P) P _) P NewState⟩
  exact ⟨key _ hTD, key _ hBU⟩

theorem blot_then_insert_yields_new_state_witness :
    (sampleRegionState.PtrToTopDownState.WF ∧ sampleRegionState.PtrToBottomUpState.WF)
      ∧ (((sampleRegionState.clearTopDownRefCountState 1).assignTopDownRefCountState 1
            (.Matched {30})).getTopDownStates.reduceOption.filter fun e => decide (e.1 = 1))
          = [(1, .Matched {30})] :=
  have hTD : sampleRegionState.PtrToTopDownState.WF := by
    simp [BlotMapVector.WF, sampleRegionState]
  have hBU : sampleRegionState.PtrToBottomUpState.WF := by
    simp [BlotMapVector.WF, sampleRegionState]
  ⟨⟨hTD, hBU⟩,
    (blot_then_insert_yields_new_state sampleRegionState 1 (.Matched {30}) hTD hBU).1.2.2⟩

theorem merged_state_is_meet_witness :
    (∃ R ∈ [sampleRegionState, ARCRegionState.create (.Block []) false],
        stateOnEdge R.PtrToTopDownState 1 = .Unknown)
      ∧ stateOnEdge ((ARCRegionState.create (.Block []) false).mergePredecessors
          sampleRegionState
          [ARCRegionState.create (.Block []) false]).PtrToTopDownState 1 = .Unknown :=
  have h : ∃ R ∈ [sampleRegionState, ARCRegionState.create (.Block []) false],
      stateOnEdge R.PtrToTopDownState 1 = .Unknown :=
    ⟨ARCRegionState.create (.Block []) false, by simp, rfl⟩
  ⟨h, ((merged_state_is_meet (ARCRegionState.create (.Block []) false) sampleRegionState
      [ARCRegionState.create (.Block []) false] 1).1.2.2 h).1⟩

theorem meet_is_lattice_meet_witness :
    [RefCountState.Top, .Matched {1}, .Unknown].Perm [.Unknown, .Top, .Matched {1}]
      ∧ RefCountState.meetAll [.Top, .Matched {1}, .Unknown]
          = RefCountState.meetAll [.Unknown, .Top, .Matched {1}] :=
  have h : [RefCountState.Top, .Matched {1}, .Unknown].Perm [.Unknown, .Top, .Matched {1}] :=
    (List.perm_append_comm :
      ([RefCountState.Top, RefCountState.Matched {1}] ++ [RefCountState.Unknown]).Perm
        ([RefCountState.Unknown] ++ [RefCountState.Top, RefCountState.Matched {1}]))
  ⟨h, meet_is_lattice_meet.2.2.2.1 _ _ h⟩

end ARC

/-! ## Part 2, continued: the accessors of the region state -/

namespace ARC

namespace BlotMapVector

variable {K V : Type} [DecidableEq K]

/-- In a duplicate-free slot list, blotting `k` empties the slots keyed by `k`
and leaves every other slot as it is, each in its place. -/
theorem slotsBlot_eq_map (k : K) (l : List (K × Option V)) (h : (l.map Prod.fst).Nodup) :
    slotsBlot k l = l.map fun slot => if slot.1 = k then (slot.1, none) else slot := by
  induction l with
  | nil => rfl
  | cons hd tl ih =>
    obtain ⟨k', o⟩ := hd
    simp only [List.map_cons, List.nodup_cons] at h
    by_cases hk : k' = k
    · subst hk
      have hid : tl.map (fun slot => if slot.1 = k' then (slot.1, none) else slot) = tl := by
        conv_rhs => rw [← List.map_id tl]
        apply List.map_congr_left
        intro slot hslot
        have : slot.1 ≠ k' := fun e => h.1 (e ▸ List.mem_map.2 ⟨slot, hslot, rfl⟩)
        simp [this]
      simp [slotsBlot, hid]
    · simp [slotsBlot, hk, ih h.2]

/-- What an iteration visits after a blot, in a well-formed map: the items of
before, the one keyed by `k` showing as a tombstone. -/
theorem iterate_blot {m : BlotMapVector K V} (h : m.WF) (k : K) :
    (m.blot k).iterate
      = m.iterate.map fun item => item.bind fun e => if e.1 = k then none else some e := by
  unfold iterate blot
  simp only [slotsBlot_eq_map k m.slots h, List.map_map]
  apply List.map_congr_left
  intro slot _
  obtain ⟨k', o⟩ := slot
  by_cases hk : k' = k
  · cases o <;> simp [hk]
  · cases o <;> simp [hk]

theorem numSlots_blot (m : BlotMapVector K V) (k : K) : (m.blot k).numSlots = m.numSlots :=
  length_slotsBlot k m.slots

/-- A store to `k` leaves the live entries of the other keys as they are, in
their order. -/
theorem liveEntries_store_filter_ne (m : BlotMapVector K V) (k : K) (v : V) :
    (m.store k v).liveEntries.filter (fun e => decide (e.1 ≠ k))
      = m.liveEntries.filter (fun e => decide (e.1 ≠ k)) := by
  obtain ⟨l⟩ := m
  simp only [store, liveEntries, iterate]
  induction l with
  | nil => simp [slotsStore, List.reduceOption]
  | cons hd tl ih =>
    obtain ⟨k', o⟩ := hd
    by_cases hk : k' = k
    · subst hk
      cases o <;> simp [slotsStore, List.reduceOption_cons_of_some,
        List.reduceOption_cons_of_none, List.filter_cons]
    · cases o with
      | none =>
        simp only [slotsStore, hk, if_false, List.map_cons, Option.map_none',
          List.reduceOption_cons_of_none]
        exact ih
      | some w =>
        simp only [slotsStore, hk, if_false, List.map_cons, Option.map_some',
          List.reduceOption_cons_of_some, List.filter_cons]
        rw [ih]

/-- The subscript is find-or-create. -/
theorem subscript_find_or_create [Inhabited V] (m : BlotMapVector K V) (k : K) :
    (∀ v, m.find? k = some v → m.subscript k = (m, v))
      ∧ (m.find? k = none →
          (m.subscript k).2 = default
            ∧ (m.subscript k).1.find? k = some default
            ∧ (∀ k', k' ≠ k → (m.subscript k).1.find? k' = m.find? k')
            ∧ ((m.subscript k).1.liveEntries.filter fun e => decide (e.1 ≠ k))
                = m.liveEntries.filter fun e => decide (e.1 ≠ k))
      ∧ (m.subscript k).1.subscript k = m.subscript k
      ∧ ((m.subscript k).1.subscript k).1.numSlots = (m.subscript k).1.numSlots := by
  have hfound : ∀ v, m.find? k = some v → m.subscript k = (m, v) :=
    fun v hv => subscript_of_find?_some hv
  have hsecond : (m.subscript k).1.subscript k = m.subscript k := by
    cases hf : m.find? k with
    | some v => rw [hfound v hf]; exact hfound v hf
    | none =>
      rw [subscript_of_find?_none hf]
      exact subscript_of_find?_some (find?_store_self m k default)
  refine ⟨hfound, ?_, hsecond, by rw [hsecond]⟩
  intro hnone
  rw [subscript_of_find?_none hnone]
  exact ⟨rfl, find?_store_self m k default, fun k' hk' => find?_store_ne m hk' default,
    liveEntries_store_filter_ne m k default⟩

end BlotMapVector

end ARC

namespace ARC

/-- C11: `clearTopDownRefCountState(P)` and `clearBottomUpRefCountState(P)`
tombstone rather than remove.  In a region state whose maps are well formed,
after the call the map has no state for `P` and no live entry keyed by `P` is
observable; the iteration visits the items of before, each in its place, the
one keyed by `P` showing as a tombstone and every other one with its state;
and the number of slots iterated is unchanged. -/
theorem clear_refcount_state_tombstones (S : ARCRegionState) (P : SILValue)
    (hTD : S.PtrToTopDownState.WF) (hBU : S.PtrToBottomUpState.WF) :
    ((S.clearTopDownRefCountState P).PtrToTopDownState.find? P = none
      ∧ (∀ e ∈ (S.clearTopDownRefCountState P).getTopDownStates.reduceOption, e.1 ≠ P)
      ∧ (S.clearTopDownRefCountState P).getTopDownStates
          = S.getTopDownStates.map
              (fun item => item.bind fun e => if e.1 = P then none else some e)
      ∧ (S.clearTopDownRefCountState P).getTopDownStates.length
          = S.getTopDownStates.length
      ∧ (S.clearTopDownRefCountState P).PtrToTopDownState.numSlots
          = S.PtrToTopDownState.numSlots)
    ∧ ((S.clearBottomUpRefCountState P).PtrToBottomUpState.find? P = none
      ∧ (∀ e ∈ (S.clearBottomUpRefCountState P).getBottomupStates.reduceOption, e.1 ≠ P)
      ∧ (S.clearBottomUpRefCountState P).getBottomupStates
          = S.getBottomupStates.map
              (fun item => item.bind fun e => if e.1 = P then none else some e)
      ∧ (S.clearBottomUpRefCountState P).getBottomupStates.length
          = S.getBottomupStates.length
      ∧ (S.clearBottomUpRefCountState P).PtrToBottomUpState.numSlots
          = S.PtrToBottomUpState.numSlots) := by
  have key : ∀ m : BlotMapVector SILValue RefCountState, m.WF →
      (m.blot P).find? P = none
        ∧ (∀ e ∈ (m.blot P).iterate.reduceOption, e.1 ≠ P)
        ∧ (m.blot P).iterate
            = m.iterate.map (fun item => item.bind fun e => if e.1 = P then none else some e)
        ∧ (m.blot P).iterate.length = m.iterate.length
        ∧ (m.blot P).numSlots = m.numSlots := by
    intro m hm
    have hiter := BlotMapVector.iterate_blot hm P
    refine ⟨BlotMapVector.find?_blot_self m P, ?_, hiter, ?_, BlotMapVector.numSlots_blot m P⟩
    · intro e he heP
      rw [List.reduceOption_mem_iff, hiter] at he
      obtain ⟨item, _, hitem⟩ := List.mem_map.1 he
      cases item with
      | none => simp at hitem
      | some e' =>
        by_cases h' : e'.1 = P
        · simp [h'] at hitem
        · simp [h'] at hitem
          exact h' (by rw [hitem]; exact heP)
    · rw [hiter, List.length_map]
  exact ⟨key _ hTD, key _ hBU⟩

theorem clear_refcount_state_tombstones_witness :
    (sampleRegionState.PtrToTopDownState.WF ∧ sampleRegionState.PtrToBottomUpState.WF)
      ∧ (sampleRegionState.clearTopDownRefCountState 1).getTopDownStates
          = sampleRegionState.getTopDownStates.map
              (fun item => item.bind fun e => if e.1 = 1 then none else some e) :=
  have hTD : sampleRegionState.PtrToTopDownState.WF := by
    simp [BlotMapVector.WF, sampleRegionState]
  have hBU : sampleRegionState.PtrToBottomUpState.WF := by
    simp [BlotMapVector.WF, sampleRegionState]
  ⟨⟨hTD, hBU⟩, (clear_refcount_state_tombstones sampleRegionState 1 hTD hBU).1.2.2.1⟩

/-- C12: `getTopDownRefCountState(P)` and `getBottomUpRefCountState(P)` are
find-or-create.  If the map holds a live state for `P`, that state is returned
and the region state is unchanged.  Otherwise a newly initialized state is
returned and entered for `P`, every other pointer keeps its state and the live
entries of the other pointers are the same in the same order.  A second call
with the same `P` returns the same state, leaves the region state as the first
call left it, and adds no slot. -/
theorem get_refcount_state_is_find_or_create (S : ARCRegionState) (P : SILValue) :
    ((∀ s, S.PtrToTopDownState.find? P = some s → S.getTopDownRefCountState P = (S, s))
      ∧ (S.PtrToTopDownState.find? P = none →
          (S.getTopDownRefCountState P).2 = .Top
            ∧ (S.getTopDownRefCountState P).1.PtrToTopDownState.find? P = some .Top
            ∧ (∀ Q, Q ≠ P → (S.getTopDownRefCountState P).1.PtrToTopDownState.find? Q
                = S.PtrToTopDownState.find? Q)
            ∧ ((S.getTopDownRefCountState P).1.getTopDownStates.reduceOption.filter
                  fun e => decide (e.1 ≠ P))
                = S.getTopDownStates.reduceOption.filter fun e => decide (e.1 ≠ P))
      ∧ (S.getTopDownRefCountState P).1.getTopDownRefCountState P
          = S.getTopDownRefCountState P
      ∧ ((S.getTopDownRefCountState P).1.getTopDownRefCountState
            P).1.PtrToTopDownState.numSlots
          = (S.getTopDownRefCountState P).1.PtrToTopDownState.numSlots)
    ∧ ((∀ s, S.PtrToBottomUpState.find? P = some s → S.getBottomUpRefCountState P = (S, s))
      ∧ (S.PtrToBottomUpState.find? P = none →
          (S.getBottomUpRefCountState P).2 = .Top
            ∧ (S.getBottomUpRefCountState P).1.PtrToBottomUpState.find? P = some .Top
            ∧ (∀ Q, Q ≠ P → (S.getBottomUpRefCountState P).1.PtrToBottomUpState.find? Q
                = S.PtrToBottomUpState.find? Q)
            ∧ ((S.getBottomUpRefCountState P).1.getBottomupStates.reduceOption.filter
                  fun e => decide (e.1 ≠ P))
                = S.getBottomupStates.reduceOption.filter fun e => decide (e.1 ≠ P))
      ∧ (S.getBottomUpRefCountState P).1.getBottomUpRefCountState P
          = S.getBottomUpRefCountState P
      ∧ ((S.getBottomUpRefCountState P).1.getBottomUpRefCountState
            P).1.PtrToBottomUpState.numSlots
          = (S.getBottomUpRefCountState P).1.PtrToBottomUpState.numSlots) := by
  have hTD := BlotMapVector.subscript_find_or_create S.PtrToTopDownState P
  have hBU := BlotMapVector.subscript_find_or_create S.PtrToBottomUpState P
  constructor
  · refine ⟨fun s hs => ?_, hTD.2.1, ?_, ?_⟩
    · simp only [ARCRegionState.getTopDownRefCountState, hTD.1 s hs]
    · simp only [ARCRegionState.getTopDownRefCountState, hTD.2.2.1]
    · simp only [ARCRegionState.getTopDownRefCountState, hTD.2.2.1]
  · refine ⟨fun s hs => ?_, hBU.2.1, ?_, ?_⟩
    · simp only [ARCRegionState.getBottomUpRefCountState, hBU.1 s hs]
    · simp only [ARCRegionState.getBottomUpRefCountState, hBU.2.2.1]
    · simp only [ARCRegionState.getBottomUpRefCountState, hBU.2.2.1]

theorem get_refcount_state_is_find_or_create_witness :
    (sampleRegionState.PtrToTopDownState.find? 1 = some (.Matched {10})
        ∧ sampleRegionState.getTopDownRefCountState 1
            = (sampleRegionState, .Matched {10}))
      ∧ (sampleRegionState.PtrToBottomUpState.find? 2 = none
        ∧ (sampleRegionState.getBottomUpRefCountState 2).2 = .Top
        ∧ (sampleRegionState.getBottomUpRefCountState 2).1.PtrToBottomUpState.find? 2
            = some .Top) :=
  ⟨⟨rfl, (get_refcount_state_is_find_or_create sampleRegionState 1).1.1 _ rfl⟩,
    ⟨rfl, ((get_refcount_state_is_find_or_create sampleRegionState 2).2.2.1 rfl).1,
      ((get_refcount_state_is_find_or_create sampleRegionState 2).2.2.1 rfl).2.1⟩⟩

/-- C13: after `clear()` the iteration over the top-down map and over the
bottom-up map of the region state yields no entry, while the region, the
`allowsLeaks` flag and the summarized interesting instructions are unchanged. -/
theorem clear_empties_both_maps (S : ARCRegionState) :
    S.clear.getTopDownStates = []
      ∧ S.clear.getBottomupStates = []
      ∧ (∀ P, S.clear.PtrToTopDownState.find? P = none
          ∧ S.clear.PtrToBottomUpState.find? P = none)
      ∧ S.clear.Region = S.Region
      ∧ S.clear.getRegion = S.getRegion
      ∧ S.clear.allowsLeaks = S.allowsLeaks
      ∧ S.clear.getSummarizedInterestingInsts = S.getSummarizedInterestingInsts :=
  ⟨rfl, rfl, fun _ => ⟨rfl, rfl⟩, rfl, rfl, rfl, rfl⟩

/-- C14: `getRegion()` on a region state whose region pointer is still null
fails with an assertion and returns no region; on a state whose region is set
it returns that region. -/
theorem getRegion_asserts_region_is_set (S : ARCRegionState) :
    (S.Region = none → ∃ failure, S.getRegion = .error failure)
      ∧ (∀ R, S.Region = some R → S.getRegion = .ok R) := by
  constructor
  · intro h
    exact ⟨_, by rw [ARCRegionState.getRegion, h]; rfl⟩
  · intro R h
    rw [ARCRegionState.getRegion, h]; rfl

theorem getRegion_asserts_region_is_set_witness :
    (sampleUninitializedRegionState.Region = none
        ∧ ∃ failure, sampleUninitializedRegionState.getRegion = .error failure)
      ∧ (sampleRegionState.Region = some (.Block [])
        ∧ sampleRegionState.getRegion = .ok (.Block [])) :=
  ⟨⟨rfl, (getRegion_asserts_region_is_set sampleUninitializedRegionState).1 rfl⟩,
    ⟨rfl, (getRegion_asserts_region_is_set sampleRegionState).2 _ rfl⟩⟩

/-- C15: the two directions of a region state are independent:
`getTopDownRefCountState`, an assignment through its reference,
`clearTopDownRefCountState` and `clearTopDownState` leave the bottom-up map
unchanged, hence the bottom-up state of every pointer; and
`getBottomUpRefCountState`, an assignment through its reference,
`clearBottomUpRefCountState` and `clearBottomUpState` leave the top-down map
unchanged. -/
theorem directions_are_independent (S : ARCRegionState) (P : SILValue)
    (NewState : RefCountState) :
    ((S.getTopDownRefCountState P).1.PtrToBottomUpState = S.PtrToBottomUpState
      ∧ (S.assignTopDownRefCountState P NewState).PtrToBottomUpState = S.PtrToBottomUpState
      ∧ (S.clearTopDownRefCountState P).PtrToBottomUpState = S.PtrToBottomUpState
      ∧ S.clearTopDownState.PtrToBottomUpState = S.PtrToBottomUpState)
    ∧ ((S.getBottomUpRefCountState P).1.PtrToTopDownState = S.PtrToTopDownState
      ∧ (S.assignBottomUpRefCountState P NewState).PtrToTopDownState = S.PtrToTopDownState
      ∧ (S.clearBottomUpRefCountState P).PtrToTopDownState = S.PtrToTopDownState
      ∧ S.clearBottomUpState.PtrToTopDownState = S.PtrToTopDownState)
    ∧ (∀ Q,
        (S.getTopDownRefCountState P).1.PtrToBottomUpState.find? Q
            = S.PtrToBottomUpState.find? Q
          ∧ (S.clearTopDownRefCountState P).PtrToBottomUpState.find? Q
            = S.PtrToBottomUpState.find? Q
          ∧ S.clearTopDownState.PtrToBottomUpState.find? Q = S.PtrToBottomUpState.find? Q
          ∧ (S.getBottomUpRefCountState P).1.PtrToTopDownState.find? Q
            = S.PtrToTopDownState.find? Q
          ∧ (S.clearBottomUpRefCountState P).PtrToTopDownState.find? Q
            = S.PtrToTopDownState.find? Q
          ∧ S.clearBottomUpState.PtrToTopDownState.find? Q = S.PtrToTopDownState.find? Q) :=
  ⟨⟨rfl, rfl, rfl, rfl⟩, ⟨rfl, rfl, rfl, rfl⟩, fun _ => ⟨rfl, rfl, rfl, rfl, rfl, rfl⟩⟩

end ARC

/-! ## Part 3: theorems about the AST printer -/

namespace ASTPrinter

theorem sanitizeLoop_nil (U : ConvertUTF) (fuel : Nat) (Builder : List Nat) :
    sanitizeLoop U fuel [] Builder = some Builder := by
  cases fuel <;> rfl

theorem sanitizeLoop_succ_cons (U : ConvertUTF) (fuel : Nat) (b : Nat) (rest Builder : List Nat) :
    sanitizeLoop U (fuel + 1) (b :: rest) Builder
      = if (b :: rest).length < U.getNumBytesForUTF8 b then
          some (Builder ++ Replacement)
        else if U.isLegalUTF8Sequence ((b :: rest).take (U.getNumBytesForUTF8 b)) then
          sanitizeLoop U fuel ((b :: rest).drop (U.getNumBytesForUTF8 b))
            (Builder ++ (b :: rest).take (U.getNumBytesForUTF8 b))
        else
          sanitizeLoop U fuel ((b :: rest).drop (U.getNumBytesForUTF8 b))
            (Builder ++ Replacement) := rfl

/-- The builder is only appended to. -/
theorem sanitizeLoop_builder (U : ConvertUTF) (fuel : Nat) (Data Builder : List Nat) :
    sanitizeLoop U fuel Data Builder
      = (sanitizeLoop U fuel Data []).map fun out => Builder ++ out := by
  induction fuel generalizing Data Builder with
  | zero =>
    cases Data with
    | nil => simp [sanitizeLoop_nil]
    | cons b rest => rfl
  | succ n ih =>
    cases Data with
    | nil => simp [sanitizeLoop_nil]
    | cons b rest =>
      rw [sanitizeLoop_succ_cons, sanitizeLoop_succ_cons]
      split
      · simp
      · split
        · rw [ih, ih _ ([] ++ _)]
          simp [Option.map_map, Function.comp_def]
        · rw [ih, ih _ ([] ++ _)]
          simp [Option.map_map, Function.comp_def]

theorem length_drop_lt (U : ConvertUTF) (hpos : ∀ b, 0 < U.getNumBytesForUTF8 b)
    (b : Nat) (rest : List Nat) :
    ((b :: rest).drop (U.getNumBytesForUTF8 b)).length < (b :: rest).length := by
  have := hpos b
  simp only [List.length_drop, List.length_cons]
  omega

/-- Once the fuel covers the bytes ahead, more fuel changes nothing. -/
theorem sanitizeLoop_fuel_succ (U : ConvertUTF) (hpos : ∀ b, 0 < U.getNumBytesForUTF8 b)
    (fuel : Nat) (Data Builder : List Nat) (h : Data.length ≤ fuel) :
    sanitizeLoop U (fuel + 1) Data Builder = sanitizeLoop U fuel Data Builder := by
  induction fuel generalizing Data Builder with
  | zero =>
    cases Data with
    | nil => rfl
    | cons b rest => simp at h
  | succ n ih =>
    cases Data with
    | nil => rfl
    | cons b rest =>
      have hlt := length_drop_lt U hpos b rest
      have hle : ((b :: rest).drop (U.getNumBytesForUTF8 b)).length ≤ n := by omega
      rw [sanitizeLoop_succ_cons, sanitizeLoop_succ_cons, ih _ _ hle, ih _ _ hle]

theorem sanitizeLoop_fuel_stable (U : ConvertUTF) (hpos : ∀ b, 0 < U.getNumBytesForUTF8 b)
    (Data Builder : List Nat) (fuel : Nat) (h : Data.length ≤ fuel) :
    sanitizeLoop U fuel Data Builder = sanitizeLoop U Data.length Data Builder := by
  induction fuel with
  | zero =>
    have : Data.length = 0 := by omega
    rw [this]
  | succ n ih =>
    by_cases hn : Data.length ≤ n
    · rw [sanitizeLoop_fuel_succ U hpos n Data Builder hn, ih hn]
    · have : Data.length = n + 1 := by omega
      rw [this]

/-- With positive steps the loop ends within as many iterations as there are
bytes. -/
theorem sanitizeLoop_terminates (U : ConvertUTF) (hpos : ∀ b, 0 < U.getNumBytesForUTF8 b)
    (fuel : Nat) (Data Builder : List Nat) (h : Data.length ≤ fuel) :
    ∃ out, sanitizeLoop U fuel Data Builder = some out := by
  induction fuel generalizing Data Builder with
  | zero =>
    cases Data with
    | nil => exact ⟨Builder, rfl⟩
    | cons b rest => simp at h
  | succ n ih =>
    cases Data with
    | nil => exact ⟨Builder, rfl⟩
    | cons b rest =>
      have hlt := length_drop_lt U hpos b rest
      have hle : ((b :: rest).drop (U.getNumBytesForUTF8 b)).length ≤ n := by omega
      rw [sanitizeLoop_succ_cons]
      split
      · exact ⟨_, rfl⟩
      · split
        · exact ih _ _ hle
        · exact ih _ _ hle

theorem WellFormedUTF8.append {a b : List Nat} (ha : WellFormedUTF8 a) (hb : WellFormedUTF8 b) :
    WellFormedUTF8 (a ++ b) := by
  induction ha with
  | nil => exact hb
  | cons seq rest hseq _ ih =>
    rw [List.append_assoc]
    exact WellFormedUTF8.cons seq (rest ++ b) hseq ih

theorem WellFormedUTF8.single {seq : List Nat} (h : wellFormedSequence seq = true) :
    WellFormedUTF8 seq := by
  have := WellFormedUTF8.cons seq [] h WellFormedUTF8.nil
  simpa using this

theorem wellFormed_Replacement : WellFormedUTF8 Replacement :=
  WellFormedUTF8.single (by decide)

theorem take_eq_cons (n : Nat) (hn : 0 < n) (b : Nat) (rest : List Nat) :
    (b :: rest).take n = b :: rest.take (n - 1) := by
  cases n with
  | zero => omega
  | succ m => rfl

theorem length_take_of_not_lt (n : Nat) (l : List Nat) (h : ¬ l.length < n) :
    (l.take n).length = n := by
  rw [List.length_take]; omega

/-- Under the contract, the sequence the loop tests is legal exactly if it is
well formed. -/
theorem legal_iff_wellFormed (U : ConvertUTF) (hU : U.Conforms) (b : Nat) (rest : List Nat)
    (h : ¬ (b :: rest).length < U.getNumBytesForUTF8 b) :
    U.isLegalUTF8Sequence ((b :: rest).take (U.getNumBytesForUTF8 b)) = true
      ↔ wellFormedSequence ((b :: rest).take (U.getNumBytesForUTF8 b)) = true := by
  have hlen := length_take_of_not_lt _ _ h
  rw [take_eq_cons _ (hU.1 b)] at hlen ⊢
  exact hU.2.2 b _ hlen

/-- Whatever the loop returns from an empty builder is well-formed UTF-8. -/
theorem sanitizeLoop_wellFormed (U : ConvertUTF) (hU : U.Conforms) (fuel : Nat)
    (Data out : List Nat) (h : sanitizeLoop U fuel Data [] = some out) :
    WellFormedUTF8 out := by
  induction fuel generalizing Data out with
  | zero =>
    cases Data with
    | nil => cases h; exact WellFormedUTF8.nil
    | cons b rest => cases h
  | succ n ih =>
    cases Data with
    | nil => cases h; exact WellFormedUTF8.nil
    | cons b rest =>
      rw [sanitizeLoop_succ_cons] at h
      split at h
      · cases h; exact wellFormed_Replacement
      · rename_i htrunc
        split at h
        · rename_i hlegal
          rw [sanitizeLoop_builder] at h
          obtain ⟨out', hout', rfl⟩ := Option.map_eq_some'.1 h
          exact WellFormedUTF8.append
            (WellFormedUTF8.single ((legal_iff_wellFormed U hU b rest htrunc).1 hlegal))
            (ih _ _ hout')
        · rw [sanitizeLoop_builder] at h
          obtain ⟨out', hout', rfl⟩ := Option.map_eq_some'.1 h
          exact WellFormedUTF8.append wellFormed_Replacement (ih _ _ hout')

/-- A well-formed sequence at the head of the bytes ahead is copied. -/
theorem sanitizeLoop_sequence (U : ConvertUTF) (hU : U.Conforms) (fuel : Nat)
    (seq rest Builder : List Nat) (hseq : wellFormedSequence seq = true) :
    sanitizeLoop U (fuel + 1) (seq ++ rest) Builder
      = sanitizeLoop U fuel rest (Builder ++ seq) := by
  cases seq with
  | nil => simp [wellFormedSequence] at hseq
  | cons b tl =>
    have hnum := hU.2.1 b tl hseq
    have htake : ((b :: tl) ++ rest).take (U.getNumBytesForUTF8 b) = b :: tl := by
      rw [hnum]; exact List.take_left' rfl
    have hdrop : ((b :: tl) ++ rest).drop (U.getNumBytesForUTF8 b) = rest := by
      rw [hnum]; exact List.drop_left' rfl
    have hlegal : U.isLegalUTF8Sequence (b :: tl) = true := (hU.2.2 b tl hnum.symm).2 hseq
    have hnot : ¬ ((b :: tl) ++ rest).length < U.getNumBytesForUTF8 b := by
      rw [hnum]; simp
    rw [List.cons_append] at htake hdrop hnot ⊢
    rw [sanitizeLoop_succ_cons, if_neg hnot, htake, hdrop, if_pos hlegal]

/-- A well-formed run at the head of the bytes ahead is copied. -/
theorem sanitizeLoop_wellFormed_run (U : ConvertUTF) (hU : U.Conforms) (good : List Nat)
    (hgood : WellFormedUTF8 good) (rest Builder : List Nat) (fuel : Nat)
    (hfuel : (good ++ rest).length ≤ fuel) :
    sanitizeLoop U fuel (good ++ rest) Builder
      = sanitizeLoop U fuel rest (Builder ++ good) := by
  induction hgood generalizing Builder fuel with
  | nil => simp
  | cons seq tail hseq _ ih =>
    cases seq with
    | nil => simp [wellFormedSequence] at hseq
    | cons b tl =>
      cases fuel with
      | zero => simp at hfuel
      | succ n =>
        have hn : (tail ++ rest).length ≤ n := by
          simp only [List.length_append, List.length_cons] at hfuel ⊢
          omega
        have hrest : rest.length ≤ n := by
          simp only [List.length_append] at hn; omega
        rw [List.append_assoc, sanitizeLoop_sequence U hU n (b :: tl) (tail ++ rest) Builder hseq,
          ih _ n hn, sanitizeLoop_fuel_succ U hU.1 n rest _ hrest, List.append_assoc]

end ASTPrinter

namespace ASTPrinter

theorem trailingBytesForUTF8_le (first : Nat) : trailingBytesForUTF8 first ≤ 5 := by
  unfold trailingBytesForUTF8
  split_ifs <;> omega

theorem tableConvertUTF_length (b : Nat) (tl : List Nat)
    (h : wellFormedSequence (b :: tl) = true) :
    trailingBytesForUTF8 b + 1 = (b :: tl).length := by
  match tl, h with
  | [], h =>
    simp only [wellFormedSequence, decide_eq_true_eq] at h
    simp only [trailingBytesForUTF8, List.length_cons, List.length_nil]
    split_ifs <;> omega
  | [b1], h =>
    simp only [wellFormedSequence, isContinuationByte, Bool.and_eq_true, decide_eq_true_eq] at h
    simp only [trailingBytesForUTF8, List.length_cons, List.length_nil]
    split_ifs <;> omega
  | [b1, b2], h =>
    simp only [wellFormedSequence, isContinuationByte, Bool.and_eq_true, Bool.or_eq_true,
      decide_eq_true_eq] at h
    simp only [trailingBytesForUTF8, List.length_cons, List.length_nil]
    split_ifs <;> omega
  | [b1, b2, b3], h =>
    simp only [wellFormedSequence, isContinuationByte, Bool.and_eq_true, Bool.or_eq_true,
      decide_eq_true_eq] at h
    simp only [trailingBytesForUTF8, List.length_cons, List.length_nil]
    split_ifs <;> omega
  | _ :: _ :: _ :: _ :: _, h => simp [wellFormedSequence] at h

theorem tableConvertUTF_legal (b : Nat) (tl : List Nat)
    (hlen : (b :: tl).length = trailingBytesForUTF8 b + 1) :
    tableConvertUTF.isLegalUTF8Sequence (b :: tl) = true
      ↔ wellFormedSequence (b :: tl) = true := by
  have hnot : ¬ (b :: tl).length < trailingBytesForUTF8 b + 1 := by omega
  simp only [tableConvertUTF, hnot, if_false]
  rw [← hlen]
  match tl, hlen with
  | [], hlen =>
    simp only [isLegalUTF8, wellFormedSequence, List.length_cons, List.length_nil,
      List.getD_cons_zero, Bool.and_eq_true, Bool.not_eq_true', decide_eq_true_eq,
      decide_eq_false_iff_not, Bool.and_eq_false_imp]
    simp only [trailingBytesForUTF8, List.length_cons, List.length_nil] at hlen
    split_ifs at hlen <;> omega
  | [b1], hlen =>
    simp only [trailingBytesForUTF8, List.length_cons, List.length_nil] at hlen
    simp only [isLegalUTF8, wellFormedSequence, isContinuationByte, List.length_cons,
      List.length_nil, List.getD_cons_zero, List.getD_cons_succ, Bool.and_eq_true,
      Bool.or_eq_true, Bool.not_eq_true', decide_eq_true_eq, decide_eq_false_iff_not,
      Bool.or_eq_false_iff, Bool.and_eq_false_imp]
    split_ifs at hlen ⊢ <;> simp only [Bool.not_eq_true', decide_eq_false_iff_not] <;> omega
  | [b1, b2], hlen =>
    simp only [trailingBytesForUTF8, List.length_cons, List.length_nil] at hlen
    simp only [isLegalUTF8, wellFormedSequence, isContinuationByte, List.length_cons,
      List.length_nil, List.getD_cons_zero, List.getD_cons_succ, Bool.and_eq_true,
      Bool.or_eq_true, Bool.not_eq_true', decide_eq_true_eq, decide_eq_false_iff_not,
      Bool.or_eq_false_iff, Bool.and_eq_false_imp]
    split_ifs at hlen ⊢ <;> simp only [Bool.not_eq_true', decide_eq_false_iff_not] <;> omega
  | [b1, b2, b3], hlen =>
    simp only [trailingBytesForUTF8, List.length_cons, List.length_nil] at hlen
    simp only [isLegalUTF8, wellFormedSequence, isContinuationByte, List.length_cons,
      List.length_nil, List.getD_cons_zero, List.getD_cons_succ, Bool.and_eq_true,
      Bool.or_eq_true, Bool.not_eq_true', decide_eq_true_eq, decide_eq_false_iff_not,
      Bool.or_eq_false_iff, Bool.and_eq_false_imp]
    split_ifs at hlen ⊢ <;> simp only [Bool.not_eq_true', decide_eq_false_iff_not] <;> omega
  | b1 :: b2 :: b3 :: b4 :: tl', hlen =>
    have hle := trailingBytesForUTF8_le b
    have h5 : (b :: b1 :: b2 :: b3 :: b4 :: tl').length = 5
        ∨ (b :: b1 :: b2 :: b3 :: b4 :: tl').length = 6 := by
      simp only [List.length_cons] at hlen ⊢
      omega
    rcases h5 with h5 | h5 <;> rw [h5] <;> simp [isLegalUTF8, wellFormedSequence]

theorem tableConvertUTF_conforms : tableConvertUTF.Conforms :=
  ⟨fun _ => Nat.succ_pos _, tableConvertUTF_length, tableConvertUTF_legal⟩

end ASTPrinter

namespace ASTPrinter

/-- C16: with routines that conform to UTF-8, `sanitizeUtf8` returns every
well-formed text unchanged; more generally a well-formed run at the start of a
text is copied as it is; and at any position the replacement character is
appended only if the sequence that starts there, of the length its first byte
announces, is cut off by the end of the text or is not well formed, a
well-formed sequence being copied. -/
theorem sanitizeUtf8_keeps_well_formed_text (U : ConvertUTF) (hU : U.Conforms) :
    (∀ Text fuel, WellFormedUTF8 Text → Text.length ≤ fuel →
        sanitizeUtf8 U fuel Text = some Text)
      ∧ (∀ good rest fuel, WellFormedUTF8 good → (good ++ rest).length ≤ fuel →
          sanitizeUtf8 U fuel (good ++ rest)
            = (sanitizeUtf8 U fuel rest).map fun out => good ++ out)
      ∧ (∀ b rest fuel,
          sanitizeUtf8 U (fuel + 1) (b :: rest)
            = if (b :: rest).length < U.getNumBytesForUTF8 b then
                some Replacement
              else if wellFormedSequence ((b :: rest).take (U.getNumBytesForUTF8 b)) then
                (sanitizeUtf8 U fuel ((b :: rest).drop (U.getNumBytesForUTF8 b))).map
                  fun out => (b :: rest).take (U.getNumBytesForUTF8 b) ++ out
              else
                (sanitizeUtf8 U fuel ((b :: rest).drop (U.getNumBytesForUTF8 b))).map
                  fun out => Replacement ++ out) := by
  have hrun : ∀ good rest fuel, WellFormedUTF8 good → (good ++ rest).length ≤ fuel →
      sanitizeUtf8 U fuel (good ++ rest)
        = (sanitizeUtf8 U fuel rest).map fun out => good ++ out := by
    intro good rest fuel hgood hfuel
    unfold sanitizeUtf8
    rw [sanitizeLoop_wellFormed_run U hU good hgood rest [] fuel hfuel, sanitizeLoop_builder]
    rfl
  refine ⟨?_, hrun, ?_⟩
  · intro Text fuel hText hfuel
    have h := hrun Text [] fuel hText (by simpa using hfuel)
    simp only [List.append_nil] at h
    rw [h]
    simp [sanitizeUtf8, sanitizeLoop_nil]
  · intro b rest fuel
    unfold sanitizeUtf8
    rw [sanitizeLoop_succ_cons]
    by_cases htrunc : (b :: rest).length < U.getNumBytesForUTF8 b
    · rw [if_pos htrunc, if_pos htrunc]
      rfl
    · rw [if_neg htrunc, if_neg htrunc]
      by_cases hwf : wellFormedSequence ((b :: rest).take (U.getNumBytesForUTF8 b)) = true
      · rw [if_pos hwf, if_pos ((legal_iff_wellFormed U hU b rest htrunc).2 hwf),
          sanitizeLoop_builder]
        rfl
      · rw [if_neg hwf, if_neg (fun h => hwf ((legal_iff_wellFormed U hU b rest htrunc).1 h)),
          sanitizeLoop_builder]
        rfl

theorem sanitizeUtf8_keeps_well_formed_text_witness :
    tableConvertUTF.Conforms
      ∧ WellFormedUTF8 [0x41, 0xC3, 0xA9, 0xE2, 0x82, 0xAC]
      ∧ sanitizeUtf8 tableConvertUTF 6 [0x41, 0xC3, 0xA9, 0xE2, 0x82, 0xAC]
          = some [0x41, 0xC3, 0xA9, 0xE2, 0x82, 0xAC] :=
  have hwf : WellFormedUTF8 [0x41, 0xC3, 0xA9, 0xE2, 0x82, 0xAC] :=
    WellFormedUTF8.cons [0x41] _ (by decide)
      (WellFormedUTF8.cons [0xC3, 0xA9] _ (by decide)
        (WellFormedUTF8.cons [0xE2, 0x82, 0xAC] [] (by decide) WellFormedUTF8.nil))
  ⟨tableConvertUTF_conforms, hwf,
    (sanitizeUtf8_keeps_well_formed_text tableConvertUTF tableConvertUTF_conforms).1 _ 6 hwf
      (by decide)⟩

/-- C17: with routines that conform to UTF-8, for every text, malformed and
truncated ones included, the loop of `sanitizeUtf8` ends within as many
iterations as the text has bytes, its result is well-formed UTF-8, and
sanitizing the result gives the result again. -/
theorem sanitizeUtf8_result_is_well_formed (U : ConvertUTF) (hU : U.Conforms)
    (Text : List Nat) :
    ∃ out, (∀ fuel, Text.length ≤ fuel → sanitizeUtf8 U fuel Text = some out)
      ∧ WellFormedUTF8 out
      ∧ (∀ fuel, out.length ≤ fuel → sanitizeUtf8 U fuel out = some out) := by
  obtain ⟨out, hout⟩ := sanitizeLoop_terminates U hU.1 Text.length Text [] (Nat.le_refl _)
  have hwf : WellFormedUTF8 out := sanitizeLoop_wellFormed U hU _ _ _ hout
  refine ⟨out, ?_, hwf, ?_⟩
  · intro fuel hfuel
    unfold sanitizeUtf8
    rw [sanitizeLoop_fuel_stable U hU.1 Text [] fuel hfuel, hout]
  · intro fuel hfuel
    have h := sanitizeLoop_wellFormed_run U hU out hwf [] [] fuel (by simpa using hfuel)
    simp only [List.append_nil, List.nil_append] at h
    unfold sanitizeUtf8
    rw [h, sanitizeLoop_nil]

theorem sanitizeUtf8_result_is_well_formed_witness :
    tableConvertUTF.Conforms
      ∧ sanitizeUtf8 tableConvertUTF 5 [0x41, 0xC0, 0x80, 0xE2, 0x82]
          = some [0x41, 0xEF, 0xBF, 0xBD, 0xEF, 0xBF, 0xBD]
      ∧ ∃ out, (∀ fuel, [0x41, 0xC0, 0x80, 0xE2, 0x82].length ≤ fuel →
            sanitizeUtf8 tableConvertUTF fuel [0x41, 0xC0, 0x80, 0xE2, 0x82] = some out)
          ∧ WellFormedUTF8 out
          ∧ (∀ fuel, out.length ≤ fuel → sanitizeUtf8 tableConvertUTF fuel out = some out) :=
  ⟨tableConvertUTF_conforms, by decide,
    sanitizeUtf8_result_is_well_formed tableConvertUTF tableConvertUTF_conforms
      [0x41, 0xC0, 0x80, 0xE2, 0x82]⟩

end ASTPrinter

namespace ASTPrinter

theorem emittedText_printText (P : Printer) (s : String) :
    emittedText (printText P s) = emittedText P ++ s := by
  simp [emittedText, printText, List.filterMap_append, Dumper.join_append, Dumper.join_cons,
    Dumper.join_nil]

theorem emittedText_callPrintNamePre (P : Printer) (c : PrintNameContext) :
    emittedText (callPrintNamePre P c) = emittedText P := by
  simp [emittedText, callPrintNamePre, List.filterMap_append, Dumper.join_append,
    Dumper.join_nil]

theorem emittedText_printNamePost (P : Printer) (c : PrintNameContext) :
    emittedText (printNamePost P c) = emittedText P := by
  simp [emittedText, printNamePost, List.filterMap_append, Dumper.join_append,
    Dumper.join_nil]

/-- The text `printName` adds to the printer. -/
theorem emittedText_printName (T : LexerTables) (P : Printer) (Name : Identifier)
    (Context : PrintNameContext) :
    emittedText (printName T P Name Context)
      = emittedText P ++
          (if Name.empty then "_"
           else if T.isKeyword Name.str && escapeKeywordInContext T Name.str Context then
             "`" ++ Name.str ++ "`"
           else Name.str) := by
  unfold printName printNameBody
  rw [emittedText_printNamePost]
  by_cases hempty : Name.empty = true
  · simp [hempty, emittedText_printText, emittedText_callPrintNamePre]
  · by_cases hkw : T.isKeyword Name.str = true
    · by_cases hesc : escapeKeywordInContext T Name.str Context = true
      · simp [hempty, hkw, hesc, emittedText_printText, emittedText_callPrintNamePre,
          String.append_assoc]
      · simp [hempty, hkw, hesc, emittedText_printText, emittedText_callPrintNamePre]
    · simp [hempty, hkw, emittedText_printText, emittedText_callPrintNamePre]

/-- C18: `printName` emits `_` for an empty identifier; otherwise it emits the
text of the identifier, wrapped in backticks exactly when the text is a keyword
and `escapeKeywordInContext` holds, which it does always in the Normal context,
in the GenericParameter context unless the keyword is `Self`, and in the two
function-parameter contexts exactly when the keyword cannot be an argument
label; an identifier that is not a keyword is never wrapped.  The callbacks
before and after the name are made on every path. -/
theorem printName_escapes_keywords (T : LexerTables) (P : Printer) (Name : Identifier)
    (Context : PrintNameContext) :
    (Name.empty = true →
        printName T P Name Context
          = P ++ [.namePre Context, .text "_", .namePost Context])
      ∧ (Name.empty = false →
          (T.isKeyword Name.str = true ∧ escapeKeywordInContext T Name.str Context = true →
            printName T P Name Context
              = P ++ [.namePre Context, .text "`", .text Name.str, .text "`",
                      .namePost Context])
          ∧ (¬ (T.isKeyword Name.str = true
                ∧ escapeKeywordInContext T Name.str Context = true) →
            printName T P Name Context
              = P ++ [.namePre Context, .text Name.str, .namePost Context])
          ∧ (T.isKeyword Name.str = false →
            emittedText (printName T P Name Context) = emittedText P ++ Name.str))
      ∧ emittedText (printName T P Name Context)
          = emittedText P ++
              (if Name.empty then "_"
               else if T.isKeyword Name.str && escapeKeywordInContext T Name.str Context then
                 "`" ++ Name.str ++ "`"
               else Name.str)
      ∧ (∀ keyword, escapeKeywordInContext T keyword .Normal = true)
      ∧ (∀ keyword, escapeKeywordInContext T keyword .GenericParameter = true
          ↔ keyword ≠ "Self")
      ∧ (∀ keyword, escapeKeywordInContext T keyword .FunctionParameterExternal = true
          ↔ T.canBeArgumentLabel keyword = false)
      ∧ (∀ keyword, escapeKeywordInContext T keyword .FunctionParameterLocal = true
          ↔ T.canBeArgumentLabel keyword = false) := by
  refine ⟨?_, ?_, emittedText_printName T P Name Context, fun _ => rfl, ?_, ?_, ?_⟩
  · intro hempty
    simp [printName, printNameBody, hempty, printText, callPrintNamePre, printNamePost]
  · intro hempty
    refine ⟨?_, ?_, ?_⟩
    · rintro ⟨hkw, hesc⟩
      simp [printName, printNameBody, hempty, hkw, hesc, printText, callPrintNamePre,
        printNamePost]
    · intro hnot
      by_cases hkw : T.isKeyword Name.str = true
      · have hesc : escapeKeywordInContext T Name.str Context = false := by
          cases h : escapeKeywordInContext T Name.str Context
          · rfl
          · exact absurd ⟨hkw, h⟩ hnot
        simp [printName, printNameBody, hempty, hkw, hesc, printText, callPrintNamePre,
          printNamePost]
      · simp [printName, printNameBody, hempty, hkw, printText, callPrintNamePre,
          printNamePost]
    · intro hkw
      rw [emittedText_printName]
      simp [hempty, hkw]
  · intro keyword
    simp [escapeKeywordInContext]
  · intro keyword
    simp [escapeKeywordInContext]
  · intro keyword
    simp [escapeKeywordInContext]

theorem printName_escapes_keywords_witness :
    ((⟨false, "inout"⟩ : Identifier).empty = false
        ∧ (sampleLexerTables.isKeyword "inout" = true
          ∧ escapeKeywordInContext sampleLexerTables "inout" .FunctionParameterLocal = true)
        ∧ printName sampleLexerTables [] ⟨false, "inout"⟩ .FunctionParameterLocal
          = [] ++ [.namePre .FunctionParameterLocal, .text "`", .text "inout", .text "`",
                   .namePost .FunctionParameterLocal])
      ∧ ((⟨true, ""⟩ : Identifier).empty = true
        ∧ printName sampleLexerTables [] ⟨true, ""⟩ .Normal
          = [] ++ [.namePre .Normal, .text "_", .namePost .Normal]) :=
  ⟨⟨rfl, ⟨by decide, by decide⟩,
      ((printName_escapes_keywords sampleLexerTables [] ⟨false, "inout"⟩
        .FunctionParameterLocal).2.1 rfl).1 ⟨by decide, by decide⟩⟩,
    ⟨rfl, (printName_escapes_keywords sampleLexerTables [] ⟨true, ""⟩ .Normal).1 rfl⟩⟩

end ASTPrinter

namespace ASTPrinter

/-- The enum rule of `shouldPrint`: an enum element is decided by the skip
filters for implicit and unavailable declarations and then by
`ExplodeEnumCaseDecls` or its source range; nothing behind is reached. -/
theorem shouldPrint_enumElement (Options : PrintOptions) (info : DeclInfo)
    (members : List Decl) (patternList : List (List Decl)) (hkind : info.kind = .EnumElement) :
    shouldPrint Options (.mk info members patternList)
      = (!(Options.SkipImplicit && info.isImplicit)
          && !(Options.SkipUnavailable && info.isUnavailable)
          && (Options.ExplodeEnumCaseDecls || !info.sourceRangeValid)) := by
  rw [shouldPrint]
  simp only [hkind]
  cases Options.SkipImplicit <;> cases info.isImplicit <;> cases Options.SkipUnavailable <;>
    cases info.isUnavailable <;> cases Options.ExplodeEnumCaseDecls <;>
    cases info.sourceRangeValid <;> cases Options.SkipDeinit <;> cases Options.SkipImports <;>
    simp

/-- C19 as stated fails: a private enum element is a `ValueDecl` with
accessibility whose formal access is below the filter `Public`, yet
`shouldPrint` returns true for it with `ExplodeEnumCaseDecls` on, and also with
`ExplodeEnumCaseDecls` off when the element has no valid source range. -/
theorem shouldPrint_accessibility_counterexample :
    (samplePrivateEnumElement.info.kind.isValueDecl = true
        ∧ samplePrivateEnumElement.info.formalAccess = some .Private
        ∧ Accessibility.Private.rank < Accessibility.Public.rank
        ∧ shouldPrint
            { sampleOptions with ExplodeEnumCaseDecls := true, AccessibilityFilter := .Public }
            samplePrivateEnumElement = true)
      ∧ (sampleImportedEnumElement.info.kind.isValueDecl = true
        ∧ sampleImportedEnumElement.info.formalAccess = some .Private
        ∧ shouldPrint { sampleOptions with AccessibilityFilter := .Public }
            sampleImportedEnumElement = true) := by
  decide

/-- C19, amended: for every declaration that is a `ValueDecl` other than an
enum element, with accessibility whose formal access is below
`Options.AccessibilityFilter`, the filter being above `Private`, `shouldPrint`
returns false whatever the other options are; for an enum element the result
depends neither on its formal access nor on the filter. -/
theorem shouldPrint_rejects_inaccessible (Options : PrintOptions) (info : DeclInfo)
    (members : List Decl) (patternList : List (List Decl)) :
    (∀ access, info.kind.isValueDecl = true → info.kind ≠ .EnumElement →
        info.formalAccess = some access →
        access.rank < Options.AccessibilityFilter.rank →
        Accessibility.Private.rank < Options.AccessibilityFilter.rank →
        shouldPrint Options (.mk info members patternList) = false)
      ∧ (∀ access filter, info.kind = .EnumElement →
        shouldPrint { Options with AccessibilityFilter := filter }
            (.mk { info with formalAccess := access } members patternList)
          = shouldPrint Options (.mk info members patternList)) := by
  constructor
  · intro access hvalue hnot haccess hlt hfilter
    rw [shouldPrint]
    have hext : (info.kind = .Extension) = False := by
      apply eq_false
      intro h; rw [h] at hvalue; exact absurd hvalue (by decide)
    have himp : (info.kind = .Import) = False := by
      apply eq_false
      intro h; rw [h] at hvalue; exact absurd hvalue (by decide)
    have hcase : (info.kind = .EnumCase) = False := by
      apply eq_false
      intro h; rw [h] at hvalue; exact absurd hvalue (by decide)
    have helem : (info.kind = .EnumElement) = False := eq_false hnot
    have hfilter' : Options.AccessibilityFilter.rank > Accessibility.Private.rank := hfilter
    simp only [hext, himp, hcase, helem, hvalue, haccess, hlt, hfilter', decide_False,
      decide_True, Bool.false_and, Bool.and_false, Bool.and_true, Bool.true_and,
      Bool.false_eq_true, if_false, if_true, ite_self]
  · intro access filter hkind
    rw [shouldPrint_enumElement Options info members patternList hkind,
      shouldPrint_enumElement _ _ members patternList (by exact hkind)]

theorem shouldPrint_rejects_inaccessible_witness :
    ((sampleInfo .Var).kind.isValueDecl = true ∧ (sampleInfo .Var).kind ≠ .EnumElement
        ∧ (sampleInfo .Var).formalAccess = some .Private
        ∧ Accessibility.Private.rank
            < ({ sampleOptions with AccessibilityFilter := .Public }).AccessibilityFilter.rank)
      ∧ shouldPrint { sampleOptions with AccessibilityFilter := .Public }
          (.mk (sampleInfo .Var) [] []) = false :=
  ⟨⟨rfl, by decide, rfl, by decide⟩,
    (shouldPrint_rejects_inaccessible { sampleOptions with AccessibilityFilter := .Public }
      (sampleInfo .Var) [] []).1 .Private rfl (by decide) rfl (by decide) (by decide)⟩

/-- C20: an enum element that passes the skip filters before the enum rule
(it is not skipped as implicit nor as unavailable; the filters for
deinitializers and imports do not apply to it) is printed, with
`ExplodeEnumCaseDecls` off, exactly if its source range is not valid, and with
`ExplodeEnumCaseDecls` on, always; with `ExplodeEnumCaseDecls` on no enum case
declaration is printed. -/
theorem shouldPrint_enum_rule (Options : PrintOptions) (info : DeclInfo)
    (members : List Decl) (patternList : List (List Decl)) :
    (info.kind = .EnumElement →
        (Options.SkipImplicit && info.isImplicit) = false →
        (Options.SkipUnavailable && info.isUnavailable) = false →
        (Options.ExplodeEnumCaseDecls = false →
          (shouldPrint Options (.mk info members patternList) = true
            ↔ info.sourceRangeValid = false))
        ∧ (Options.ExplodeEnumCaseDecls = true →
          shouldPrint Options (.mk info members patternList) = true))
      ∧ (info.kind = .EnumCase → Options.ExplodeEnumCaseDecls = true →
        shouldPrint Options (.mk info members patternList) = false) := by
  constructor
  · intro hkind himplicit hunavailable
    rw [shouldPrint_enumElement Options info members patternList hkind, himplicit,
      hunavailable]
    constructor
    · intro hoff
      simp [hoff]
    · intro hon
      simp [hon]
  · intro hkind hon
    rw [shouldPrint]
    simp only [hkind, hon]
    cases Options.SkipImplicit <;> cases info.isImplicit <;> cases Options.SkipUnavailable <;>
      cases info.isUnavailable <;> cases Options.SkipDeinit <;> cases Options.SkipImports <;>
      simp

theorem shouldPrint_enum_rule_witness :
    ((sampleInfo .EnumElement).kind = .EnumElement
        ∧ shouldPrint { sampleOptions with ExplodeEnumCaseDecls := true }
            samplePrivateEnumElement = true)
      ∧ (sampleEnumCase.info.kind = .EnumCase
        ∧ shouldPrint { sampleOptions with ExplodeEnumCaseDecls := true } sampleEnumCase
            = false) :=
  ⟨⟨rfl, ((shouldPrint_enum_rule { sampleOptions with ExplodeEnumCaseDecls := true }
        (sampleInfo .EnumElement) [] []).1 rfl rfl rfl).2 rfl⟩,
    ⟨rfl, (shouldPrint_enum_rule { sampleOptions with ExplodeEnumCaseDecls := true }
        { sampleInfo .EnumCase with formalAccess := none } [] []).2 rfl rfl⟩⟩

end ASTPrinter

namespace ASTPrinter

/-- The loop over the members of an extension finds a member to print exactly
if some member satisfies `shouldPrint`. -/
theorem hasMemberToPrint_eq_any (Options : PrintOptions) (members : List Decl) :
    hasMemberToPrint Options members = members.any (shouldPrint Options) := by
  induction members with
  | nil => rw [hasMemberToPrint]; rfl
  | cons Member rest ih =>
    rw [hasMemberToPrint, ih, List.any_cons]
    cases shouldPrint Options Member <;> simp

/-- The loop of `shouldPrintPattern` accumulates a disjunction. -/
theorem shouldPrintPatternFrom_eq (Options : PrintOptions) (P : List Decl) (ShouldPrint : Bool) :
    shouldPrintPatternFrom Options ShouldPrint P
      = (ShouldPrint || P.any (shouldPrint Options)) := by
  induction P generalizing ShouldPrint with
  | nil => rw [shouldPrintPatternFrom]; simp
  | cons VD rest ih =>
    rw [shouldPrintPatternFrom, ih, List.any_cons, Bool.or_assoc]

/-- The function `shouldPrintPattern` is the disjunction of `shouldPrint` over
the variables of the pattern. -/
theorem shouldPrintPattern_eq_any (Options : PrintOptions) (P : List Decl) :
    shouldPrintPattern Options P = P.any (shouldPrint Options) := by
  rw [shouldPrintPattern, shouldPrintPatternFrom_eq, Bool.false_or]

/-- The loop of `shouldPrint` over a pattern list finds a pattern to print
exactly if `shouldPrintPattern` holds of some entry. -/
theorem shouldPrintPatternList_eq_any (Options : PrintOptions)
    (patternList : List (List Decl)) :
    shouldPrintPatternList Options patternList
      = patternList.any (shouldPrintPattern Options) := by
  induction patternList with
  | nil => rw [shouldPrintPatternList]; rfl
  | cons P rest ih =>
    rw [shouldPrintPatternList, ih, List.any_cons]
    change (if shouldPrintPattern Options P = true then true else _) = _
    cases shouldPrintPattern Options P <;> simp

/-- The depth of a declaration of a list is at most the depth of the list. -/
theorem depth_le_depthOfDecls (Ds : List Decl) (D : Decl) (hD : D ∈ Ds) :
    D.depth ≤ depthOfDecls Ds := by
  induction Ds with
  | nil => cases hD
  | cons D' rest ih =>
    rw [depthOfDecls]
    rcases List.mem_cons.mp hD with h | h
    · subst h; exact le_max_left _ _
    · exact le_trans (ih h) (le_max_right _ _)

/-- The depth of a pattern of a pattern list is at most the depth of the
pattern list. -/
theorem depthOfDecls_le_depthOfPatterns (patternList : List (List Decl)) (P : List Decl)
    (hP : P ∈ patternList) : depthOfDecls P ≤ depthOfPatterns patternList := by
  induction patternList with
  | nil => cases hP
  | cons P' rest ih =>
    rw [depthOfPatterns]
    rcases List.mem_cons.mp hP with h | h
    · subst h; exact le_max_left _ _
    · exact le_trans (ih h) (le_max_right _ _)

/-- A member of a declaration is less deep than the declaration. -/
theorem depth_member_lt (info : DeclInfo) (members : List Decl)
    (patternList : List (List Decl)) (Member : Decl) (hM : Member ∈ members) :
    Member.depth < (Decl.mk info members patternList).depth := by
  have h := depth_le_depthOfDecls members Member hM
  rw [Decl.depth]
  have := le_max_left (depthOfDecls members) (depthOfPatterns patternList)
  omega

/-- A variable of a pattern of a declaration is less deep than the
declaration. -/
theorem depth_variable_lt (info : DeclInfo) (members : List Decl)
    (patternList : List (List Decl)) (P : List Decl) (VD : Decl) (hP : P ∈ patternList)
    (hVD : VD ∈ P) : VD.depth < (Decl.mk info members patternList).depth := by
  have h := depth_le_depthOfDecls P VD hVD
  have h' := depthOfDecls_le_depthOfPatterns patternList P hP
  rw [Decl.depth]
  have := le_max_right (depthOfDecls members) (depthOfPatterns patternList)
  omega

end ASTPrinter
namespace ASTPrinter

/-- What `shouldPrint` computes for an extension: the filters that apply to
it, in the order of the source, and then the rule for empty extensions. -/
theorem shouldPrint_extension (Options : PrintOptions) (info : DeclInfo)
    (members : List Decl) (patternList : List (List Decl)) (hkind : info.kind = .Extension) :
    shouldPrint Options (.mk info members patternList)
      = (!Options.printExtensionContentAsMembers (.mk info members patternList)
          && !(Options.SkipImplicit && info.isImplicit)
          && !(Options.SkipUnavailable && info.isUnavailable)
          && !(Options.SkipPrivateStdlibDecls
                && info.isPrivateStdlibDecl (!Options.SkipUnderscoredStdlibProtocols))
          && !(Options.SkipEmptyExtensionDecls && info.localProtocols.isEmpty
                && !hasMemberToPrint Options members)) := by
  rw [shouldPrint]
  simp only [hkind]
  generalize Options.printExtensionContentAsMembers (.mk info members patternList) = b1
  generalize info.isPrivateStdlibDecl (!Options.SkipUnderscoredStdlibProtocols) = b2
  generalize hasMemberToPrint Options members = b3
  generalize info.localProtocols.isEmpty = b4
  cases b1 <;> cases b2 <;> cases b3 <;> cases b4 <;>
    cases Options.SkipImplicit <;> cases info.isImplicit <;>
    cases Options.SkipUnavailable <;> cases info.isUnavailable <;>
    cases Options.SkipPrivateStdlibDecls <;> cases Options.SkipEmptyExtensionDecls <;>
    simp [DeclKind.isValueDecl]

/-- What `shouldPrint` computes for a pattern binding: the filters that apply
to it, in the order of the source, and then the loop over its pattern list. -/
theorem shouldPrint_patternBinding (Options : PrintOptions) (info : DeclInfo)
    (members : List Decl) (patternList : List (List Decl))
    (hkind : info.kind = .PatternBinding) :
    shouldPrint Options (.mk info members patternList)
      = (!(Options.SkipImplicit && info.isImplicit)
          && !(Options.SkipUnavailable && info.isUnavailable)
          && !(Options.SkipPrivateStdlibDecls
                && info.isPrivateStdlibDecl (!Options.SkipUnderscoredStdlibProtocols))
          && shouldPrintPatternList Options patternList) := by
  rw [shouldPrint]
  simp only [hkind]
  generalize info.isPrivateStdlibDecl (!Options.SkipUnderscoredStdlibProtocols) = b2
  generalize shouldPrintPatternList Options patternList = b3
  cases b2 <;> cases b3 <;>
    cases Options.SkipImplicit <;> cases info.isImplicit <;>
    cases Options.SkipUnavailable <;> cases info.isUnavailable <;>
    cases Options.SkipPrivateStdlibDecls <;>
    simp [DeclKind.isValueDecl]

end ASTPrinter
namespace ASTPrinter

/-- C21: with `SkipEmptyExtensionDecls` set, an extension that passes the
filters before the rule for empty extensions (its content is not printed as
members, and it is skipped neither as implicit, nor as unavailable, nor as a
private declaration of the standard library) is rejected by `shouldPrint`, if
it adds no local protocol, exactly when none of its members satisfies
`shouldPrint`, and is accepted if it adds a local protocol. The function is
total, and its recursion goes to the members, each of which is less deep than
the extension. -/
theorem shouldPrint_skips_empty_extension (Options : PrintOptions) (info : DeclInfo)
    (members : List Decl) (patternList : List (List Decl))
    (hkind : info.kind = .Extension)
    (hskip : Options.SkipEmptyExtensionDecls = true)
    (hcontent : Options.printExtensionContentAsMembers (.mk info members patternList) = false)
    (himplicit : (Options.SkipImplicit && info.isImplicit) = false)
    (hunavailable : (Options.SkipUnavailable && info.isUnavailable) = false)
    (hstdlib : (Options.SkipPrivateStdlibDecls
        && info.isPrivateStdlibDecl (!Options.SkipUnderscoredStdlibProtocols)) = false) :
    (info.localProtocols = [] →
        (shouldPrint Options (.mk info members patternList) = false
          ↔ ∀ Member ∈ members, shouldPrint Options Member = false))
      ∧ (info.localProtocols ≠ [] →
        shouldPrint Options (.mk info members patternList) = true)
      ∧ (∀ Member ∈ members, Member.depth < (Decl.mk info members patternList).depth) := by
  have hval := shouldPrint_extension Options info members patternList hkind
  rw [hcontent, himplicit, hunavailable, hstdlib, hskip, hasMemberToPrint_eq_any] at hval
  refine ⟨?_, ?_, ?_⟩
  · intro hnone
    rw [hval, hnone]
    simp
  · intro hsome
    rw [hval]
    have hempty : info.localProtocols.isEmpty = false := by
      cases hl : info.localProtocols with
      | nil => exact absurd hl hsome
      | cons _ _ => rfl
    rw [hempty]
    rfl
  · intro Member hMember
    exact depth_member_lt info members patternList Member hMember

theorem shouldPrint_skips_empty_extension_witness :
    shouldPrint sampleSkipEmptyOptions (sampleExtension [] []) = false
      ∧ (shouldPrint sampleSkipEmptyOptions
            (sampleExtension [] [sampleEnumCase, samplePrivateVar]) = false
          ↔ ∀ Member ∈ [sampleEnumCase, samplePrivateVar],
              shouldPrint sampleSkipEmptyOptions Member = false)
      ∧ shouldPrint sampleSkipEmptyOptions (sampleExtension ["Equatable"] []) = true
      ∧ samplePrivateVar.depth
          < (sampleExtension [] [sampleEnumCase, samplePrivateVar]).depth :=
  ⟨((shouldPrint_skips_empty_extension sampleSkipEmptyOptions
      { sampleInfo .Extension with formalAccess := none, localProtocols := [] }
      [] [] rfl rfl rfl rfl rfl rfl).1 rfl).mpr (fun _ h => absurd h (List.not_mem_nil _)),
    (shouldPrint_skips_empty_extension sampleSkipEmptyOptions
      { sampleInfo .Extension with formalAccess := none, localProtocols := [] }
      [sampleEnumCase, samplePrivateVar] [] rfl rfl rfl rfl rfl rfl).1 rfl,
    (shouldPrint_skips_empty_extension sampleSkipEmptyOptions
      { sampleInfo .Extension with formalAccess := none, localProtocols := ["Equatable"] }
      [] [] rfl rfl rfl rfl rfl rfl).2.1 (by decide),
    (shouldPrint_skips_empty_extension sampleSkipEmptyOptions
      { sampleInfo .Extension with formalAccess := none, localProtocols := [] }
      [sampleEnumCase, samplePrivateVar] [] rfl rfl rfl rfl rfl rfl).2.2 samplePrivateVar
        (by simp)⟩

/-- C22: `shouldPrintPattern` is true of a pattern exactly if some variable
the pattern binds satisfies `shouldPrint`; and for a pattern binding that
passes the filters before its rule (it is skipped neither as implicit, nor as
unavailable, nor as a private declaration of the standard library)
`shouldPrint` is true exactly if `shouldPrintPattern` is true of some entry of
its pattern list, so it is false when the pattern list is empty. -/
theorem shouldPrintPattern_iff_some_variable (Options : PrintOptions) (P : List Decl)
    (info : DeclInfo) (members : List Decl) (patternList : List (List Decl)) :
    (shouldPrintPattern Options P = true ↔ ∃ VD ∈ P, shouldPrint Options VD = true)
      ∧ (info.kind = .PatternBinding →
          (Options.SkipImplicit && info.isImplicit) = false →
          (Options.SkipUnavailable && info.isUnavailable) = false →
          (Options.SkipPrivateStdlibDecls
            && info.isPrivateStdlibDecl (!Options.SkipUnderscoredStdlibProtocols)) = false →
          (shouldPrint Options (.mk info members patternList) = true
              ↔ ∃ entry ∈ patternList, shouldPrintPattern Options entry = true)
            ∧ shouldPrint Options (.mk info members []) = false) := by
  constructor
  · rw [shouldPrintPattern_eq_any, List.any_eq_true]
  · intro hkind himplicit hunavailable hstdlib
    constructor
    · rw [shouldPrint_patternBinding Options info members patternList hkind, himplicit,
        hunavailable, hstdlib, shouldPrintPatternList_eq_any]
      simp only [Bool.not_false, Bool.true_and, List.any_eq_true]
    · rw [shouldPrint_patternBinding Options info members [] hkind,
        shouldPrintPatternList_eq_any]
      simp

theorem shouldPrintPattern_iff_some_variable_witness :
    shouldPrintPattern sampleOptions [sampleEnumCase, samplePrivateVar] = true
      ∧ shouldPrint sampleOptions (samplePatternBinding [[], [samplePrivateVar]]) = true
      ∧ shouldPrint sampleOptions (samplePatternBinding []) = false :=
  ⟨(shouldPrintPattern_iff_some_variable sampleOptions [sampleEnumCase, samplePrivateVar]
      (sampleInfo .PatternBinding) [] []).1.mpr
        ⟨samplePrivateVar, by simp, by decide⟩,
    ((shouldPrintPattern_iff_some_variable sampleOptions []
      { sampleInfo .PatternBinding with formalAccess := none } []
      [[], [samplePrivateVar]]).2 rfl rfl rfl rfl).1.mpr
        ⟨[samplePrivateVar], by simp, by decide⟩,
    ((shouldPrintPattern_iff_some_variable sampleOptions []
      { sampleInfo .PatternBinding with formalAccess := none } [] []).2 rfl rfl rfl rfl).2⟩

end ASTPrinter
namespace ASTPrinter

/-- After `forEachVariable` has run over a pattern, `anyVar` is the last
variable of the pattern, or what it was when the pattern binds none. -/
theorem assignAnyVar_eq (P : List Decl) (anyVar : Option Decl) :
    assignAnyVar anyVar P = (P.getLast?).or anyVar := by
  induction P generalizing anyVar with
  | nil => rfl
  | cons V rest ih =>
    rw [assignAnyVar, ih]
    cases rest with
    | nil => rfl
    | cons V' rest' =>
      rw [List.getLast?_cons_cons]
      cases hl : (V' :: rest').getLast? with
      | none => simp at hl
      | some _ => rfl

/-- The loop that looks for `anyVar` ends with the last variable of the first
entry of the pattern list that binds a variable. -/
theorem findAnyVar_eq (patternList : List (List Decl)) :
    findAnyVar none patternList
      = (patternList.find? fun entry => !entry.isEmpty).bind List.getLast? := by
  induction patternList with
  | nil => rfl
  | cons entry rest ih =>
    rw [findAnyVar]
    cases entry with
    | nil =>
      simp only [assignAnyVar, Option.isSome_none, Bool.false_eq_true, if_false]
      rw [ih]
      rfl
    | cons V tl =>
      have h : (assignAnyVar none (V :: tl)).isSome = true := by
        rw [assignAnyVar_eq]
        cases hl : (V :: tl).getLast? with
        | none => simp at hl
        | some _ => rfl
      simp only [h, if_true]
      rw [assignAnyVar_eq]
      simp [List.find?]

/-- The loop that looks for `anyVar` finds nothing in a pattern list none of
whose entries binds a variable. -/
theorem findAnyVar_of_no_variable (patternList : List (List Decl))
    (hnone : ∀ entry ∈ patternList, entry = []) : findAnyVar none patternList = none := by
  induction patternList with
  | nil => rfl
  | cons entry rest ih =>
    have hentry : entry = [] := hnone entry (List.mem_cons_self _ _)
    subst hentry
    rw [findAnyVar]
    simp only [assignAnyVar, Option.isSome_none, Bool.false_eq_true, if_false]
    exact ih fun e he => hnone e (List.mem_cons_of_mem _ he)

/-- What `visitPatternBindingDecl` prints last is the introducer, and the
introducer is decided by `anyVar` alone: `var ` if the variable is settable,
`let ` if it is not or if there is no variable. -/
theorem visitPatternBindingDecl_introducer (M : DeclPrinters) (P : Printer) (decl : Decl) :
    ∃ P', visitPatternBindingDecl M P decl
      = printText P' (match findAnyVar none decl.patternList with
          | some anyVar => if anyVar.info.isSettable then "var " else "let "
          | none => "let ") := by
  unfold visitPatternBindingDecl
  cases findAnyVar none decl.patternList with
  | none => exact ⟨_, rfl⟩
  | some V => exact ⟨_, rfl⟩

/-- A pattern binding that binds no variable is introduced by `let `. -/
theorem visitPatternBindingDecl_of_no_variable (M : DeclPrinters) (P : Printer) (decl : Decl)
    (hnone : ∀ entry ∈ decl.patternList, entry = []) :
    ∃ P', visitPatternBindingDecl M P decl = printText P' "let " := by
  obtain ⟨P', hP'⟩ := visitPatternBindingDecl_introducer M P decl
  rw [findAnyVar_of_no_variable decl.patternList hnone] at hP'
  exact ⟨P', hP'⟩

/-- The variable that the loop for `anyVar` finds is bound by an entry of the
pattern list. -/
theorem findAnyVar_mem (patternList : List (List Decl)) (V : Decl)
    (hV : findAnyVar none patternList = some V) : ∃ entry ∈ patternList, V ∈ entry := by
  rw [findAnyVar_eq] at hV
  cases hfind : patternList.find? (fun entry => !entry.isEmpty) with
  | none => rw [hfind] at hV; cases hV
  | some entry =>
    rw [hfind] at hV
    exact ⟨entry, List.mem_of_find?_eq_some hfind, List.mem_of_getLast?_eq_some hV⟩

/-- A pattern binding all of whose variables are settable, and that binds one,
is introduced by `var `. -/
theorem visitPatternBindingDecl_of_all_settable (M : DeclPrinters) (P : Printer) (decl : Decl)
    (hall : ∀ entry ∈ decl.patternList, ∀ V ∈ entry, V.info.isSettable = true)
    (hsome : ∃ entry ∈ decl.patternList, entry ≠ []) :
    ∃ P', visitPatternBindingDecl M P decl = printText P' "var " := by
  obtain ⟨P', hP'⟩ := visitPatternBindingDecl_introducer M P decl
  cases hfind : findAnyVar none decl.patternList with
  | none =>
    exfalso
    rw [findAnyVar_eq] at hfind
    obtain ⟨entry, hentry, hne⟩ := hsome
    cases hf : decl.patternList.find? (fun entry => !entry.isEmpty) with
    | none =>
      have := List.find?_eq_none.mp hf entry hentry
      cases entry with
      | nil => exact hne rfl
      | cons _ _ => simp at this
    | some e =>
      rw [hf] at hfind
      have hp := List.find?_some hf
      cases e with
      | nil => simp at hp
      | cons a tl =>
        have : (a :: tl).getLast? = none := hfind
        simp at this
  | some V =>
    rw [hfind] at hP'
    obtain ⟨entry, hentry, hV⟩ := findAnyVar_mem decl.patternList V hfind
    simp only [hall entry hentry V hV, if_true] at hP'
    exact ⟨P', hP'⟩

/-- C23 at two pattern bindings with a variable that is not settable and a
settable one: in the first the settable variable stands in the first entry and
the other in the second, in the second both stand in one tuple pattern, the
settable one last. In both `anyVar` is the settable variable and the printer
receives the introducer `var `, although a variable of the declaration is
immutable. A pattern binding without variables receives `let `. -/
theorem visitPatternBindingDecl_mixed_binding :
    sampleImmutableVar.info.isSettable = false
      ∧ samplePrivateVar.info.isSettable = true
      ∧ sampleMixedEntries.patternList = [[samplePrivateVar], [sampleImmutableVar]]
      ∧ visitPatternBindingDecl samplePrinters [] sampleMixedEntries
          = [.text "private ", .text "var "]
      ∧ sampleMixedTuple.patternList = [[sampleImmutableVar, samplePrivateVar]]
      ∧ visitPatternBindingDecl samplePrinters [] sampleMixedTuple
          = [.text "private ", .text "var "]
      ∧ visitPatternBindingDecl samplePrinters [] (samplePatternBinding [[], []])
          = [.text "let "] := by
  refine ⟨rfl, rfl, rfl, ?_, rfl, ?_, ?_⟩ <;> decide

end ASTPrinter
